import Mathlib

/-! Record manager and block nested-loop join: a shallow embedding.

The definitions below follow `src/record/rm_file_handle.cpp`, `src/record/rm_scan.cpp`
and `src/execution/executor_block_nestedloop_join.h`.

Conventions of the embedding.

* C++ `int` fields that can hold the sentinel `-1` or be decremented below zero are `Int`;
  sizes and loop counters that only grow from zero are `Nat`.
* A byte is a `Nat`; records are byte lists that are only ever copied.
* A failed `assert` aborts the call: it is the error `RmError.AssertionFailure`.
  A thrown exception is the error carrying its name.
* A page of the record file is seen through `RmPageHandle`: the page header, the occupancy
  bitmap and the slot array.  A handle points into the buffer-pool frame, so a write through
  the handle is a write to the frame; the embedding works on the view of the handle and stores it
  back into the frame (`RmFileHandle.store`).
-/

namespace Rmdb

/-! ## Part 1. Definitions: record manager -/

/-- One byte of record data. -/
abbrev Byte := Nat

/-- The sentinel page number that means "no page" (end of the free list, end of a scan). -/
def RM_NO_PAGE : Int := -1

/-- Modelled from the spec: `RM_FIRST_RECORD_PAGE` is declared in a header that is not among
the sources; the spec numbers the record pages of a file from 0 (section 8). -/
def RM_FIRST_RECORD_PAGE : Int := 0

/-- Record identifier `(page_no, slot_no)`. -/
structure Rid where
  page_no : Int
  slot_no : Int
deriving DecidableEq, Repr

/-- File header: the four fields the record manager reads and writes. -/
structure RmFileHdr where
  record_size : Nat
  num_pages : Int
  num_records_per_page : Int
  first_free_page_no : Int
deriving DecidableEq, Repr

/-- Page header embedded in every record page. -/
structure RmPageHdr where
  next_free_page_no : Int
  num_records : Int
deriving DecidableEq, Repr

/-- Errors of the record manager: the exception thrown by `fetch_page_handle`, a failed
`assert`, a null page returned by `new_page`, and an access outside the slot array. -/
inductive RmError where
  | PageNotExistError (page_no : Int)
  | AssertionFailure
  | NullPage
  | SlotOutOfRange (slot_no : Int)
deriving DecidableEq, Repr

/-- `memcpy(dst + doff, src + soff, n)`: the `n` bytes of `dst` from offset `doff` on become
the `n` bytes of `src` from offset `soff` on. -/
def memcpy (dst : List Byte) (doff : Nat) (src : List Byte) (soff : Nat) (n : Nat) : List Byte :=
  dst.take doff ++ (src.drop soff).take n ++ dst.drop (doff + n)

namespace Bitmap

/-- Modelled from the spec: `Bitmap` is declared in a header that is not among the sources.
Section 4.1: `is_set(bitmap, i)`; the bitmap is seen as its sequence of bits, bit `i` being
slot `i`.  An index outside the bitmap reads as clear. -/
def is_set (bm : List Bool) (pos : Int) : Bool :=
  if pos < 0 then false else bm.getD pos.toNat false

/-- Modelled from the spec: section 4.1 `set(bitmap, i)`. -/
def set (bm : List Bool) (pos : Int) : List Bool :=
  if pos < 0 then bm else bm.set pos.toNat true

/-- Modelled from the spec: section 4.1 `reset(bitmap, i)`. -/
def reset (bm : List Bool) (pos : Int) : List Bool :=
  if pos < 0 then bm else bm.set pos.toNat false

/-- The loop of `next_bit`: examine `pos, pos+1, ...` while below `max_n`;
`k` is the number of positions left below `max_n`. -/
def next_bit_loop (bit : Bool) (bm : List Bool) (max_n : Int) : Nat → Int → Int
  | 0, _ => max_n
  | k + 1, pos => if is_set bm pos = bit then pos else next_bit_loop bit bm max_n k (pos + 1)

/-- Modelled from the spec: section 4.1 `next_set_from(bitmap, n, start)`: the lowest index
strictly greater than `curr` and below `max_n` whose bit equals `bit`; `rm_scan.cpp` line 42
shows that "none" is the value `max_n`. -/
def next_bit (bit : Bool) (bm : List Bool) (max_n : Int) (curr : Int) : Int :=
  next_bit_loop bit bm max_n (max_n - (curr + 1)).toNat (curr + 1)

/-- Modelled from the spec: section 4.1 `first_clear(bitmap, n)`, the scan in increasing bit
order from bit 0, "full" being `max_n`. -/
def first_bit (bit : Bool) (bm : List Bool) (max_n : Int) : Int :=
  next_bit bit bm max_n (-1)

/-- Number of set bits. -/
def popcount (bm : List Bool) : Nat :=
  bm.count true

end Bitmap

/-- The contents of one record page: header, occupancy bitmap, slot array. -/
structure RmPage where
  page_hdr : RmPageHdr
  bitmap : List Bool
  slots : List (List Byte)
deriving DecidableEq, Repr

/-- A buffer-pool frame holding a page of the record file. -/
structure Frame where
  page : RmPage
  pin_count : Nat
  is_dirty : Bool
deriving DecidableEq, Repr

/-- Modelled from the spec: the buffer pool is an external collaborator (section 6); for one
file it is the sequence of the pages of that file, page `i` at index `i`, each with its pin count
and dirty flag.  The pool never runs out of frames. -/
structure BufferPoolManager where
  frames : List Frame
deriving DecidableEq, Repr

namespace BufferPoolManager

/-- Modelled from the spec: `fetch_page(file_id, page_no) -> pinned page or not-found`. -/
def fetch_page (bpm : BufferPoolManager) (page_no : Int) : Option (RmPage × BufferPoolManager) :=
  if page_no < 0 then none
  else match bpm.frames.get? page_no.toNat with
    | none => none
    | some f =>
      some (f.page, ⟨bpm.frames.set page_no.toNat { f with pin_count := f.pin_count + 1 }⟩)

/-- Modelled from the spec: `new_page(file_id) -> pinned fresh page`: a zero-filled page
behind the last page of the file. -/
def new_page (bpm : BufferPoolManager) (hdr : RmFileHdr) : Int × RmPage × BufferPoolManager :=
  let page : RmPage :=
    { page_hdr := ⟨0, 0⟩
      bitmap := List.replicate hdr.num_records_per_page.toNat false
      slots := List.replicate hdr.num_records_per_page.toNat (List.replicate hdr.record_size 0) }
  ((bpm.frames.length : Int), page, ⟨bpm.frames ++ [⟨page, 1, false⟩]⟩)

/-- Modelled from the spec: `unpin(page_id, dirty)`. -/
def unpin_page (bpm : BufferPoolManager) (page_no : Int) (dirty : Bool) : BufferPoolManager :=
  if page_no < 0 then bpm
  else match bpm.frames.get? page_no.toNat with
    | none => bpm
    | some f =>
      ⟨bpm.frames.set page_no.toNat
        { f with pin_count := f.pin_count - 1, is_dirty := f.is_dirty || dirty }⟩

end BufferPoolManager

/-- The record file handle: its header and the buffer pool it reads pages through. -/
structure RmFileHandle where
  file_hdr_ : RmFileHdr
  buffer_pool_manager_ : BufferPoolManager
deriving DecidableEq, Repr

/-- Modelled from the spec: `RmPageHandle` is declared in a header that is not among the
sources.  It gives access to the parts of one page (section 6, persisted layout):
the page header, the bitmap and the slots; `page_no` is `page->get_page_id().page_no`. -/
structure RmPageHandle where
  page_no : Int
  page_hdr : RmPageHdr
  bitmap : List Bool
  slots : List (List Byte)
deriving DecidableEq, Repr

namespace RmPageHandle

/-- The handle over a page. -/
def ofPage (page_no : Int) (p : RmPage) : RmPageHandle :=
  ⟨page_no, p.page_hdr, p.bitmap, p.slots⟩

/-- The page seen through the handle. -/
def toPage (h : RmPageHandle) : RmPage :=
  ⟨h.page_hdr, h.bitmap, h.slots⟩

/-- Modelled from the spec: `get_slot(slot_no)` read: the bytes of slot `slot_no`
(`slot width = record_size`); a read of a cell that the embedding does not hold (in front of
the slot array, or behind it and never written) is a fault. -/
def get_slot (h : RmPageHandle) (slot_no : Int) : Except RmError (List Byte) :=
  if slot_no < 0 then .error (.SlotOutOfRange slot_no)
  else match h.slots.get? slot_no.toNat with
    | none => .error (.SlotOutOfRange slot_no)
    | some d => .ok d

/-- The cells of a page from the start of its slot array on, with cell `k` replaced by `v`.
`get_slot(k)` is an address computed without a bounds test, so a write to `k` at or behind the
end of the slot array lands in the memory that follows the array: the list then grows to
hold that cell (cells in between, never written, count as zero bytes). -/
def write_cell (slots : List (List Byte)) (k : Nat) (v : List Byte) (n : Nat) :
    List (List Byte) :=
  if k < slots.length then slots.set k v
  else slots ++ List.replicate (k - slots.length) (List.replicate n 0) ++ [v]

/-- The write `memcpy(get_slot(slot_no), buf, n)`.  There is no bounds test on `slot_no`
(lines 56-59, 89-90, 144-145); a negative `slot_no` addresses bytes in front of the slot
array, which the embedding does not hold, and is a fault. -/
def write_slot (h : RmPageHandle) (slot_no : Int) (buf : List Byte) (n : Nat) :
    Except RmError RmPageHandle :=
  if slot_no < 0 then .error (.SlotOutOfRange slot_no)
  else
    let d := h.slots.getD slot_no.toNat (List.replicate n 0)
    .ok { h with slots := write_cell h.slots slot_no.toNat (memcpy d 0 buf 0 n) n }

end RmPageHandle

/-- A record returned by `get_record`. -/
structure RmRecord where
  data : List Byte
  size : Nat
deriving DecidableEq, Repr

namespace RmFileHandle

/-- A write through a page handle lands in the buffer-pool frame of that page. -/
def store (fh : RmFileHandle) (h : RmPageHandle) : RmFileHandle :=
  if h.page_no < 0 then fh
  else match fh.buffer_pool_manager_.frames.get? h.page_no.toNat with
    | none => fh
    | some f =>
      { fh with buffer_pool_manager_ :=
          ⟨fh.buffer_pool_manager_.frames.set h.page_no.toNat { f with page := h.toPage }⟩ }

/-- `RmFileHandle::fetch_page_handle` (lines 156-173). -/
def fetch_page_handle (fh : RmFileHandle) (page_no : Int) :
    Except RmError (RmPageHandle × RmFileHandle) :=
  if page_no ≥ fh.file_hdr_.num_pages then .error (.PageNotExistError page_no)
  else match fh.buffer_pool_manager_.fetch_page page_no with
    | none => .error (.PageNotExistError page_no)
    | some (page, bpm) => .ok (RmPageHandle.ofPage page_no page, { fh with buffer_pool_manager_ := bpm })

/-- `RmFileHandle::create_new_page_handle` (lines 179-202).  The pool of the embedding always
has a frame, so the null-page branch is not taken. -/
def create_new_page_handle (fh : RmFileHandle) : Except RmError (RmPageHandle × RmFileHandle) :=
  match fh.buffer_pool_manager_.new_page fh.file_hdr_ with
  | (page_no, page, bpm) =>
    let pageHandle := RmPageHandle.ofPage page_no page
    let pageHandle := { pageHandle with page_hdr.num_records := 0 }
    let pageHandle := { pageHandle with page_hdr.next_free_page_no := RM_NO_PAGE }
    let fh := { fh with buffer_pool_manager_ := bpm }
    let fh := { fh with file_hdr_.num_pages := fh.file_hdr_.num_pages + 1 }
    let fh := { fh with file_hdr_.first_free_page_no := pageHandle.page_no }
    .ok (pageHandle, fh.store pageHandle)

/-- `RmFileHandle::create_page_handle` (lines 210-224). -/
def create_page_handle (fh : RmFileHandle) : Except RmError (RmPageHandle × RmFileHandle) :=
  if fh.file_hdr_.first_free_page_no = RM_NO_PAGE then create_new_page_handle fh
  else fetch_page_handle fh fh.file_hdr_.first_free_page_no

/-- `RmFileHandle::release_page_handle` (lines 229-238). -/
def release_page_handle (fh : RmFileHandle) (page_handle : RmPageHandle) :
    RmPageHandle × RmFileHandle :=
  let page_handle :=
    { page_handle with page_hdr.next_free_page_no := fh.file_hdr_.first_free_page_no }
  let fh := { fh with file_hdr_.first_free_page_no := page_handle.page_no }
  (page_handle, fh)

/-- `RmFileHandle::get_record` (lines 19-34).  The page is fetched and not unpinned. -/
def get_record (fh : RmFileHandle) (rid : Rid) : Except RmError (RmRecord × RmFileHandle) :=
  match fetch_page_handle fh rid.page_no with
  | .error e => .error e
  | .ok (pageHandle, fh) =>
    let size := fh.file_hdr_.record_size
    match pageHandle.get_slot rid.slot_no with
    | .error e => .error e
    | .ok d => .ok (⟨memcpy (List.replicate size 0) 0 d 0 size, size⟩, fh)

/-- `RmFileHandle::insert_record(char*, Context*)` (lines 42-73).  The result of
`Bitmap::first_bit` is used as the slot without a test: when the page has no clear bit it is
`num_records_per_page`, the record is written behind the slot array, and the call returns
that slot number.  The bit the code then sets lies outside the `num_records_per_page` bits
the bitmap of the embedding holds. -/
def insert_record (fh : RmFileHandle) (buf : List Byte) : Except RmError (Rid × RmFileHandle) :=
  match create_page_handle fh with
  | .error e => .error e
  | .ok (pageHandle, fh) =>
    let slot_no := Bitmap.first_bit false pageHandle.bitmap fh.file_hdr_.num_records_per_page
    let pageHandle := { pageHandle with bitmap := Bitmap.set pageHandle.bitmap slot_no }
    match pageHandle.write_slot slot_no buf fh.file_hdr_.record_size with
    | .error e => .error e
    | .ok pageHandle =>
      let pageHandle := { pageHandle with page_hdr.num_records := pageHandle.page_hdr.num_records + 1 }
      let fh :=
        if pageHandle.page_hdr.num_records = fh.file_hdr_.num_records_per_page then
          { fh with file_hdr_.first_free_page_no := pageHandle.page_hdr.next_free_page_no }
        else fh
      let fh := fh.store pageHandle
      let fh := { fh with buffer_pool_manager_ :=
                    fh.buffer_pool_manager_.unpin_page pageHandle.page_no true }
      .ok (⟨pageHandle.page_no, slot_no⟩, fh)

/-- `RmFileHandle::insert_record(const Rid&, char*)` (lines 80-99). -/
def insert_record_at (fh : RmFileHandle) (rid : Rid) (buf : List Byte) :
    Except RmError RmFileHandle :=
  match fetch_page_handle fh rid.page_no with
  | .error e => .error e
  | .ok (pageHandle, fh) =>
    if ¬ Bitmap.is_set pageHandle.bitmap rid.slot_no then .error .AssertionFailure
    else
      let pageHandle := { pageHandle with bitmap := Bitmap.set pageHandle.bitmap rid.slot_no }
      match pageHandle.write_slot rid.slot_no buf fh.file_hdr_.record_size with
      | .error e => .error e
      | .ok pageHandle =>
        let fh :=
          if pageHandle.page_hdr.num_records = fh.file_hdr_.num_records_per_page then
            { fh with file_hdr_.first_free_page_no := pageHandle.page_hdr.next_free_page_no }
          else fh
        let fh := fh.store pageHandle
        .ok { fh with buffer_pool_manager_ :=
                fh.buffer_pool_manager_.unpin_page pageHandle.page_no true }

/-- The statements of `delete_record` behind its assertion (lines 117-122). -/
def delete_record_body (fh : RmFileHandle) (pageHandle : RmPageHandle) (rid : Rid) :
    RmFileHandle :=
  let pageHandle := { pageHandle with bitmap := Bitmap.reset pageHandle.bitmap rid.slot_no }
  let pageHandle := { pageHandle with page_hdr.num_records := pageHandle.page_hdr.num_records - 1 }
  if pageHandle.page_hdr.num_records = 0 then
    match release_page_handle fh pageHandle with
    | (pageHandle, fh) => fh.store pageHandle
  else fh.store pageHandle

/-- `RmFileHandle::delete_record` (lines 106-123).  The assertion at line 116 requires the
bit of the slot to be clear.  The page is not unpinned. -/
def delete_record (fh : RmFileHandle) (rid : Rid) : Except RmError RmFileHandle :=
  match fetch_page_handle fh rid.page_no with
  | .error e => .error e
  | .ok (pageHandle, fh) =>
    if ¬ (! Bitmap.is_set pageHandle.bitmap rid.slot_no) then .error .AssertionFailure
    else .ok (delete_record_body fh pageHandle rid)

/-- `RmFileHandle::update_record` (lines 132-146).  The page is not unpinned. -/
def update_record (fh : RmFileHandle) (rid : Rid) (buf : List Byte) :
    Except RmError RmFileHandle :=
  match fetch_page_handle fh rid.page_no with
  | .error e => .error e
  | .ok (pageHandle, fh) =>
    if ¬ Bitmap.is_set pageHandle.bitmap rid.slot_no then .error .AssertionFailure
    else
      match pageHandle.write_slot rid.slot_no buf fh.file_hdr_.record_size with
      | .error e => .error e
      | .ok pageHandle => .ok (fh.store pageHandle)

/-- A file without pages: no record page, empty free list. -/
def empty (record_size : Nat) (num_records_per_page : Int) : RmFileHandle :=
  { file_hdr_ := ⟨record_size, 0, num_records_per_page, RM_NO_PAGE⟩
    buffer_pool_manager_ := ⟨[]⟩ }

/-- The page with number `page_no`, when the file has it. -/
def page? (fh : RmFileHandle) (page_no : Int) : Option RmPage :=
  if page_no < 0 then none
  else (fh.buffer_pool_manager_.frames.get? page_no.toNat).map Frame.page

end RmFileHandle

/-! ## Definitions: heap scan cursor -/

/-- The scan cursor: its current record identifier.  The file handle it points to is passed
to every operation and returned, since fetching a page changes the pin counts. -/
structure RmScan where
  rid_ : Rid
deriving DecidableEq, Repr

namespace RmScan

/-- The `for` loop of `RmScan::next` (lines 38-50): `n` pages are left below `num_pages`,
`slot_no` is `rid_.slot_no`, which the loop body does not change. -/
def next_loop (slot_no : Int) : Nat → Int → RmFileHandle → Except RmError (Rid × RmFileHandle)
  | 0, _, fh => .ok (⟨RM_NO_PAGE, -1⟩, fh)
  | n + 1, page_no, fh =>
    match fh.fetch_page_handle page_no with
    | .error e => .error e
    | .ok (pageHandle, fh) =>
      let ret := Bitmap.next_bit true pageHandle.bitmap fh.file_hdr_.num_records_per_page slot_no
      if ret ≠ fh.file_hdr_.num_records_per_page then .ok (⟨page_no, ret⟩, fh)
      else next_loop slot_no n (page_no + 1) fh

/-- `RmScan::next` (lines 33-54). -/
def next (scan : RmScan) (fh : RmFileHandle) : Except RmError (RmScan × RmFileHandle) :=
  match next_loop scan.rid_.slot_no (fh.file_hdr_.num_pages - scan.rid_.page_no).toNat
      scan.rid_.page_no fh with
  | .error e => .error e
  | .ok (rid, fh) => .ok (⟨rid⟩, fh)

/-- `RmScan::RmScan` (lines 18-28).  Line 24 builds a temporary `Rid` and drops it, so `rid_`
keeps the value `uninit` it had before the constructor ran. -/
def new (fh : RmFileHandle) (uninit : Rid) : Except RmError (RmScan × RmFileHandle) :=
  next ⟨uninit⟩ fh

/-- `RmScan::is_end` (lines 59-62). -/
def is_end (scan : RmScan) : Bool :=
  scan.rid_.page_no = RM_NO_PAGE

/-- `RmScan::rid` (lines 67-69). -/
def rid (scan : RmScan) : Rid :=
  scan.rid_

/-- The caller loop `while (!scan.is_end()) { use scan.rid(); scan.next(); }`
(`sm_manager.cpp` lines 312-318): the record identifiers it sees, `none` when `fuel` calls of
`next` do not reach the end or `next` throws. -/
def collect : Nat → RmScan → RmFileHandle → Option (List Rid)
  | 0, _, _ => none
  | fuel + 1, scan, fh =>
    if scan.is_end then some []
    else match scan.next fh with
      | .error _ => none
      | .ok (scan1, fh) => (collect fuel scan1 fh).map (fun rest => scan.rid :: rest)

/-- Construct a scan and run the caller loop. -/
def scan_all (fuel : Nat) (fh : RmFileHandle) (uninit : Rid) : Option (List Rid) :=
  match RmScan.new fh uninit with
  | .error _ => none
  | .ok (scan, fh) => collect fuel scan fh

end RmScan

/-! ## Definitions: block nested-loop join -/

/-- Modelled from the spec: the column type tag (`ColType` is declared in a header that is
not among the sources); only equality of tags is used. -/
abbrev ColType := Nat

/-- Modelled from the spec: the comparison operator tag of a condition. -/
abbrev CompOp := Nat

/-- A column named by table and column name. -/
structure TabCol where
  tab_name : String
  col_name : String
deriving DecidableEq, Repr

/-- Column metadata `(owning_table, name, type, byte_length, byte_offset)`.  The offset is
a C++ `int`: `sm_manager.cpp` line 232 stores the `int curr_offset` in it, and the comment
of line 79 of the join says so. -/
structure ColMeta where
  tab_name : String
  name : String
  type : ColType
  len : Nat
  offset : Int
deriving DecidableEq, Repr

/-- The value an `int` holds after the assignment of `x`: `x` modulo `2^32`, in the range
`-2^31 .. 2^31 - 1`. -/
def to_int32 (x : Int) : Int :=
  (x + 2147483648) % 4294967296 - 2147483648

/-- A join condition `lhs_col op rhs_col` (or `lhs_col op value` when `is_rhs_val`). -/
structure Condition where
  lhs_col : TabCol
  op : CompOp
  is_rhs_val : Bool
  rhs_col : TabCol
deriving DecidableEq, Repr

/-- Modelled from the spec: a child executor is a pull-iterator (`open`, `advance`,
`current`, `done`) over a finite sequence of tuples; `AbstractExecutor` and the scan
executors are not among the sources. -/
structure Executor where
  tuples : List (List Byte)
  pos : Nat
  len : Nat
  cols : List ColMeta
deriving DecidableEq, Repr

namespace Executor

/-- Modelled from the spec: `open`, the cursor goes to the first tuple. -/
def beginTuple (e : Executor) : Executor := { e with pos := 0 }

/-- Modelled from the spec: `advance`. -/
def nextTuple (e : Executor) : Executor := { e with pos := e.pos + 1 }

/-- Modelled from the spec: `done`. -/
def is_end (e : Executor) : Bool := decide (e.tuples.length ≤ e.pos)

/-- Modelled from the spec: `current`, the bytes of the tuple under the cursor. -/
def Next (e : Executor) : List Byte := e.tuples.getD e.pos []

/-- The tuple length the child declares. -/
def tupleLen (e : Executor) : Nat := e.len

end Executor

/-- A temporary page of the buffer pool: its page number in the pool and its bytes. -/
structure Page where
  id : Nat
  data : List Byte
deriving DecidableEq, Repr, Inhabited

/-- Modelled from the spec: the temporary-page side of the buffer pool (section 6):
`new_tmp_count` pages were handed out so far, numbered from 0; `unpin_log` lists the
`unpin_tmp_page` calls in order. -/
structure TmpPool where
  new_tmp_count : Nat
  unpin_log : List Nat
deriving DecidableEq, Repr

namespace TmpPool

/-- Modelled from the spec: `new_temporary_page() -> pinned page`, zero-filled, with a
pool-local id not used before. -/
def new_tmp_page (bpm : TmpPool) (PAGE_SIZE : Nat) : Page × TmpPool :=
  (⟨bpm.new_tmp_count, List.replicate PAGE_SIZE 0⟩, { bpm with new_tmp_count := bpm.new_tmp_count + 1 })

/-- Modelled from the spec: `unpin` of a temporary page. -/
def unpin_tmp_page (bpm : TmpPool) (id : Nat) : TmpPool :=
  { bpm with unpin_log := bpm.unpin_log ++ [id] }

end TmpPool

/-- `std::unordered_map<PageId, int>::find(k)->second` for a key that is present. -/
def map_find (m : List (Nat × Nat)) (k : Nat) : Nat :=
  (m.lookup k).getD 0

/-- `std::unordered_map<PageId, int>::operator[](k) = v`. -/
def map_assign (m : List (Nat × Nat)) (k v : Nat) : List (Nat × Nat) :=
  (k, v) :: m.filter (fun e => e.1 ≠ k)

/-- Errors of the join constructor: the two exceptions, a failed `assert`, and the trap of
an integer division by zero. -/
inductive JoinError where
  | IncompatibleTypeError (lhs rhs : ColType)
  | ColumnNotFoundError (col : TabCol)
  | AssertionFailure
  | DivisionByZero
deriving DecidableEq, Repr

/-- Modelled from the spec: `get_col` is declared in `executor_abstract.h`, not among the
sources: the first column of `rec_cols` with the table and column name of `target`. -/
def get_col (rec_cols : List ColMeta) (target : TabCol) : Except JoinError ColMeta :=
  match rec_cols.find? (fun col => col.tab_name = target.tab_name ∧ col.name = target.col_name) with
  | none => .error (.ColumnNotFoundError target)
  | some col => .ok col

/-- The members of `BlockNestedLoopJoinExecutor` (lines 24-59). -/
structure BlockNestedLoopJoinExecutor where
  left_ : Executor
  right_ : Executor
  len_ : Nat
  cols_ : List ColMeta
  fed_conds_ : List Condition
  join_cols_ : List (ColMeta × ColMeta)
  is_end_ : Bool
  left_len_ : Nat
  right_len_ : Nat
  bpm_ : TmpPool
  right_buffer_pages_ : List Page
  right_buffer_page_cnt_ : Nat
  left_buffer_pages_ : List Page
  left_buffer_page_cnt_ : Nat
  left_buffer_page_iter_ : Nat
  left_buffer_page_inner_iter_ : Nat
  right_buffer_page_iter_ : Nat
  right_buffer_page_inner_iter_ : Nat
  left_num_per_page_ : Nat
  right_num_per_page_ : Nat
  left_num_now_ : List (Nat × Nat)
  right_num_now_ : List (Nat × Nat)
  left_num_now_inner_ : Nat
  right_num_now_inner_ : Nat
  left_over : Bool
  right_over : Bool
  join_record : List Byte
deriving DecidableEq, Repr

namespace BlockNestedLoopJoinExecutor

/-- The loop over the conditions in the constructor (lines 84-93). -/
def build_join_cols (cols_ : List ColMeta) :
    List Condition → List (ColMeta × ColMeta) → Except JoinError (List (ColMeta × ColMeta))
  | [], join_cols_ => .ok join_cols_
  | cond :: rest, join_cols_ =>
    if cond.is_rhs_val then .error .AssertionFailure
    else match get_col cols_ cond.lhs_col with
      | .error e => .error e
      | .ok left_join_col =>
        match get_col cols_ cond.rhs_col with
        | .error e => .error e
        | .ok right_join_col =>
          if left_join_col.type ≠ right_join_col.type then
            .error (.IncompatibleTypeError left_join_col.type right_join_col.type)
          else build_join_cols cols_ rest (join_cols_ ++ [(left_join_col, right_join_col)])

/-- The constructor (lines 62-96).  The divisions of lines 69 and 72 come before the loop
over the conditions and trap when a child's tuple length is 0.  `col.offset += left_len_`
(line 79) stores into an `int`.  The four cursor members and the two `_num_now_inner_`
members are not initialised by it; they are written before they are read, and start as 0
here. -/
def new (PAGE_SIZE : Nat) (left right : Executor) (conds : List Condition) (bpm : TmpPool) :
    Except JoinError BlockNestedLoopJoinExecutor :=
  let left_len_ := left.tupleLen
  if left_len_ = 0 then .error .DivisionByZero
  else
    let left_num_per_page_ := PAGE_SIZE / left_len_
    let right_len_ := right.tupleLen
    if right_len_ = 0 then .error .DivisionByZero
    else
      let right_num_per_page_ := PAGE_SIZE / right_len_
      let len_ := left_len_ + right_len_
      let right_cols := right.cols.map
        (fun col => { col with offset := to_int32 (col.offset + left_len_) })
      let cols_ := left.cols ++ right_cols
      match build_join_cols cols_ conds [] with
      | .error e => .error e
      | .ok join_cols_ =>
        .ok { left_ := left, right_ := right, len_ := len_, cols_ := cols_, fed_conds_ := conds,
              join_cols_ := join_cols_, is_end_ := false, left_len_ := left_len_,
              right_len_ := right_len_, bpm_ := bpm,
              right_buffer_pages_ := [], right_buffer_page_cnt_ := 0,
              left_buffer_pages_ := [], left_buffer_page_cnt_ := 0,
              left_buffer_page_iter_ := 0, left_buffer_page_inner_iter_ := 0,
              right_buffer_page_iter_ := 0, right_buffer_page_inner_iter_ := 0,
              left_num_per_page_ := left_num_per_page_,
              right_num_per_page_ := right_num_per_page_,
              left_num_now_ := [], right_num_now_ := [],
              left_num_now_inner_ := 0, right_num_now_inner_ := 0,
              left_over := false, right_over := false,
              join_record := List.replicate len_ 0 }

end BlockNestedLoopJoinExecutor

/-- Modelled from the spec: `evaluate_compare` is declared outside the sources; it is the
typed comparison `op` between the `len` bytes at two addresses, here the two byte sequences
that start at those addresses. -/
abbrev EvaluateCompare := List Byte → List Byte → ColType → Nat → CompOp → Bool

section join
variable (evaluate_compare : EvaluateCompare)

/-- `Check_ith_Condition` (lines 338-344); `.at(i)` outside the vector throws, the
condition then counts as not satisfied.  `data + col.offset` with a negative offset is an
address in front of the record; the embedding reads from the start of the record then. -/
def Check_ith_Condition (s : BlockNestedLoopJoinExecutor) (data : List Byte) (i : Nat) : Bool :=
  match s.join_cols_.get? i, s.fed_conds_.get? i with
  | some (left_col, right_col), some cond =>
    evaluate_compare (data.drop left_col.offset.toNat) (data.drop right_col.offset.toNat)
      left_col.type left_col.len cond.op
  | _, _ => false

/-- `CheckConditions` (lines 321-332). -/
def CheckConditions (s : BlockNestedLoopJoinExecutor) (data : List Byte) : Bool :=
  (List.range s.fed_conds_.length).foldl
    (fun result i => result && Check_ith_Condition evaluate_compare s data i) true

/-- The loop `while (right_buffer_page_inner_iter_ < right_num_now_inner_)` (lines 125-132)
over the tuples of `right_page`; `n` bounds the iterations left.  The flag of the result
tells whether `nextTuple` returned from inside the loop. -/
def right_inner_loop (right_page : Page) :
    Nat → BlockNestedLoopJoinExecutor → Bool × BlockNestedLoopJoinExecutor
  | 0, s => (false, s)
  | n + 1, s =>
    if s.right_buffer_page_inner_iter_ < s.right_num_now_inner_ then
      let s := { s with join_record := memcpy s.join_record s.left_len_ right_page.data
                          (s.right_buffer_page_inner_iter_ * s.right_len_) s.right_len_ }
      let s := { s with right_buffer_page_inner_iter_ := s.right_buffer_page_inner_iter_ + 1 }
      if CheckConditions evaluate_compare s s.join_record then (true, s)
      else right_inner_loop right_page n s
    else (false, s)

/-- The loop `while (right_buffer_page_iter_ < right_buffer_page_cnt_)` (lines 122-136). -/
def right_pages_loop : Nat → BlockNestedLoopJoinExecutor → Bool × BlockNestedLoopJoinExecutor
  | 0, s => (false, s)
  | n + 1, s =>
    if s.right_buffer_page_iter_ < s.right_buffer_page_cnt_ then
      let right_page := s.right_buffer_pages_.getD s.right_buffer_page_iter_ default
      let s := { s with right_num_now_inner_ := map_find s.right_num_now_ right_page.id }
      match right_inner_loop evaluate_compare right_page
          (s.right_num_now_inner_ - s.right_buffer_page_inner_iter_) s with
      | (true, s) => (true, s)
      | (false, s) =>
        let s := { s with right_buffer_page_iter_ := s.right_buffer_page_iter_ + 1 }
        let s := { s with right_buffer_page_inner_iter_ := 0 }
        right_pages_loop n s
    else (false, s)

/-- The loop `while (left_buffer_page_inner_iter_ < left_num_now_inner_)` (lines 120-139)
over the tuples of `left_page`. -/
def left_inner_loop (left_page : Page) :
    Nat → BlockNestedLoopJoinExecutor → Bool × BlockNestedLoopJoinExecutor
  | 0, s => (false, s)
  | n + 1, s =>
    if s.left_buffer_page_inner_iter_ < s.left_num_now_inner_ then
      let s := { s with join_record := memcpy s.join_record 0 left_page.data
                          (s.left_buffer_page_inner_iter_ * s.left_len_) s.left_len_ }
      match right_pages_loop evaluate_compare
          (s.right_buffer_page_cnt_ - s.right_buffer_page_iter_) s with
      | (true, s) => (true, s)
      | (false, s) =>
        let s := { s with right_buffer_page_iter_ := 0 }
        let s := { s with left_buffer_page_inner_iter_ := s.left_buffer_page_inner_iter_ + 1 }
        left_inner_loop left_page n s
    else (false, s)

/-- The loop `while (left_buffer_page_iter_ < left_buffer_page_cnt_)` (lines 117-142). -/
def left_pages_loop : Nat → BlockNestedLoopJoinExecutor → Bool × BlockNestedLoopJoinExecutor
  | 0, s => (false, s)
  | n + 1, s =>
    if s.left_buffer_page_iter_ < s.left_buffer_page_cnt_ then
      let left_page := s.left_buffer_pages_.getD s.left_buffer_page_iter_ default
      let s := { s with left_num_now_inner_ := map_find s.left_num_now_ left_page.id }
      match left_inner_loop evaluate_compare left_page
          (s.left_num_now_inner_ - s.left_buffer_page_inner_iter_) s with
      | (true, s) => (true, s)
      | (false, s) =>
        let s := { s with left_buffer_page_iter_ := s.left_buffer_page_iter_ + 1 }
        let s := { s with left_buffer_page_inner_iter_ := 0 }
        left_pages_loop n s
    else (false, s)

end join

/-- The loop of `fill_right_page` and of `fill_left_page` (lines 254-258, 293-297):
copy tuples of `child` into `data` while the child has tuples and the page has room;
`n` bounds the iterations left. -/
def fill_page_loop (len num_per_page : Nat) :
    Nat → Nat → List Byte → Executor → Nat × List Byte × Executor
  | 0, record_cnt, data, child => (record_cnt, data, child)
  | n + 1, record_cnt, data, child =>
    if !child.is_end && decide (record_cnt < num_per_page) then
      fill_page_loop len num_per_page n (record_cnt + 1)
        (memcpy data (record_cnt * len) child.Next 0 len) child.nextTuple
    else (record_cnt, data, child)

namespace BlockNestedLoopJoinExecutor

/-- `fill_right_page` (lines 252-261) on the page at index `idx` of `right_buffer_pages_`. -/
def fill_right_page (s : BlockNestedLoopJoinExecutor) (idx : Nat) : BlockNestedLoopJoinExecutor :=
  let page := s.right_buffer_pages_.getD idx default
  match fill_page_loop s.right_len_ s.right_num_per_page_ s.right_num_per_page_ 0 page.data
      s.right_ with
  | (record_cnt, data, right) =>
    { s with right_ := right,
             right_buffer_pages_ := s.right_buffer_pages_.set idx { page with data := data },
             right_num_now_ := map_assign s.right_num_now_ page.id record_cnt }

/-- `fill_left_page` (lines 291-300) on the page at index `idx` of `left_buffer_pages_`. -/
def fill_left_page (s : BlockNestedLoopJoinExecutor) (idx : Nat) : BlockNestedLoopJoinExecutor :=
  let page := s.left_buffer_pages_.getD idx default
  match fill_page_loop s.left_len_ s.left_num_per_page_ s.left_num_per_page_ 0 page.data
      s.left_ with
  | (record_cnt, data, left) =>
    { s with left_ := left,
             left_buffer_pages_ := s.left_buffer_pages_.set idx { page with data := data },
             left_num_now_ := map_assign s.left_num_now_ page.id record_cnt }

/-- The loop of `init_right_page` (lines 229-243); `n` bounds the pages still to create. -/
def init_right_loop (JOIN_POOL_SIZE PAGE_SIZE : Nat) :
    Nat → BlockNestedLoopJoinExecutor → BlockNestedLoopJoinExecutor
  | 0, s => s
  | n + 1, s =>
    if !s.right_.is_end then
      if s.right_buffer_pages_.length ≥ JOIN_POOL_SIZE / 2 then s
      else
        match s.bpm_.new_tmp_page PAGE_SIZE with
        | (right_buffer_page, bpm) =>
          let s := { s with bpm_ := bpm }
          let s := { s with right_buffer_pages_ := s.right_buffer_pages_ ++ [right_buffer_page] }
          let s := fill_right_page s (s.right_buffer_pages_.length - 1)
          init_right_loop JOIN_POOL_SIZE PAGE_SIZE n s
    else s

/-- `init_right_page` (lines 227-246). -/
def init_right_page (JOIN_POOL_SIZE PAGE_SIZE : Nat) (s : BlockNestedLoopJoinExecutor) :
    BlockNestedLoopJoinExecutor :=
  let s := { s with right_ := s.right_.beginTuple }
  let s := init_right_loop JOIN_POOL_SIZE PAGE_SIZE
    (JOIN_POOL_SIZE / 2 - s.right_buffer_pages_.length) s
  { s with right_buffer_page_cnt_ := s.right_buffer_pages_.length }

/-- The loop of `init_left_page` (lines 268-287). -/
def init_left_loop (JOIN_POOL_SIZE PAGE_SIZE : Nat) :
    Nat → BlockNestedLoopJoinExecutor → BlockNestedLoopJoinExecutor
  | 0, s => s
  | n + 1, s =>
    if !s.left_.is_end then
      if s.left_buffer_pages_.length ≥ JOIN_POOL_SIZE / 2 then s
      else
        match s.bpm_.new_tmp_page PAGE_SIZE with
        | (left_buffer_page, bpm) =>
          let s := { s with bpm_ := bpm }
          let s := { s with left_buffer_pages_ := s.left_buffer_pages_ ++ [left_buffer_page] }
          let s := fill_left_page s (s.left_buffer_pages_.length - 1)
          init_left_loop JOIN_POOL_SIZE PAGE_SIZE n s
    else s

/-- `init_left_page` (lines 266-290). -/
def init_left_page (JOIN_POOL_SIZE PAGE_SIZE : Nat) (s : BlockNestedLoopJoinExecutor) :
    BlockNestedLoopJoinExecutor :=
  let s := { s with left_ := s.left_.beginTuple }
  let s := init_left_loop JOIN_POOL_SIZE PAGE_SIZE
    (JOIN_POOL_SIZE / 2 - s.left_buffer_pages_.length) s
  { s with left_buffer_page_cnt_ := s.left_buffer_pages_.length }

/-- The refill loop of the right buffer (lines 152-161 and 193-202): `n` bounds the pages
still allowed, `cnt` is `right_buffer_new_page_cnt_`. -/
def refill_right_loop : Nat → Nat → BlockNestedLoopJoinExecutor → Nat × BlockNestedLoopJoinExecutor
  | 0, cnt, s => (cnt, s)
  | n + 1, cnt, s =>
    if !s.right_.is_end then
      if cnt ≥ s.right_buffer_page_cnt_ then (cnt, s)
      else refill_right_loop n (cnt + 1) (fill_right_page s cnt)
    else (cnt, s)

/-- The right refill (lines 151-164 and 192-205). -/
def refill_right (s : BlockNestedLoopJoinExecutor) : BlockNestedLoopJoinExecutor :=
  match refill_right_loop s.right_buffer_page_cnt_ 0 s with
  | (right_buffer_new_page_cnt_, s) =>
    let s := { s with right_buffer_page_cnt_ := right_buffer_new_page_cnt_ }
    let s := { s with right_buffer_page_inner_iter_ := 0 }
    { s with right_buffer_page_iter_ := 0 }

/-- The refill loop of the left buffer (lines 176-185). -/
def refill_left_loop : Nat → Nat → BlockNestedLoopJoinExecutor → Nat × BlockNestedLoopJoinExecutor
  | 0, cnt, s => (cnt, s)
  | n + 1, cnt, s =>
    if !s.left_.is_end then
      if cnt ≥ s.left_buffer_page_cnt_ then (cnt, s)
      else refill_left_loop n (cnt + 1) (fill_left_page s cnt)
    else (cnt, s)

/-- The left refill (lines 175-188). -/
def refill_left (s : BlockNestedLoopJoinExecutor) : BlockNestedLoopJoinExecutor :=
  match refill_left_loop s.left_buffer_page_cnt_ 0 s with
  | (left_buffer_new_page_cnt_, s) =>
    let s := { s with left_buffer_page_cnt_ := left_buffer_new_page_cnt_ }
    let s := { s with left_buffer_page_inner_iter_ := 0 }
    { s with left_buffer_page_iter_ := 0 }

section join
variable (evaluate_compare : EvaluateCompare)

/-- The loop `while (!right_over)` (lines 116-168).  `none`: the fuel ran out. -/
def while_right : Nat → BlockNestedLoopJoinExecutor → Option (Bool × BlockNestedLoopJoinExecutor)
  | 0, _ => none
  | fuel + 1, s =>
    if !s.right_over then
      match left_pages_loop evaluate_compare
          (s.left_buffer_page_cnt_ - s.left_buffer_page_iter_) s with
      | (true, s) => some (true, s)
      | (false, s) =>
        if s.right_.is_end then
          let s := { s with right_over := true }
          let s := { s with left_buffer_page_iter_ := 0 }
          while_right fuel s
        else
          let s := refill_right s
          let s := { s with left_buffer_page_iter_ := 0 }
          let s := { s with left_buffer_page_inner_iter_ := 0 }
          while_right fuel s
    else some (false, s)

/-- The loop `while (!left_over)` (lines 115-207).  `none`: the fuel ran out. -/
def while_left : Nat → BlockNestedLoopJoinExecutor → Option (Bool × BlockNestedLoopJoinExecutor)
  | 0, _ => none
  | fuel + 1, s =>
    if !s.left_over then
      match while_right evaluate_compare fuel s with
      | none => none
      | some (true, s) => some (true, s)
      | some (false, s) =>
        if s.left_.is_end then some (false, { s with left_over := true })
        else
          let s := refill_left s
          let s := { s with right_ := s.right_.beginTuple }
          let s := refill_right s
          let s := { s with right_over := false }
          while_left fuel s
    else some (false, s)

/-- The end of `nextTuple` (lines 208-215): set `is_end_` and unpin every buffer page. -/
def finish (s : BlockNestedLoopJoinExecutor) : BlockNestedLoopJoinExecutor :=
  let s := { s with is_end_ := true }
  let s := { s with bpm_ := s.left_buffer_pages_.foldl
                      (fun (bpm : TmpPool) (left_page : Page) => bpm.unpin_tmp_page left_page.id) s.bpm_ }
  { s with bpm_ := s.right_buffer_pages_.foldl
             (fun (bpm : TmpPool) (right_page : Page) => bpm.unpin_tmp_page right_page.id) s.bpm_ }

/-- `nextTuple` (lines 108-218). -/
def nextTuple (fuel : Nat) (s : BlockNestedLoopJoinExecutor) : Option BlockNestedLoopJoinExecutor :=
  match while_left evaluate_compare fuel s with
  | none => none
  | some (true, s) => some s
  | some (false, s) => some (finish s)

/-- `beginTuple` (lines 98-106). -/
def beginTuple (JOIN_POOL_SIZE PAGE_SIZE : Nat) (fuel : Nat) (s : BlockNestedLoopJoinExecutor) :
    Option BlockNestedLoopJoinExecutor :=
  let s := init_right_page JOIN_POOL_SIZE PAGE_SIZE s
  let s := init_left_page JOIN_POOL_SIZE PAGE_SIZE s
  let s := { s with left_buffer_page_iter_ := 0 }
  let s := { s with left_buffer_page_inner_iter_ := 0 }
  let s := { s with right_buffer_page_iter_ := 0 }
  let s := { s with right_buffer_page_inner_iter_ := 0 }
  nextTuple evaluate_compare fuel s

/-- `Next` (lines 219-224): `none` is the null pointer. -/
def Next (s : BlockNestedLoopJoinExecutor) : Option RmRecord :=
  if s.is_end_ then none else some ⟨s.join_record, s.len_⟩

/-- `is_end` (lines 314-316). -/
def is_end (s : BlockNestedLoopJoinExecutor) : Bool := s.is_end_

/-- `tupleLen` (lines 302-304). -/
def tupleLen (s : BlockNestedLoopJoinExecutor) : Nat := s.len_

/-- The consumer loop `while (!is_end()) { use Next(); nextTuple(); }`: the records it sees. -/
def drain : Nat → BlockNestedLoopJoinExecutor → Option (List (List Byte))
  | 0, _ => none
  | fuel + 1, s =>
    if s.is_end then some []
    else match s.Next with
      | none => none
      | some rec =>
        match nextTuple evaluate_compare fuel s with
        | none => none
        | some s1 => (drain fuel s1).map (fun rest => rec.data :: rest)

/-- The run of the claim: `beginTuple()`, then `Next()`/`nextTuple()` until `is_end()`. -/
def run (JOIN_POOL_SIZE PAGE_SIZE : Nat) (fuel : Nat) (s : BlockNestedLoopJoinExecutor) :
    Option (List (List Byte)) :=
  match beginTuple evaluate_compare JOIN_POOL_SIZE PAGE_SIZE fuel s with
  | none => none
  | some s => drain evaluate_compare fuel s

end join

end BlockNestedLoopJoinExecutor

/-! ## Definitions: what the join buffers hold -/

/-- The first `cnt` tuples of width `len` stored in the page bytes `data`. -/
def pageTuples (len : Nat) (data : List Byte) (cnt : Nat) : List (List Byte) :=
  (List.range cnt).map (fun j => (data.drop (j * len)).take len)

/-- The records `l ++ r` for the tuples `r` of `rs` whose record satisfies `c`. -/
def matchesOf (c : List Byte → Bool) (l : List Byte) (rs : List (List Byte)) :
    List (List Byte) :=
  (rs.filter (fun r => c (l ++ r))).map (fun r => l ++ r)

/-- The records `l ++ r`, `l` from `ls` and `r` from `rs`, that satisfy `c`: the join of
`ls` and `rs`, left-major. -/
def joinOf (c : List Byte → Bool) (ls rs : List (List Byte)) : List (List Byte) :=
  ls.flatMap (fun l => matchesOf c l rs)

/-- The records still to come from a nested scan: the first left tuple of `lt` meets the
right tuples `rr` not yet seen for it, every later left tuple meets all right tuples `ra`. -/
def pendingOf (c : List Byte → Bool) (lt rr ra : List (List Byte)) : List (List Byte) :=
  match lt with
  | [] => []
  | l :: ls => matchesOf c l rr ++ joinOf c ls ra

namespace BlockNestedLoopJoinExecutor

/-- The tuples held by the right buffer page at index `i`. -/
def rightTuples (s : BlockNestedLoopJoinExecutor) (i : Nat) : List (List Byte) :=
  pageTuples s.right_len_ (s.right_buffer_pages_.getD i default).data
    (map_find s.right_num_now_ (s.right_buffer_pages_.getD i default).id)

/-- The tuples held by the left buffer page at index `i`. -/
def leftTuples (s : BlockNestedLoopJoinExecutor) (i : Nat) : List (List Byte) :=
  pageTuples s.left_len_ (s.left_buffer_pages_.getD i default).data
    (map_find s.left_num_now_ (s.left_buffer_pages_.getD i default).id)

/-- The tuples of the valid right buffer pages from index `k` on. -/
def rightFrom (s : BlockNestedLoopJoinExecutor) (k : Nat) : List (List Byte) :=
  (List.range' k (s.right_buffer_page_cnt_ - k)).flatMap (rightTuples s)

/-- The tuples of the valid left buffer pages from index `k` on. -/
def leftFrom (s : BlockNestedLoopJoinExecutor) (k : Nat) : List (List Byte) :=
  (List.range' k (s.left_buffer_page_cnt_ - k)).flatMap (leftTuples s)

/-- The buffered right tuples from the right cursor on. -/
def rightRest (s : BlockNestedLoopJoinExecutor) : List (List Byte) :=
  if s.right_buffer_page_iter_ < s.right_buffer_page_cnt_ then
    (rightTuples s s.right_buffer_page_iter_).drop s.right_buffer_page_inner_iter_ ++
      rightFrom s (s.right_buffer_page_iter_ + 1)
  else []

/-- The buffered left tuples from the left cursor on. -/
def leftRest (s : BlockNestedLoopJoinExecutor) : List (List Byte) :=
  if s.left_buffer_page_iter_ < s.left_buffer_page_cnt_ then
    (leftTuples s s.left_buffer_page_iter_).drop s.left_buffer_page_inner_iter_ ++
      leftFrom s (s.left_buffer_page_iter_ + 1)
  else []

/-- The state with the cursor members and the scratch record blanked: what a scan of the
buffers does not change. -/
def scanCore (s : BlockNestedLoopJoinExecutor) : BlockNestedLoopJoinExecutor :=
  { s with join_record := [], left_buffer_page_iter_ := 0, left_buffer_page_inner_iter_ := 0,
           right_buffer_page_iter_ := 0, right_buffer_page_inner_iter_ := 0,
           left_num_now_inner_ := 0, right_num_now_inner_ := 0 }

/-- The records the scan of the current buffers has still to produce. -/
def pending (evaluate_compare : EvaluateCompare) (s : BlockNestedLoopJoinExecutor) :
    List (List Byte) :=
  pendingOf (CheckConditions evaluate_compare s) (leftRest s) (rightRest s) (rightFrom s 0)

end BlockNestedLoopJoinExecutor

/-! ## Definitions: one side of the join buffer, for the proofs

`fill_right_page`/`fill_left_page`, the two refill loops and the two priming loops are the
same code on the members of one side.  `Buf` groups the members of a side, and the
functions below are that code on a `Buf`; the theorems `fill_right_page_eq` and its
companions state that the executor functions are these functions on the right or left side. -/

/-- The members of one side: its buffer pages, its tuple counts and its child. -/
structure Buf where
  pages : List Page
  num_now : List (Nat × Nat)
  child : Executor

namespace Buf

/-- The body of `fill_right_page`/`fill_left_page` on a side. -/
def fill (len per : Nat) (b : Buf) (idx : Nat) : Buf :=
  ⟨b.pages.set idx
      { (b.pages.getD idx default) with
        data := (fill_page_loop len per per 0 (b.pages.getD idx default).data b.child).2.1 },
    map_assign b.num_now (b.pages.getD idx default).id
      (fill_page_loop len per per 0 (b.pages.getD idx default).data b.child).1,
    (fill_page_loop len per per 0 (b.pages.getD idx default).data b.child).2.2⟩

/-- The refill loop on a side; `limit` is the page count of the side before the refill. -/
def refill_loop (len per limit : Nat) : Nat → Nat → Buf → Nat × Buf
  | 0, cnt, b => (cnt, b)
  | n + 1, cnt, b =>
    if !b.child.is_end then
      if cnt ≥ limit then (cnt, b)
      else refill_loop len per limit n (cnt + 1) (b.fill len per cnt)
    else (cnt, b)

/-- The priming loop on a side, with the temporary-page pool. -/
def init_loop (len per JOIN_POOL_SIZE PAGE_SIZE : Nat) : Nat → Buf × TmpPool → Buf × TmpPool
  | 0, bp => bp
  | n + 1, (b, bpm) =>
    if !b.child.is_end then
      if b.pages.length ≥ JOIN_POOL_SIZE / 2 then (b, bpm)
      else
        init_loop len per JOIN_POOL_SIZE PAGE_SIZE n
          (Buf.fill len per ⟨b.pages ++ [(bpm.new_tmp_page PAGE_SIZE).1], b.num_now, b.child⟩
            (b.pages.length + 1 - 1),
           (bpm.new_tmp_page PAGE_SIZE).2)
    else (b, bpm)

/-- The tuples held by the page at index `i` of a side. -/
def tuples (len : Nat) (b : Buf) (i : Nat) : List (List Byte) :=
  pageTuples len (b.pages.getD i default).data (map_find b.num_now (b.pages.getD i default).id)

/-- The tuples held by the first `k` pages of a side. -/
def upTo (len : Nat) (b : Buf) (k : Nat) : List (List Byte) :=
  (List.range k).flatMap (tuples len b)

/-- Well-formedness of a side: the pages have distinct ids, every page has room for `per`
tuples of width `len`, every recorded tuple count is at most `per`, and the child yields
tuples of width `len`. -/
def WF (len per : Nat) (b : Buf) : Prop :=
  (b.pages.map Page.id).Nodup ∧
  (∀ p ∈ b.pages, per * len ≤ p.data.length) ∧
  (∀ k, map_find b.num_now k ≤ per) ∧
  (∀ t ∈ b.child.tuples, t.length = len)

end Buf

namespace BlockNestedLoopJoinExecutor

/-- The right side of the executor. -/
def rightBuf (s : BlockNestedLoopJoinExecutor) : Buf :=
  ⟨s.right_buffer_pages_, s.right_num_now_, s.right_⟩

/-- The left side of the executor. -/
def leftBuf (s : BlockNestedLoopJoinExecutor) : Buf :=
  ⟨s.left_buffer_pages_, s.left_num_now_, s.left_⟩

/-- The executor with its right side replaced. -/
def setRight (s : BlockNestedLoopJoinExecutor) (b : Buf) : BlockNestedLoopJoinExecutor :=
  { s with right_ := b.child, right_buffer_pages_ := b.pages, right_num_now_ := b.num_now }

/-- The executor with its left side replaced. -/
def setLeft (s : BlockNestedLoopJoinExecutor) (b : Buf) : BlockNestedLoopJoinExecutor :=
  { s with left_ := b.child, left_buffer_pages_ := b.pages, left_num_now_ := b.num_now }

/-- The part of the invariant that a scan of the buffers cannot change: both sides are well
formed, the page counts are within the page vectors, and a side whose child has tuples has
at least one valid page. -/
def CoreInv (s : BlockNestedLoopJoinExecutor) : Prop :=
  1 ≤ s.left_num_per_page_ ∧ 1 ≤ s.right_num_per_page_ ∧
  Buf.WF s.left_len_ s.left_num_per_page_ (leftBuf s) ∧
  Buf.WF s.right_len_ s.right_num_per_page_ (rightBuf s) ∧
  s.left_buffer_page_cnt_ ≤ s.left_buffer_pages_.length ∧
  s.right_buffer_page_cnt_ ≤ s.right_buffer_pages_.length ∧
  (s.left_.tuples = [] ∨ 1 ≤ s.left_buffer_page_cnt_) ∧
  (s.right_.tuples = [] ∨ 1 ≤ s.right_buffer_page_cnt_)

/-- The invariant of the executor between two steps of `nextTuple`: `CoreInv`, the scratch
record has at most `left_len_ + right_len_` bytes, and the right cursor is inside a valid
page or at the start of one. -/
def Inv (s : BlockNestedLoopJoinExecutor) : Prop :=
  CoreInv s ∧
  s.join_record.length ≤ s.left_len_ + s.right_len_ ∧
  (s.right_buffer_page_iter_ < s.right_buffer_page_cnt_ ∨ s.right_buffer_page_inner_iter_ = 0)

/-- The state with the right side, the cursors, the scratch record and `right_over`
blanked: what the loop `while (!right_over)` does not change. -/
def leftCore (s : BlockNestedLoopJoinExecutor) : BlockNestedLoopJoinExecutor :=
  { scanCore s with right_ := ⟨[], 0, 0, []⟩, right_buffer_pages_ := [], right_num_now_ := [],
                    right_buffer_page_cnt_ := 0, right_over := false }

/-- The left advance of `nextTuple` (lines 174-206): the left refill, the rewind of the
right child, the right refill and the reset of `right_over`, as `while_left` runs them. -/
def advance_left (s : BlockNestedLoopJoinExecutor) : BlockNestedLoopJoinExecutor :=
  { refill_right { refill_left s with right_ := (refill_left s).right_.beginTuple } with
    right_over := false }

/-- The state `beginTuple` hands to `nextTuple` (lines 99-104): both sides primed and the
four cursors at 0. -/
def primed (JOIN_POOL_SIZE PAGE_SIZE : Nat) (s : BlockNestedLoopJoinExecutor) :
    BlockNestedLoopJoinExecutor :=
  { init_left_page JOIN_POOL_SIZE PAGE_SIZE (init_right_page JOIN_POOL_SIZE PAGE_SIZE s) with
    left_buffer_page_iter_ := 0, left_buffer_page_inner_iter_ := 0,
    right_buffer_page_iter_ := 0, right_buffer_page_inner_iter_ := 0 }

/-- Every condition holds on the record `data`: `Check_ith_Condition` is true for each index
of `fed_conds_`. -/
def all_conditions_hold (evaluate_compare : EvaluateCompare) (s : BlockNestedLoopJoinExecutor)
    (data : List Byte) : Bool :=
  (List.range s.fed_conds_.length).all (fun i => Check_ith_Condition evaluate_compare s data i)

/-- The left relation `L = {(1,'a'), (2,'b')}`: one id byte and one character byte. -/
def example_left : Executor :=
  ⟨[[1, 97], [2, 98]], 0, 2, [⟨"l", "id", 0, 1, 0⟩, ⟨"l", "name", 1, 1, 1⟩]⟩

/-- The right relation `R = {(1,'x'), (2,'y'), (3,'z')}`. -/
def example_right : Executor :=
  ⟨[[1, 120], [2, 121], [3, 122]], 0, 2, [⟨"r", "id", 0, 1, 0⟩, ⟨"r", "name", 1, 1, 1⟩]⟩

/-- The condition `l.id = r.id`. -/
def example_conds : List Condition := [⟨⟨"l", "id"⟩, 0, false, ⟨"r", "id"⟩⟩]

/-- An `evaluate_compare` for the example: equality of the `len` bytes at the two
addresses. -/
def bytes_equal : EvaluateCompare := fun a b _ len _ => decide (a.take len = b.take len)

/-- The executor the constructor builds for the example with `PAGE_SIZE = 4`. -/
def example_join : BlockNestedLoopJoinExecutor :=
  { left_ := example_left, right_ := example_right, len_ := 4,
    cols_ := [⟨"l", "id", 0, 1, 0⟩, ⟨"l", "name", 1, 1, 1⟩, ⟨"r", "id", 0, 1, 2⟩,
              ⟨"r", "name", 1, 1, 3⟩],
    fed_conds_ := example_conds,
    join_cols_ := [(⟨"l", "id", 0, 1, 0⟩, ⟨"r", "id", 0, 1, 2⟩)], is_end_ := false,
    left_len_ := 2, right_len_ := 2, bpm_ := ⟨0, []⟩,
    right_buffer_pages_ := [], right_buffer_page_cnt_ := 0,
    left_buffer_pages_ := [], left_buffer_page_cnt_ := 0,
    left_buffer_page_iter_ := 0, left_buffer_page_inner_iter_ := 0,
    right_buffer_page_iter_ := 0, right_buffer_page_inner_iter_ := 0,
    left_num_per_page_ := 2, right_num_per_page_ := 2,
    left_num_now_ := [], right_num_now_ := [],
    left_num_now_inner_ := 0, right_num_now_inner_ := 0,
    left_over := false, right_over := false,
    join_record := [0, 0, 0, 0] }

/-- The records the executor has still to produce: those of the scan of the buffers, those
of the buffered left tuples with the right tuples not yet read in this pass, and those of
the left tuples not yet read with all right tuples. -/
def remaining (evaluate_compare : EvaluateCompare) (s : BlockNestedLoopJoinExecutor) :
    List (List Byte) :=
  pending evaluate_compare s ++
    joinOf (CheckConditions evaluate_compare s) (leftFrom s 0) (s.right_.tuples.drop s.right_.pos) ++
    joinOf (CheckConditions evaluate_compare s) (s.left_.tuples.drop s.left_.pos) s.right_.tuples

end BlockNestedLoopJoinExecutor

/-! ## Definitions: call sequences used in the statements -/

namespace RmFileHandle

/-- Successive `insert_record(buf)` calls, one per buffer of `bufs`. -/
def insert_records : RmFileHandle → List (List Byte) → Except RmError RmFileHandle
  | fh, [] => .ok fh
  | fh, buf :: bufs =>
    match insert_record fh buf with
    | .error e => .error e
    | .ok (_, fh) => insert_records fh bufs

/-- Every page has the layout the file header declares: `num_records_per_page` bits and
`num_records_per_page` slots. -/
def PageLayout (fh : RmFileHandle) : Prop :=
  ∀ f ∈ fh.buffer_pool_manager_.frames,
    f.page.bitmap.length = fh.file_hdr_.num_records_per_page.toNat ∧
    f.page.slots.length = fh.file_hdr_.num_records_per_page.toNat

/-- The file after `insert_record([1, 2])` on `empty 2 2`. -/
def one_record_file : RmFileHandle :=
  { file_hdr_ := ⟨2, 1, 2, 0⟩
    buffer_pool_manager_ := ⟨[⟨⟨⟨-1, 1⟩, [true, false], [[1, 2], [0, 0]]⟩, 0, true⟩]⟩ }

/-- The file after `insert_record([3, 4])` on `one_record_file`. -/
def two_record_file : RmFileHandle :=
  { file_hdr_ := ⟨2, 1, 2, -1⟩
    buffer_pool_manager_ := ⟨[⟨⟨⟨-1, 2⟩, [true, true], [[1, 2], [3, 4]]⟩, 0, true⟩]⟩ }

/-- `RmFileHandle::fetch_page_handle` (lines 156-173) with the buffer pool's answer to
`fetch_page` as the parameter `answer`: the check of line 162 comes first, and only a page
number that passes it is handed to the pool. -/
def fetch_page_handle_with (answer : Int → Option (RmPage × BufferPoolManager))
    (fh : RmFileHandle) (page_no : Int) : Except RmError (RmPageHandle × RmFileHandle) :=
  if page_no ≥ fh.file_hdr_.num_pages then .error (.PageNotExistError page_no)
  else match answer page_no with
    | none => .error (.PageNotExistError page_no)
    | some (page, bpm) => .ok (RmPageHandle.ofPage page_no page, { fh with buffer_pool_manager_ := bpm })

/-- `RmFileHandle::get_record` (lines 19-34) over `fetch_page_handle_with`. -/
def get_record_with (answer : Int → Option (RmPage × BufferPoolManager))
    (fh : RmFileHandle) (rid : Rid) : Except RmError (RmRecord × RmFileHandle) :=
  match fetch_page_handle_with answer fh rid.page_no with
  | .error e => .error e
  | .ok (pageHandle, fh) =>
    let size := fh.file_hdr_.record_size
    match pageHandle.get_slot rid.slot_no with
    | .error e => .error e
    | .ok d => .ok (⟨memcpy (List.replicate size 0) 0 d 0 size, size⟩, fh)

/-- The file `one_record_file` after the pool has written its page back: the frame is
clean and not pinned. -/
def flushed_file : RmFileHandle :=
  { file_hdr_ := ⟨2, 1, 2, 0⟩
    buffer_pool_manager_ := ⟨[⟨⟨⟨-1, 1⟩, [true, false], [[1, 2], [0, 0]]⟩, 0, false⟩]⟩ }

/-- The pin count and the dirty flag of the frame of page `page_no`. -/
def pin_state (fh : RmFileHandle) (page_no : Nat) : Option (Nat × Bool) :=
  (fh.buffer_pool_manager_.frames.get? page_no).map (fun f => (f.pin_count, f.is_dirty))

/-- A pool that answers every `fetch_page` request with the page 0 of `one_record_file`. -/
def obliging_pool (_ : Int) : Option (RmPage × BufferPoolManager) :=
  some (⟨⟨-1, 1⟩, [true, false], [[1, 2], [0, 0]]⟩, one_record_file.buffer_pool_manager_)

end RmFileHandle

/-- Lexicographic order on record identifiers: `(page_no, slot_no)`. -/
def Rid.lt (a b : Rid) : Prop :=
  a.page_no < b.page_no ∨ (a.page_no = b.page_no ∧ a.slot_no < b.slot_no)

namespace BlockNestedLoopJoinExecutor

/-- The joined schema the constructor builds (lines 76-81): the left columns, then the right
columns with their offsets shifted by the left tuple length. -/
def joined_cols (left right : Executor) : List ColMeta :=
  left.cols ++
    right.cols.map (fun col => { col with offset := to_int32 (col.offset + left.tupleLen) })

/-- The declared types of the two columns of a condition, when both columns are found in
`cols`. -/
def cond_types (cols : List ColMeta) (cond : Condition) : Option (ColType × ColType) :=
  match get_col cols cond.lhs_col, get_col cols cond.rhs_col with
  | .ok left_join_col, .ok right_join_col => some (left_join_col.type, right_join_col.type)
  | _, _ => none

/-- The calls `nextTuple(); ...; nextTuple()`, `n` of them in a row. -/
def nextTuples (evaluate_compare : EvaluateCompare) (fuel : Nat) :
    Nat → BlockNestedLoopJoinExecutor → Option BlockNestedLoopJoinExecutor
  | 0, s => some s
  | n + 1, s =>
    match nextTuple evaluate_compare fuel s with
    | none => none
    | some s1 => nextTuples evaluate_compare fuel n s1

/-- The states an executor can be in: the state the constructor builds, and every state
reached from it by calls of `beginTuple()` and `nextTuple()` that return. -/
inductive Reachable (evaluate_compare : EvaluateCompare) (JOIN_POOL_SIZE PAGE_SIZE : Nat) :
    BlockNestedLoopJoinExecutor → Prop
  | constructed (left right : Executor) (conds : List Condition) (bpm : TmpPool)
      (s : BlockNestedLoopJoinExecutor) :
      BlockNestedLoopJoinExecutor.new PAGE_SIZE left right conds bpm = .ok s →
      Reachable evaluate_compare JOIN_POOL_SIZE PAGE_SIZE s
  | begun (fuel : Nat) (s s1 : BlockNestedLoopJoinExecutor) :
      Reachable evaluate_compare JOIN_POOL_SIZE PAGE_SIZE s →
      beginTuple evaluate_compare JOIN_POOL_SIZE PAGE_SIZE fuel s = some s1 →
      Reachable evaluate_compare JOIN_POOL_SIZE PAGE_SIZE s1
  | advanced (fuel : Nat) (s s1 : BlockNestedLoopJoinExecutor) :
      Reachable evaluate_compare JOIN_POOL_SIZE PAGE_SIZE s →
      nextTuple evaluate_compare fuel s = some s1 →
      Reachable evaluate_compare JOIN_POOL_SIZE PAGE_SIZE s1

/-- The right relation of the example without tuples. -/
def example_empty_right : Executor := { example_right with tuples := [] }

/-- The executor the constructor builds for `example_left` and `example_empty_right` with
`PAGE_SIZE = 4`. -/
def example_join_empty : BlockNestedLoopJoinExecutor :=
  { example_join with right_ := example_empty_right }

/-- What the executor has taken from the pool: the number of temporary pages the pool has
handed out, and the ids of the pages in the left and in the right page vector. -/
def poolView (s : BlockNestedLoopJoinExecutor) : Nat × List Nat × List Nat :=
  (s.bpm_.new_tmp_count, s.left_buffer_pages_.map Page.id, s.right_buffer_pages_.map Page.id)

/-- The loop `while (!is_end()) nextTuple();` of a consumer; the state it ends in, `none`
when `n` calls do not reach the end. -/
def advance_to_end (evaluate_compare : EvaluateCompare) (fuel : Nat) :
    Nat → BlockNestedLoopJoinExecutor → Option BlockNestedLoopJoinExecutor
  | 0, _ => none
  | n + 1, s =>
    if s.is_end then some s
    else match nextTuple evaluate_compare fuel s with
      | none => none
      | some s1 => advance_to_end evaluate_compare fuel n s1

/-- The run to the end: `beginTuple()`, then `nextTuple()` until `is_end()`; the state it
ends in. -/
def run_to_end (evaluate_compare : EvaluateCompare) (JOIN_POOL_SIZE PAGE_SIZE : Nat) (fuel : Nat)
    (s : BlockNestedLoopJoinExecutor) : Option BlockNestedLoopJoinExecutor :=
  match beginTuple evaluate_compare JOIN_POOL_SIZE PAGE_SIZE fuel s with
  | none => none
  | some s => advance_to_end evaluate_compare fuel fuel s

/-- A left relation of three one-byte tuples, without columns. -/
def three_left : Executor := ⟨[[1], [2], [3]], 0, 1, []⟩

/-- A right relation of three one-byte tuples, without columns. -/
def three_right : Executor := ⟨[[7], [8], [9]], 0, 1, []⟩

/-- The executor the constructor builds for `three_left` and `three_right` without
conditions and with `PAGE_SIZE = 1`: one tuple per page. -/
def three_join : BlockNestedLoopJoinExecutor :=
  { left_ := three_left, right_ := three_right, len_ := 2, cols_ := [], fed_conds_ := [],
    join_cols_ := [], is_end_ := false, left_len_ := 1, right_len_ := 1, bpm_ := ⟨0, []⟩,
    right_buffer_pages_ := [], right_buffer_page_cnt_ := 0,
    left_buffer_pages_ := [], left_buffer_page_cnt_ := 0,
    left_buffer_page_iter_ := 0, left_buffer_page_inner_iter_ := 0,
    right_buffer_page_iter_ := 0, right_buffer_page_inner_iter_ := 0,
    left_num_per_page_ := 1, right_num_per_page_ := 1,
    left_num_now_ := [], right_num_now_ := [],
    left_num_now_inner_ := 0, right_num_now_inner_ := 0,
    left_over := false, right_over := false,
    join_record := [0, 0] }

/-- A child without columns and without tuples: its tuple length is 0. -/
def zero_length_child : Executor := ⟨[], 0, 0, []⟩

end BlockNestedLoopJoinExecutor

end Rmdb

/-! ## Part 2. Theorems: record manager -/

namespace Rmdb

open RmFileHandle

/-- C2 (code defect).  Three records are inserted into an empty file whose pages hold two
records; they land in (0,0), (0,1) and (1,0), and record (1,0) is live and readable.  The
scan, started as intended on (RM_FIRST_RECORD_PAGE, -1), yields (0,0) and (0,1) only: on
page 1 the bitmap search resumes behind slot 1, the slot reached on page 0. -/
theorem scan_skips_low_slot_of_next_page :
    ∃ fh fh1, insert_records (empty 2 2) [[1, 2], [3, 4], [5, 6]] = .ok fh ∧
      (fh.page? 1).map (fun p => Bitmap.is_set p.bitmap 0) = some true ∧
      get_record fh ⟨1, 0⟩ = .ok (⟨[5, 6], 2⟩, fh1) ∧
      RmScan.scan_all 4 fh ⟨RM_FIRST_RECORD_PAGE, -1⟩ = some [⟨0, 0⟩, ⟨0, 1⟩] :=
  ⟨_, _, rfl, rfl, rfl, rfl⟩

/-- C3 (code defect).  After one insert into an empty file (capacity 2), `delete_record` on
the clear slot (0,1) returns normally; page 0 then has `num_records = 0` while one bit of
its bitmap is set. -/
theorem delete_of_clear_slot_breaks_record_count :
    ∃ fh1 fh2 p, insert_record (empty 2 2) [1, 2] = .ok (⟨0, 0⟩, fh1) ∧
      delete_record fh1 ⟨0, 1⟩ = .ok fh2 ∧ fh2.page? 0 = some p ∧
      p.page_hdr.num_records = 0 ∧ Bitmap.popcount p.bitmap = 1 :=
  ⟨_, _, _, rfl, rfl, rfl, by decide, by decide⟩

/-- C4 (code defect).  After one insert into an empty file, `delete_record` on the live
record (0,0) fails the assertion of line 116 instead of clearing the bit. -/
theorem delete_of_live_record_fails_assertion :
    ∃ fh1 p, insert_record (empty 2 2) [1, 2] = .ok (⟨0, 0⟩, fh1) ∧
      fh1.page? 0 = some p ∧ Bitmap.is_set p.bitmap 0 = true ∧
      delete_record fh1 ⟨0, 0⟩ = .error .AssertionFailure :=
  ⟨_, _, rfl, rfl, by decide, rfl⟩

/-- C5 (code defect).  Two reachable states that break the free-list invariant.
(a) insert, then `delete_record` of the clear slot (0,1): page 0 becomes the head of the
free list with itself as successor, so the chain never ends.
(b) three inserts (capacity 2), then insert-at on the live slot (0,0) of the full page 0:
the free list becomes empty although page 1 holds one record out of two. -/
theorem free_list_invariant_broken :
    (∃ fh1 fh2 p, insert_record (empty 2 2) [1, 2] = .ok (⟨0, 0⟩, fh1) ∧
      delete_record fh1 ⟨0, 1⟩ = .ok fh2 ∧ fh2.page? 0 = some p ∧
      fh2.file_hdr_.first_free_page_no = 0 ∧ p.page_hdr.next_free_page_no = 0) ∧
    (∃ fh3 fh4 p, insert_records (empty 2 2) [[1, 2], [3, 4], [5, 6]] = .ok fh3 ∧
      insert_record_at fh3 ⟨0, 0⟩ [7, 8] = .ok fh4 ∧ fh4.page? 1 = some p ∧
      fh4.file_hdr_.first_free_page_no = RM_NO_PAGE ∧ p.page_hdr.num_records = 1 ∧
      fh4.file_hdr_.num_records_per_page = 2) :=
  ⟨⟨_, _, _, rfl, rfl, rfl, by decide, by decide⟩,
   ⟨_, _, _, rfl, rfl, rfl, by decide, by decide, by decide⟩⟩

/-- C6 (code defect).  Page 0 is full after two inserts (capacity 2) and the free list is
empty.  `delete_record` of the live record (0,0) fails the assertion of line 116; and the
statements behind the assertion leave `first_free_page_no` at RM_NO_PAGE, because the page
is released only when its `num_records` reaches 0 (line 121), here it is 1. -/
theorem delete_from_full_page_does_not_relink :
    ∃ fh2 h fh3, insert_records (empty 2 2) [[1, 2], [3, 4]] = .ok fh2 ∧
      fh2.file_hdr_.first_free_page_no = RM_NO_PAGE ∧
      delete_record fh2 ⟨0, 0⟩ = .error .AssertionFailure ∧
      fetch_page_handle fh2 0 = .ok (h, fh3) ∧ h.page_hdr.num_records = 2 ∧
      (delete_record_body fh3 h ⟨0, 0⟩).file_hdr_.first_free_page_no = RM_NO_PAGE ∧
      ((delete_record_body fh3 h ⟨0, 0⟩).page? 0).map (fun p => p.page_hdr.num_records) = some 1 :=
  ⟨_, _, _, rfl, by decide, rfl, rfl, by decide, by decide, by decide⟩

theorem fetch_page_handle_ok {fh : RmFileHandle} {page_no : Int} {h : RmPageHandle}
    {fh0 : RmFileHandle} (hf : fetch_page_handle fh page_no = .ok (h, fh0)) :
    0 ≤ page_no ∧ page_no < fh.file_hdr_.num_pages ∧ h.page_no = page_no ∧
    fh0.file_hdr_ = fh.file_hdr_ ∧
    ∃ f, fh.buffer_pool_manager_.frames[page_no.toNat]? = some f ∧ h = RmPageHandle.ofPage page_no f.page ∧
      fh0.buffer_pool_manager_.frames =
        fh.buffer_pool_manager_.frames.set page_no.toNat { f with pin_count := f.pin_count + 1 } := by
  unfold fetch_page_handle at hf
  by_cases h1 : page_no ≥ fh.file_hdr_.num_pages
  · simp [h1] at hf
  · unfold BufferPoolManager.fetch_page at hf
    by_cases h2 : page_no < 0
    · simp [h1, h2] at hf
    · cases hfr : fh.buffer_pool_manager_.frames[page_no.toNat]? with
      | none => simp [h1, h2, hfr] at hf
      | some f =>
        simp [h1, h2, hfr] at hf
        obtain ⟨rfl, rfl⟩ := hf
        refine ⟨by omega, by omega, rfl, rfl, f, rfl, rfl, rfl⟩

theorem fetch_page_handle_of_frame {fh : RmFileHandle} {page_no : Int} {f : Frame}
    (h0 : 0 ≤ page_no) (h1 : page_no < fh.file_hdr_.num_pages)
    (hf : fh.buffer_pool_manager_.frames[page_no.toNat]? = some f) :
    fetch_page_handle fh page_no = .ok (RmPageHandle.ofPage page_no f.page,
      { fh with buffer_pool_manager_ :=
          ⟨fh.buffer_pool_manager_.frames.set page_no.toNat { f with pin_count := f.pin_count + 1 }⟩ }) := by
  unfold fetch_page_handle BufferPoolManager.fetch_page
  have h1' : ¬ page_no ≥ fh.file_hdr_.num_pages := by omega
  have h2 : ¬ page_no < 0 := by omega
  simp [h1', h2, hf]

theorem store_of_frame {fh : RmFileHandle} {h : RmPageHandle} {f : Frame}
    (h0 : 0 ≤ h.page_no) (hf : fh.buffer_pool_manager_.frames[h.page_no.toNat]? = some f) :
    fh.store h = { fh with buffer_pool_manager_ :=
      ⟨fh.buffer_pool_manager_.frames.set h.page_no.toNat { f with page := h.toPage }⟩ } := by
  unfold store
  have h2 : ¬ h.page_no < 0 := by omega
  simp [h2, hf]

theorem create_page_handle_ok {fh : RmFileHandle} {h : RmPageHandle} {fh0 : RmFileHandle}
    (hc : create_page_handle fh = .ok (h, fh0)) :
    0 ≤ h.page_no ∧
    fh0.file_hdr_.record_size = fh.file_hdr_.record_size ∧
    fh0.file_hdr_.num_records_per_page = fh.file_hdr_.num_records_per_page ∧
    fh0.file_hdr_.first_free_page_no = h.page_no ∧
    (∃ f, fh0.buffer_pool_manager_.frames[h.page_no.toNat]? = some f ∧ f.page = h.toPage) ∧
    ((fh.file_hdr_.first_free_page_no ≠ RM_NO_PAGE ∧ h.page_no = fh.file_hdr_.first_free_page_no ∧
        fh0.file_hdr_ = fh.file_hdr_ ∧ h.page_no < fh.file_hdr_.num_pages ∧
        fh.page? h.page_no = some h.toPage ∧
        fh0.buffer_pool_manager_.frames.length = fh.buffer_pool_manager_.frames.length) ∨
     (fh.file_hdr_.first_free_page_no = RM_NO_PAGE ∧
        h.page_no = fh.buffer_pool_manager_.frames.length ∧
        fh0.file_hdr_.num_pages = fh.file_hdr_.num_pages + 1 ∧
        h.page_hdr = ⟨RM_NO_PAGE, 0⟩ ∧
        h.bitmap = List.replicate fh.file_hdr_.num_records_per_page.toNat false ∧
        h.slots.length = fh.file_hdr_.num_records_per_page.toNat ∧
        fh0.buffer_pool_manager_.frames.length = fh.buffer_pool_manager_.frames.length + 1)) := by
  unfold create_page_handle at hc
  by_cases hff : fh.file_hdr_.first_free_page_no = RM_NO_PAGE
  · simp only [hff, if_true] at hc
    unfold create_new_page_handle BufferPoolManager.new_page at hc
    simp only [Except.ok.injEq, Prod.mk.injEq] at hc
    obtain ⟨rfl, rfl⟩ := hc
    have hneg : ¬ ((fh.buffer_pool_manager_.frames.length : Int) < 0) := by omega
    simp [RmPageHandle.ofPage, store, RmPageHandle.toPage, hff, hneg]
  · simp only [hff, if_false] at hc
    obtain ⟨h0, h1, h2, h3, f, hf, rfl, h5⟩ := fetch_page_handle_ok hc
    refine ⟨h0, by rw [h3], by rw [h3], by rw [h3]; rfl,
      ⟨{ f with pin_count := f.pin_count + 1 }, ?_, rfl⟩, Or.inl ⟨hff, rfl, h3, h1, ?_, ?_⟩⟩
    · rw [h5]
      exact List.getElem?_set_self (List.getElem?_eq_some_iff.mp hf).1
    · simp [page?, hf, RmPageHandle.ofPage, RmPageHandle.toPage]
      omega
    · rw [h5]; simp


theorem get_record_of_frame (fh : RmFileHandle) {rid : Rid} {f : Frame} {d : List Byte}
    (h0 : 0 ≤ rid.page_no) (h1 : rid.page_no < fh.file_hdr_.num_pages)
    (hf : fh.buffer_pool_manager_.frames[rid.page_no.toNat]? = some f)
    (hs : 0 ≤ rid.slot_no) (hd : f.page.slots[rid.slot_no.toNat]? = some d) :
    get_record fh rid = .ok
      (⟨memcpy (List.replicate fh.file_hdr_.record_size 0) 0 d 0 fh.file_hdr_.record_size,
        fh.file_hdr_.record_size⟩,
       { fh with buffer_pool_manager_ :=
          ⟨fh.buffer_pool_manager_.frames.set rid.page_no.toNat
            { f with pin_count := f.pin_count + 1 }⟩ }) := by
  unfold get_record
  rw [fetch_page_handle_of_frame h0 h1 hf]
  simp [RmPageHandle.get_slot, RmPageHandle.ofPage, not_lt.mpr hs, hd]

theorem memcpy_read_back (d0 buf : List Byte) (n : Nat) (hb : buf.length = n) :
    memcpy (List.replicate n 0) 0 (memcpy d0 0 buf 0 n) 0 n = buf := by
  simp [memcpy, ← hb]

theorem next_bit_loop_spec (bit : Bool) (bm : List Bool) (max_n : Int) :
    ∀ (k : Nat) (pos : Int), pos + k = max_n →
      pos ≤ Bitmap.next_bit_loop bit bm max_n k pos ∧
      Bitmap.next_bit_loop bit bm max_n k pos ≤ max_n ∧
      (∀ j, pos ≤ j → j < Bitmap.next_bit_loop bit bm max_n k pos → Bitmap.is_set bm j ≠ bit) ∧
      (Bitmap.next_bit_loop bit bm max_n k pos < max_n →
        Bitmap.is_set bm (Bitmap.next_bit_loop bit bm max_n k pos) = bit) := by
  intro k
  induction k with
  | zero =>
    intro pos hk
    simp only [Bitmap.next_bit_loop]
    refine ⟨by omega, le_refl _, fun j h1 h2 => by omega, fun h => by omega⟩
  | succ k ih =>
    intro pos hk
    simp only [Bitmap.next_bit_loop]
    by_cases hb : Bitmap.is_set bm pos = bit
    · simp only [hb, if_true]
      refine ⟨le_refl _, by omega, fun j h1 h2 => by omega, fun _ => trivial⟩
    · simp only [hb, if_false]
      obtain ⟨h1, h2, h3, h4⟩ := ih (pos + 1) (by push_cast at hk; omega)
      refine ⟨by omega, h2, fun j hj1 hj2 => ?_, h4⟩
      by_cases hjp : j = pos
      · rw [hjp]; exact hb
      · exact h3 j (by omega) hj2

theorem first_bit_spec (bit : Bool) (bm : List Bool) (max_n : Int) (hn : 0 ≤ max_n) :
    0 ≤ Bitmap.first_bit bit bm max_n ∧ Bitmap.first_bit bit bm max_n ≤ max_n ∧
    (∀ j, 0 ≤ j → j < Bitmap.first_bit bit bm max_n → Bitmap.is_set bm j ≠ bit) ∧
    (Bitmap.first_bit bit bm max_n < max_n →
      Bitmap.is_set bm (Bitmap.first_bit bit bm max_n) = bit) := by
  unfold Bitmap.first_bit Bitmap.next_bit
  have := next_bit_loop_spec bit bm max_n (max_n - (-1 + 1)).toNat (-1 + 1) (by simp; omega)
  simpa using this

theorem is_set_set_self (bm : List Bool) (pos : Int) (h0 : 0 ≤ pos) (h1 : pos.toNat < bm.length) :
    Bitmap.is_set (Bitmap.set bm pos) pos = true := by
  simp [Bitmap.is_set, Bitmap.set, not_lt.mpr h0, h1]

theorem page?_of_frame (fh : RmFileHandle) {page_no : Int} {f : Frame} (h0 : 0 ≤ page_no)
    (hf : fh.buffer_pool_manager_.frames[page_no.toNat]? = some f) :
    fh.page? page_no = some f.page := by
  simp [page?, not_lt.mpr h0, hf]

theorem one_record_file_layout : PageLayout one_record_file := by
  intro f hf
  simp [one_record_file] at hf
  subst hf
  exact ⟨rfl, rfl⟩

open BlockNestedLoopJoinExecutor

/-! ## Theorems: block nested-loop join -/

theorem matchesOf_nil (c : List Byte → Bool) (l : List Byte) : matchesOf c l [] = [] := rfl

theorem matchesOf_cons (c : List Byte → Bool) (l r : List Byte) (rs : List (List Byte)) :
    matchesOf c l (r :: rs) = if c (l ++ r) then (l ++ r) :: matchesOf c l rs else matchesOf c l rs := by
  unfold matchesOf
  by_cases h : c (l ++ r) <;> simp [List.filter_cons, h]

theorem matchesOf_append (c : List Byte → Bool) (l : List Byte) (rs rs2 : List (List Byte)) :
    matchesOf c l (rs ++ rs2) = matchesOf c l rs ++ matchesOf c l rs2 := by
  simp [matchesOf]

theorem joinOf_nil (c : List Byte → Bool) (rs : List (List Byte)) : joinOf c [] rs = [] := rfl

theorem joinOf_cons (c : List Byte → Bool) (l : List Byte) (ls rs : List (List Byte)) :
    joinOf c (l :: ls) rs = matchesOf c l rs ++ joinOf c ls rs := by
  simp [joinOf]

theorem joinOf_append (c : List Byte → Bool) (ls ls2 rs : List (List Byte)) :
    joinOf c (ls ++ ls2) rs = joinOf c ls rs ++ joinOf c ls2 rs := by
  simp [joinOf]

theorem pendingOf_all (c : List Byte → Bool) (lt ra : List (List Byte)) :
    pendingOf c lt ra ra = joinOf c lt ra := by
  cases lt <;> simp [pendingOf, joinOf_cons, joinOf_nil]

theorem pageTuples_succ (len : Nat) (data : List Byte) (cnt : Nat) :
    pageTuples len data (cnt + 1) = pageTuples len data cnt ++ [(data.drop (cnt * len)).take len] := by
  simp [pageTuples, List.range_succ]

theorem pageTuples_length (len : Nat) (data : List Byte) (cnt : Nat) :
    (pageTuples len data cnt).length = cnt := by
  simp [pageTuples]

theorem pageTuples_drop (len : Nat) (data : List Byte) (cnt j : Nat) (h : j < cnt) :
    (pageTuples len data cnt).drop j =
      (data.drop (j * len)).take len :: (pageTuples len data cnt).drop (j + 1) := by
  have hl : j < (pageTuples len data cnt).length := by rw [pageTuples_length]; exact h
  rw [List.drop_eq_getElem_cons hl]
  simp [pageTuples]

theorem pageTuples_drop_of_le (len : Nat) (data : List Byte) (cnt j : Nat) (h : cnt ≤ j) :
    (pageTuples len data cnt).drop j = [] := by
  apply List.drop_eq_nil_of_le
  rw [pageTuples_length]; exact h

open BlockNestedLoopJoinExecutor

theorem CheckConditions_congr (ec : EvaluateCompare) {s s' : BlockNestedLoopJoinExecutor}
    (h1 : s'.fed_conds_ = s.fed_conds_) (h2 : s'.join_cols_ = s.join_cols_) (d : List Byte) :
    CheckConditions ec s' d = CheckConditions ec s d := by
  simp only [CheckConditions, Check_ith_Condition, h1, h2]

theorem CheckConditions_core (ec : EvaluateCompare) {s s' : BlockNestedLoopJoinExecutor}
    (h : scanCore s' = scanCore s) : CheckConditions ec s' = CheckConditions ec s := by
  funext d
  have e1 : (scanCore s').fed_conds_ = (scanCore s).fed_conds_ := by rw [h]
  have e2 : (scanCore s').join_cols_ = (scanCore s).join_cols_ := by rw [h]
  exact CheckConditions_congr ec e1 e2 d

theorem memcpy_right_part (jr l data : List Byte) (L R off : Nat) (h1 : jr.take L = l)
    (_h2 : l.length = L) (h3 : jr.length ≤ L + R) :
    memcpy jr L data off R = l ++ (data.drop off).take R := by
  unfold memcpy
  rw [h1, List.drop_eq_nil_of_le h3, List.append_nil]

theorem right_inner_loop_spec (ec : EvaluateCompare) (c : List Byte → Bool) (p : Page)
    (l : List Byte) (T : List (List Byte)) :
    ∀ (n : Nat) (s : BlockNestedLoopJoinExecutor),
      CheckConditions ec s = c →
      s.join_record.take s.left_len_ = l → l.length = s.left_len_ →
      s.join_record.length ≤ s.left_len_ + s.right_len_ →
      n = s.right_num_now_inner_ - s.right_buffer_page_inner_iter_ →
      ∃ b s', right_inner_loop ec p n s = (b, s') ∧ scanCore s' = scanCore s ∧
        s'.right_buffer_page_iter_ = s.right_buffer_page_iter_ ∧
        s'.right_num_now_inner_ = s.right_num_now_inner_ ∧
        s'.left_buffer_page_iter_ = s.left_buffer_page_iter_ ∧
        s'.left_buffer_page_inner_iter_ = s.left_buffer_page_inner_iter_ ∧
        s'.left_num_now_inner_ = s.left_num_now_inner_ ∧
        s'.join_record.take s.left_len_ = l ∧
        s'.join_record.length ≤ s.left_len_ + s.right_len_ ∧
        (b = false → matchesOf c l
            ((pageTuples s.right_len_ p.data s.right_num_now_inner_).drop
              s.right_buffer_page_inner_iter_ ++ T) = matchesOf c l T) ∧
        (b = true → s'.right_buffer_page_inner_iter_ ≤ s.right_num_now_inner_ ∧
          matchesOf c l
            ((pageTuples s.right_len_ p.data s.right_num_now_inner_).drop
              s.right_buffer_page_inner_iter_ ++ T) =
          s'.join_record :: matchesOf c l
            ((pageTuples s.right_len_ p.data s.right_num_now_inner_).drop
              s'.right_buffer_page_inner_iter_ ++ T)) := by
  intro n
  induction n with
  | zero =>
    intro s hcs h1 h2 h3 hn
    refine ⟨false, s, rfl, rfl, rfl, rfl, rfl, rfl, rfl, h1, h3, ?_, ?_⟩
    · intro _
      rw [pageTuples_drop_of_le _ _ _ _ (by omega)]
      rfl
    · intro h; cases h
  | succ n ih =>
    intro s hcs h1 h2 h3 hn
    have hlt : s.right_buffer_page_inner_iter_ < s.right_num_now_inner_ := by omega
    have hjr := memcpy_right_part s.join_record l p.data s.left_len_ s.right_len_
      (s.right_buffer_page_inner_iter_ * s.right_len_) h1 h2 h3
    have hcc : ∀ jr rj, CheckConditions ec
        { s with join_record := jr, right_buffer_page_inner_iter_ := rj } =
        CheckConditions ec s :=
      fun _ _ => funext (fun d => CheckConditions_congr ec rfl rfl d)
    rw [pageTuples_drop _ _ _ _ hlt, List.cons_append, matchesOf_cons]
    simp only [right_inner_loop, hlt, if_true, hjr, hcc]
    rw [hcs]
    by_cases hc : c (l ++ (p.data.drop (s.right_buffer_page_inner_iter_ * s.right_len_)).take s.right_len_) = true
    · simp only [hc, if_true]
      refine ⟨true, _, rfl, rfl, rfl, rfl, rfl, rfl, rfl, ?_, ?_, ?_, ?_⟩
      · simp [h2.symm]
      · simp [h2.symm]
      · intro h; cases h
      · intro _
        exact ⟨hlt, rfl⟩
    · simp only [hc, if_false]
      obtain ⟨b, s', he, hcore, e1, e2, e3, e4, e5, e6, e7, e8, e9⟩ := ih
        { s with join_record := l ++ (p.data.drop (s.right_buffer_page_inner_iter_ * s.right_len_)).take s.right_len_,
                 right_buffer_page_inner_iter_ := s.right_buffer_page_inner_iter_ + 1 }
        (by rw [hcc]; exact hcs) (by simp [h2.symm]) h2 (by simp [h2.symm]) (by simp; omega)
      exact ⟨b, s', he, hcore, e1, e2, e3, e4, e5, e6, e7, e8, e9⟩



theorem rightTuples_core {s s' : BlockNestedLoopJoinExecutor} (h : scanCore s' = scanCore s)
    (i : Nat) : rightTuples s' i = rightTuples s i := by
  have e : rightTuples (scanCore s') i = rightTuples (scanCore s) i := by rw [h]
  exact e

theorem leftTuples_core {s s' : BlockNestedLoopJoinExecutor} (h : scanCore s' = scanCore s)
    (i : Nat) : leftTuples s' i = leftTuples s i := by
  have e : leftTuples (scanCore s') i = leftTuples (scanCore s) i := by rw [h]
  exact e

theorem rightFrom_core {s s' : BlockNestedLoopJoinExecutor} (h : scanCore s' = scanCore s)
    (k : Nat) : rightFrom s' k = rightFrom s k := by
  have e : rightFrom (scanCore s') k = rightFrom (scanCore s) k := by rw [h]
  exact e

theorem leftFrom_core {s s' : BlockNestedLoopJoinExecutor} (h : scanCore s' = scanCore s)
    (k : Nat) : leftFrom s' k = leftFrom s k := by
  have e : leftFrom (scanCore s') k = leftFrom (scanCore s) k := by rw [h]
  exact e

theorem rightFrom_of_lt (s : BlockNestedLoopJoinExecutor) (k : Nat)
    (h : k < s.right_buffer_page_cnt_) :
    rightFrom s k = rightTuples s k ++ rightFrom s (k + 1) := by
  unfold rightFrom
  obtain ⟨m, hm⟩ : ∃ m, s.right_buffer_page_cnt_ - k = m + 1 := ⟨_, (Nat.succ_pred_eq_of_pos (by omega)).symm⟩
  rw [hm, show s.right_buffer_page_cnt_ - (k + 1) = m by omega, List.range'_succ]
  simp

theorem rightFrom_of_le (s : BlockNestedLoopJoinExecutor) (k : Nat)
    (h : s.right_buffer_page_cnt_ ≤ k) : rightFrom s k = [] := by
  unfold rightFrom
  rw [show s.right_buffer_page_cnt_ - k = 0 by omega]
  rfl

theorem leftFrom_of_lt (s : BlockNestedLoopJoinExecutor) (k : Nat)
    (h : k < s.left_buffer_page_cnt_) :
    leftFrom s k = leftTuples s k ++ leftFrom s (k + 1) := by
  unfold leftFrom
  obtain ⟨m, hm⟩ : ∃ m, s.left_buffer_page_cnt_ - k = m + 1 := ⟨_, (Nat.succ_pred_eq_of_pos (by omega)).symm⟩
  rw [hm, show s.left_buffer_page_cnt_ - (k + 1) = m by omega, List.range'_succ]
  simp

theorem leftFrom_of_le (s : BlockNestedLoopJoinExecutor) (k : Nat)
    (h : s.left_buffer_page_cnt_ ≤ k) : leftFrom s k = [] := by
  unfold leftFrom
  rw [show s.left_buffer_page_cnt_ - k = 0 by omega]
  rfl

theorem right_cnt_core {s s' : BlockNestedLoopJoinExecutor} (h : scanCore s' = scanCore s) :
    s'.right_buffer_page_cnt_ = s.right_buffer_page_cnt_ := by
  have e : (scanCore s').right_buffer_page_cnt_ = (scanCore s).right_buffer_page_cnt_ := by rw [h]
  exact e

theorem left_cnt_core {s s' : BlockNestedLoopJoinExecutor} (h : scanCore s' = scanCore s) :
    s'.left_buffer_page_cnt_ = s.left_buffer_page_cnt_ := by
  have e : (scanCore s').left_buffer_page_cnt_ = (scanCore s).left_buffer_page_cnt_ := by rw [h]
  exact e

theorem rightRest_eq {s s' : BlockNestedLoopJoinExecutor} (h : scanCore s' = scanCore s) :
    rightRest s' =
      if s'.right_buffer_page_iter_ < s.right_buffer_page_cnt_ then
        (rightTuples s s'.right_buffer_page_iter_).drop s'.right_buffer_page_inner_iter_ ++
          rightFrom s (s'.right_buffer_page_iter_ + 1)
      else [] := by
  unfold rightRest
  rw [rightTuples_core h, rightFrom_core h, right_cnt_core h]

theorem rightRest_of_inner_zero (s : BlockNestedLoopJoinExecutor)
    (h : s.right_buffer_page_inner_iter_ = 0) : rightRest s = rightFrom s s.right_buffer_page_iter_ := by
  unfold rightRest
  by_cases hlt : s.right_buffer_page_iter_ < s.right_buffer_page_cnt_
  · simp only [hlt, if_true, h, List.drop_zero]
    rw [rightFrom_of_lt s _ hlt]
  · simp only [hlt, if_false]
    rw [rightFrom_of_le s _ (by omega)]

open BlockNestedLoopJoinExecutor

theorem left_len_core {s s' : BlockNestedLoopJoinExecutor} (h : scanCore s' = scanCore s) :
    s'.left_len_ = s.left_len_ := by
  have e : (scanCore s').left_len_ = (scanCore s).left_len_ := by rw [h]
  exact e

theorem right_len_core {s s' : BlockNestedLoopJoinExecutor} (h : scanCore s' = scanCore s) :
    s'.right_len_ = s.right_len_ := by
  have e : (scanCore s').right_len_ = (scanCore s).right_len_ := by rw [h]
  exact e

theorem right_pages_loop_spec (ec : EvaluateCompare) (c : List Byte → Bool) (l : List Byte) :
    ∀ (n : Nat) (s : BlockNestedLoopJoinExecutor),
      CheckConditions ec s = c →
      s.join_record.take s.left_len_ = l → l.length = s.left_len_ →
      s.join_record.length ≤ s.left_len_ + s.right_len_ →
      n = s.right_buffer_page_cnt_ - s.right_buffer_page_iter_ →
      ∃ b s', right_pages_loop ec n s = (b, s') ∧ scanCore s' = scanCore s ∧
        s'.left_buffer_page_iter_ = s.left_buffer_page_iter_ ∧
        s'.left_buffer_page_inner_iter_ = s.left_buffer_page_inner_iter_ ∧
        s'.left_num_now_inner_ = s.left_num_now_inner_ ∧
        s'.join_record.take s.left_len_ = l ∧
        s'.join_record.length ≤ s.left_len_ + s.right_len_ ∧
        (b = false → matchesOf c l (rightRest s) = [] ∧
          (s.right_buffer_page_iter_ < s.right_buffer_page_cnt_ ∨
            s.right_buffer_page_inner_iter_ = 0 → s'.right_buffer_page_inner_iter_ = 0)) ∧
        (b = true → s'.right_buffer_page_iter_ < s.right_buffer_page_cnt_ ∧
          matchesOf c l (rightRest s) = s'.join_record :: matchesOf c l (rightRest s')) := by
  intro n
  induction n with
  | zero =>
    intro s hcs h1 h2 h3 hn
    refine ⟨false, s, rfl, rfl, rfl, rfl, rfl, h1, h3, ?_, ?_⟩
    · intro _
      have hge : ¬ s.right_buffer_page_iter_ < s.right_buffer_page_cnt_ := by omega
      refine ⟨by simp [rightRest, hge, matchesOf_nil], ?_⟩
      rintro (h | h)
      · exact absurd h hge
      · exact h
    · intro h; cases h
  | succ n ih =>
    intro s hcs h1 h2 h3 hn
    have hlt : s.right_buffer_page_iter_ < s.right_buffer_page_cnt_ := by omega
    simp only [right_pages_loop, hlt, if_true]
    obtain ⟨b1, s1, he, hcore, e1, e2, e3, e4, e5, e6, e7, e8, e9⟩ :=
      right_inner_loop_spec ec c (s.right_buffer_pages_.getD s.right_buffer_page_iter_ default) l
        (rightFrom s (s.right_buffer_page_iter_ + 1))
        (map_find s.right_num_now_ (s.right_buffer_pages_.getD s.right_buffer_page_iter_ default).id
          - s.right_buffer_page_inner_iter_)
        { s with right_num_now_inner_ :=
            map_find s.right_num_now_ (s.right_buffer_pages_.getD s.right_buffer_page_iter_ default).id }
        (by rw [← hcs]; exact funext (fun d => CheckConditions_congr ec rfl rfl d)) h1 h2 h3 rfl
    have hcore1 : scanCore s1 = scanCore s := hcore
    have hrest : rightRest s =
        (pageTuples s.right_len_ (s.right_buffer_pages_.getD s.right_buffer_page_iter_ default).data
          (map_find s.right_num_now_ (s.right_buffer_pages_.getD s.right_buffer_page_iter_ default).id)).drop
          s.right_buffer_page_inner_iter_ ++ rightFrom s (s.right_buffer_page_iter_ + 1) := by
      simp only [rightRest, hlt, if_true, rightTuples]
    rw [he]
    cases b1 with
    | true =>
      simp only
      have h9 := e9 rfl
      refine ⟨true, s1, rfl, hcore1, e3, e4, e5, e6, e7, ?_, ?_⟩
      · intro h; cases h
      · intro _
        refine ⟨by rw [e1]; exact hlt, ?_⟩
        rw [hrest, rightRest_eq hcore1, e1]
        simp only [hlt, if_true, rightTuples]
        exact h9.2
    | false =>
      simp only
      have h8 := e8 rfl
      have hL : s1.left_len_ = s.left_len_ := left_len_core hcore1
      have hR : s1.right_len_ = s.right_len_ := right_len_core hcore1
      have hcore2 : scanCore ({ s1 with right_buffer_page_iter_ := s1.right_buffer_page_iter_ + 1,
                                        right_buffer_page_inner_iter_ := 0 }) = scanCore s := hcore1
      obtain ⟨b, s', he', hcore', f3, f4, f5, f6, f7, f8, f9⟩ := ih
        { s1 with right_buffer_page_iter_ := s1.right_buffer_page_iter_ + 1,
                  right_buffer_page_inner_iter_ := 0 }
        (by rw [← hcs]; exact CheckConditions_core ec hcore2)
        (by simp only [hL]; exact e6)
        (by simp only [hL]; exact h2)
        (by simp only [hL, hR]; exact e7)
        (by simp only [right_cnt_core hcore1, e1]; omega)
      simp only [hL, hR] at f6 f7
      have hrest2 : rightRest ({ s1 with right_buffer_page_iter_ := s1.right_buffer_page_iter_ + 1,
                                         right_buffer_page_inner_iter_ := 0 }) =
          rightFrom s (s.right_buffer_page_iter_ + 1) := by
        rw [rightRest_of_inner_zero _ rfl, rightFrom_core hcore2]
        simp only [e1]
      have hm : matchesOf c l (rightRest s) = matchesOf c l (rightFrom s (s.right_buffer_page_iter_ + 1)) := by
        rw [hrest]; exact h8
      refine ⟨b, s', he', hcore'.trans hcore2, f3.trans e3, f4.trans e4, f5.trans e5, f6, f7, ?_, ?_⟩
      · intro hb
        obtain ⟨g1, g2⟩ := f8 hb
        refine ⟨by rw [hm, ← hrest2]; exact g1, fun _ => g2 (Or.inr rfl)⟩
      · intro hb
        obtain ⟨g1, g2⟩ := f9 hb
        refine ⟨by rw [← right_cnt_core hcore2]; exact g1, ?_⟩
        rw [hm, ← hrest2]; exact g2

open BlockNestedLoopJoinExecutor

theorem take_drop_length (data : List Byte) (j len cnt : Nat) (hj : j < cnt)
    (h : cnt * len ≤ data.length) : ((data.drop (j * len)).take len).length = len := by
  simp only [List.length_take, List.length_drop]
  have : (j + 1) * len ≤ cnt * len := Nat.mul_le_mul_right _ hj
  have e : (j + 1) * len = j * len + len := by ring
  omega

theorem rightRest_after_left_step (s : BlockNestedLoopJoinExecutor)
    (h : s.right_buffer_page_inner_iter_ = 0) :
    rightRest ({ s with right_buffer_page_iter_ := 0,
                        left_buffer_page_inner_iter_ := s.left_buffer_page_inner_iter_ + 1 }) =
      rightFrom s 0 :=
  rightRest_of_inner_zero _ h

theorem left_inner_loop_spec (ec : EvaluateCompare) (c : List Byte → Bool) (q : Page)
    (T : List (List Byte)) :
    ∀ (n : Nat) (s : BlockNestedLoopJoinExecutor),
      CheckConditions ec s = c →
      s.join_record.length ≤ s.left_len_ + s.right_len_ →
      s.left_num_now_inner_ * s.left_len_ ≤ q.data.length →
      (s.right_buffer_page_iter_ < s.right_buffer_page_cnt_ ∨ s.right_buffer_page_inner_iter_ = 0) →
      n = s.left_num_now_inner_ - s.left_buffer_page_inner_iter_ →
      ∃ b s', left_inner_loop ec q n s = (b, s') ∧ scanCore s' = scanCore s ∧
        s'.left_buffer_page_iter_ = s.left_buffer_page_iter_ ∧
        s'.left_num_now_inner_ = s.left_num_now_inner_ ∧
        s'.join_record.length ≤ s.left_len_ + s.right_len_ ∧
        (s'.right_buffer_page_iter_ < s.right_buffer_page_cnt_ ∨
          s'.right_buffer_page_inner_iter_ = 0) ∧
        (b = false →
          pendingOf c ((pageTuples s.left_len_ q.data s.left_num_now_inner_).drop
              s.left_buffer_page_inner_iter_ ++ T) (rightRest s) (rightFrom s 0) =
            pendingOf c T (rightRest s') (rightFrom s 0)) ∧
        (b = true → s'.left_buffer_page_inner_iter_ < s.left_num_now_inner_ ∧
          s'.right_buffer_page_iter_ < s.right_buffer_page_cnt_ ∧
          pendingOf c ((pageTuples s.left_len_ q.data s.left_num_now_inner_).drop
              s.left_buffer_page_inner_iter_ ++ T) (rightRest s) (rightFrom s 0) =
            s'.join_record ::
              pendingOf c ((pageTuples s.left_len_ q.data s.left_num_now_inner_).drop
                s'.left_buffer_page_inner_iter_ ++ T) (rightRest s') (rightFrom s 0)) := by
  intro n
  induction n with
  | zero =>
    intro s hcs h3 hq hr hn
    refine ⟨false, s, rfl, rfl, rfl, rfl, h3, hr, ?_, ?_⟩
    · intro _
      rw [pageTuples_drop_of_le _ _ _ _ (by omega)]
      rfl
    · intro h; cases h
  | succ n ih =>
    intro s hcs h3 hq hr hn
    have hlt : s.left_buffer_page_inner_iter_ < s.left_num_now_inner_ := by omega
    have hll := take_drop_length q.data _ _ _ hlt hq
    generalize hl : (q.data.drop (s.left_buffer_page_inner_iter_ * s.left_len_)).take s.left_len_ = l at hll
    have hjr : memcpy s.join_record 0 q.data (s.left_buffer_page_inner_iter_ * s.left_len_) s.left_len_
        = l ++ s.join_record.drop s.left_len_ := by
      simp [memcpy, hl]
    simp only [left_inner_loop, hlt, if_true, hjr]
    have hcore1 : scanCore ({ s with join_record := l ++ s.join_record.drop s.left_len_ }) =
        scanCore s := rfl
    obtain ⟨b2, s2, he, hcore, e3, e4, e5, e6, e7, e8, e9⟩ :=
      right_pages_loop_spec ec c l (s.right_buffer_page_cnt_ - s.right_buffer_page_iter_)
        { s with join_record := l ++ s.join_record.drop s.left_len_ }
        (by rw [← hcs]; exact CheckConditions_core ec hcore1)
        (by simp [← hll]) hll (by simp [hll]; omega) rfl
    have hcore2 : scanCore s2 = scanCore s := hcore
    simp only at e3 e4 e5 e6 e7
    have hrest1 : rightRest ({ s with join_record := l ++ s.join_record.drop s.left_len_ }) =
        rightRest s := rfl
    rw [hrest1] at e8 e9
    rw [he, pageTuples_drop _ _ _ _ hlt, hl, List.cons_append]
    simp only [pendingOf]
    cases b2 with
    | true =>
      simp only
      obtain ⟨g1, g2⟩ := e9 rfl
      refine ⟨true, s2, rfl, hcore2, e3, e5, e7, Or.inl g1, ?_, ?_⟩
      · intro h; cases h
      · intro _
        refine ⟨by rw [e4]; exact hlt, g1, ?_⟩
        rw [e4, pageTuples_drop _ _ _ _ hlt, hl, List.cons_append, g2]
        rfl
    | false =>
      simp only
      obtain ⟨g1, g2⟩ := e8 rfl
      have hrj := g2 hr
      have hL : s2.left_len_ = s.left_len_ := left_len_core hcore2
      have hR : s2.right_len_ = s.right_len_ := right_len_core hcore2
      obtain ⟨s3, hs3⟩ : ∃ s3, s3 = ({ s2 with right_buffer_page_iter_ := 0,
                                               left_buffer_page_inner_iter_ := s2.left_buffer_page_inner_iter_ + 1 } :
                                       BlockNestedLoopJoinExecutor) := ⟨_, rfl⟩
      rw [← hs3]
      have hcore3 : scanCore s3 = scanCore s := by rw [hs3]; exact hcore2
      have k1 : s3.left_buffer_page_inner_iter_ = s.left_buffer_page_inner_iter_ + 1 := by
        rw [hs3]; simp only [e4]
      have k2 : s3.left_num_now_inner_ = s.left_num_now_inner_ := by rw [hs3]; exact e5
      have k3 : s3.left_buffer_page_iter_ = s.left_buffer_page_iter_ := by rw [hs3]; exact e3
      have k4 : s3.right_buffer_page_inner_iter_ = 0 := by rw [hs3]; exact hrj
      have k5 : s3.join_record = s2.join_record := by rw [hs3]
      have hrest3 : rightRest s3 = rightFrom s 0 := by
        rw [hs3, rightRest_after_left_step s2 hrj, rightFrom_core hcore2]
      obtain ⟨b, s', he', hcore', f3, f5, f7, f6, f8, f9⟩ := ih s3
        (by rw [← hcs]; exact CheckConditions_core ec hcore3)
        (by rw [left_len_core hcore3, right_len_core hcore3, k5]; exact e7)
        (by rw [left_len_core hcore3, k2]; exact hq)
        (Or.inr k4)
        (by rw [k1, k2]; omega)
      rw [left_len_core hcore3, right_len_core hcore3] at f7
      rw [right_cnt_core hcore3] at f6
      rw [hrest3, rightFrom_core hcore3, pendingOf_all, left_len_core hcore3, k1, k2] at f8
      rw [hrest3, rightFrom_core hcore3, pendingOf_all, left_len_core hcore3, k1, k2,
        right_cnt_core hcore3] at f9
      rw [g1, List.nil_append]
      exact ⟨b, s', he', hcore'.trans hcore3, f3.trans k3, f5.trans k2, f7, f6, f8, f9⟩

open BlockNestedLoopJoinExecutor

theorem leftRest_eq {s s' : BlockNestedLoopJoinExecutor} (h : scanCore s' = scanCore s) :
    leftRest s' =
      if s'.left_buffer_page_iter_ < s.left_buffer_page_cnt_ then
        (leftTuples s s'.left_buffer_page_iter_).drop s'.left_buffer_page_inner_iter_ ++
          leftFrom s (s'.left_buffer_page_iter_ + 1)
      else [] := by
  unfold leftRest
  rw [leftTuples_core h, leftFrom_core h, left_cnt_core h]

theorem leftRest_of_inner_zero (s : BlockNestedLoopJoinExecutor)
    (h : s.left_buffer_page_inner_iter_ = 0) : leftRest s = leftFrom s s.left_buffer_page_iter_ := by
  unfold leftRest
  by_cases hlt : s.left_buffer_page_iter_ < s.left_buffer_page_cnt_
  · simp only [hlt, if_true, h, List.drop_zero]
    rw [leftFrom_of_lt s _ hlt]
  · simp only [hlt, if_false]
    rw [leftFrom_of_le s _ (by omega)]

theorem rightRest_cursor {s s' : BlockNestedLoopJoinExecutor} (h : scanCore s' = scanCore s)
    (h1 : s'.right_buffer_page_iter_ = s.right_buffer_page_iter_)
    (h2 : s'.right_buffer_page_inner_iter_ = s.right_buffer_page_inner_iter_) :
    rightRest s' = rightRest s := by
  rw [rightRest_eq h, h1, h2]; rfl

theorem left_pages_loop_spec (ec : EvaluateCompare) (c : List Byte → Bool) :
    ∀ (n : Nat) (s : BlockNestedLoopJoinExecutor),
      CheckConditions ec s = c →
      s.join_record.length ≤ s.left_len_ + s.right_len_ →
      (∀ i, i < s.left_buffer_page_cnt_ →
        map_find s.left_num_now_ (s.left_buffer_pages_.getD i default).id * s.left_len_ ≤
          (s.left_buffer_pages_.getD i default).data.length) →
      (s.right_buffer_page_iter_ < s.right_buffer_page_cnt_ ∨ s.right_buffer_page_inner_iter_ = 0) →
      n = s.left_buffer_page_cnt_ - s.left_buffer_page_iter_ →
      ∃ b s', left_pages_loop ec n s = (b, s') ∧ scanCore s' = scanCore s ∧
        s'.join_record.length ≤ s.left_len_ + s.right_len_ ∧
        (s'.right_buffer_page_iter_ < s.right_buffer_page_cnt_ ∨
          s'.right_buffer_page_inner_iter_ = 0) ∧
        (b = false → pendingOf c (leftRest s) (rightRest s) (rightFrom s 0) = []) ∧
        (b = true →
          pendingOf c (leftRest s) (rightRest s) (rightFrom s 0) =
            s'.join_record :: pendingOf c (leftRest s') (rightRest s') (rightFrom s 0)) := by
  intro n
  induction n with
  | zero =>
    intro s hcs h3 hq hr hn
    refine ⟨false, s, rfl, rfl, h3, hr, ?_, ?_⟩
    · intro _
      have hge : ¬ s.left_buffer_page_iter_ < s.left_buffer_page_cnt_ := by omega
      simp [leftRest, hge, pendingOf]
    · intro h; cases h
  | succ n ih =>
    intro s hcs h3 hq hr hn
    have hlt : s.left_buffer_page_iter_ < s.left_buffer_page_cnt_ := by omega
    simp only [left_pages_loop, hlt, if_true]
    obtain ⟨s1, hs1⟩ : ∃ s1, s1 = ({ s with left_num_now_inner_ := map_find s.left_num_now_ (s.left_buffer_pages_.getD s.left_buffer_page_iter_ default).id } :
          BlockNestedLoopJoinExecutor) := ⟨_, rfl⟩
    have hcore1 : scanCore s1 = scanCore s := by rw [hs1]; rfl
    have m1 : s1.left_num_now_inner_ =
        map_find s.left_num_now_ (s.left_buffer_pages_.getD s.left_buffer_page_iter_ default).id := by
      rw [hs1]
    have m2 : s1.left_buffer_page_inner_iter_ = s.left_buffer_page_inner_iter_ := by rw [hs1]
    have m3 : s1.left_buffer_page_iter_ = s.left_buffer_page_iter_ := by rw [hs1]
    have m4 : s1.join_record = s.join_record := by rw [hs1]
    have m5 : rightRest s1 = rightRest s := by rw [hs1]; rfl
    have m6 : s1.right_buffer_page_iter_ = s.right_buffer_page_iter_ := by rw [hs1]
    have m7 : s1.right_buffer_page_inner_iter_ = s.right_buffer_page_inner_iter_ := by rw [hs1]
    have hloop : left_inner_loop ec (s.left_buffer_pages_.getD s.left_buffer_page_iter_ default)
        (map_find s.left_num_now_ (s.left_buffer_pages_.getD s.left_buffer_page_iter_ default).id -
          s.left_buffer_page_inner_iter_)
        { s with left_num_now_inner_ := map_find s.left_num_now_ (s.left_buffer_pages_.getD s.left_buffer_page_iter_ default).id } =
        left_inner_loop ec (s.left_buffer_pages_.getD s.left_buffer_page_iter_ default)
          (s1.left_num_now_inner_ - s1.left_buffer_page_inner_iter_) s1 := by
      rw [hs1]
    rw [hloop]
    obtain ⟨b2, s2, he, hcore, e3, e5, e7, e6, e8, e9⟩ :=
      left_inner_loop_spec ec c (s.left_buffer_pages_.getD s.left_buffer_page_iter_ default)
        (leftFrom s (s.left_buffer_page_iter_ + 1))
        (s1.left_num_now_inner_ - s1.left_buffer_page_inner_iter_) s1
        (by rw [← hcs]; exact CheckConditions_core ec hcore1)
        (by rw [left_len_core hcore1, right_len_core hcore1, m4]; exact h3)
        (by rw [left_len_core hcore1, m1]; exact hq _ hlt)
        (by rw [right_cnt_core hcore1, m6, m7]; exact hr) rfl
    have hcore2 : scanCore s2 = scanCore s := hcore.trans hcore1
    rw [left_len_core hcore1, right_len_core hcore1] at e7
    rw [right_cnt_core hcore1] at e6
    rw [left_len_core hcore1, m1, m2, m5, rightFrom_core hcore1] at e8 e9
    rw [right_cnt_core hcore1] at e9
    have hrest : leftRest s =
        (pageTuples s.left_len_ (s.left_buffer_pages_.getD s.left_buffer_page_iter_ default).data
          (map_find s.left_num_now_ (s.left_buffer_pages_.getD s.left_buffer_page_iter_ default).id)).drop
          s.left_buffer_page_inner_iter_ ++ leftFrom s (s.left_buffer_page_iter_ + 1) := by
      simp only [leftRest, hlt, if_true, leftTuples]
    rw [he]
    cases b2 with
    | true =>
      simp only
      obtain ⟨g1, g2, g3⟩ := e9 rfl
      refine ⟨true, s2, rfl, hcore2, e7, e6, ?_, ?_⟩
      · intro h; cases h
      · intro _
        rw [hrest, g3, leftRest_eq hcore2, e3, m3]
        simp only [hlt, if_true, leftTuples]
    | false =>
      simp only
      have g := e8 rfl
      obtain ⟨s3, hs3⟩ : ∃ s3, s3 = ({ s2 with left_buffer_page_iter_ := s2.left_buffer_page_iter_ + 1,
                                               left_buffer_page_inner_iter_ := 0 } :
                                       BlockNestedLoopJoinExecutor) := ⟨_, rfl⟩
      rw [← hs3]
      have hcore3 : scanCore s3 = scanCore s := by rw [hs3]; exact hcore2
      have k1 : s3.left_buffer_page_iter_ = s.left_buffer_page_iter_ + 1 := by
        rw [hs3]; simp only [e3, m3]
      have k2 : s3.left_buffer_page_inner_iter_ = 0 := by rw [hs3]
      have k3 : s3.join_record = s2.join_record := by rw [hs3]
      have k4 : rightRest s3 = rightRest s2 := by rw [hs3]; rfl
      have k5 : s3.right_buffer_page_iter_ = s2.right_buffer_page_iter_ := by rw [hs3]
      have k6 : s3.right_buffer_page_inner_iter_ = s2.right_buffer_page_inner_iter_ := by rw [hs3]
      have hrest3 : leftRest s3 = leftFrom s (s.left_buffer_page_iter_ + 1) := by
        rw [leftRest_of_inner_zero _ k2, leftFrom_core hcore3, k1]
      obtain ⟨b, s', he', hcore', f7, f6, f8, f9⟩ := ih s3
        (by rw [← hcs]; exact CheckConditions_core ec hcore3)
        (by rw [left_len_core hcore3, right_len_core hcore3, k3]; exact e7)
        (by
          intro i hi
          have e : map_find (scanCore s3).left_num_now_ ((scanCore s3).left_buffer_pages_.getD i default).id *
              (scanCore s3).left_len_ ≤ ((scanCore s3).left_buffer_pages_.getD i default).data.length := by
            rw [hcore3]; exact hq i (by rw [← left_cnt_core hcore3]; exact hi)
          exact e)
        (by rw [right_cnt_core hcore3, k5, k6]; exact e6)
        (by rw [left_cnt_core hcore3, k1]; omega)
      rw [left_len_core hcore3, right_len_core hcore3] at f7
      rw [right_cnt_core hcore3] at f6
      rw [hrest3, k4, rightFrom_core hcore3] at f8 f9
      rw [hrest, g]
      exact ⟨b, s', he', hcore'.trans hcore3, f7, f6, f8, f9⟩

open BlockNestedLoopJoinExecutor

theorem fill_right_page_eq (s : BlockNestedLoopJoinExecutor) (idx : Nat) :
    fill_right_page s idx =
      setRight s ((rightBuf s).fill s.right_len_ s.right_num_per_page_ idx) := rfl

theorem fill_left_page_eq (s : BlockNestedLoopJoinExecutor) (idx : Nat) :
    fill_left_page s idx =
      setLeft s ((leftBuf s).fill s.left_len_ s.left_num_per_page_ idx) := rfl

theorem refill_right_loop_eq :
    ∀ (n cnt : Nat) (s : BlockNestedLoopJoinExecutor),
      refill_right_loop n cnt s =
        (((rightBuf s).refill_loop s.right_len_ s.right_num_per_page_ s.right_buffer_page_cnt_ n cnt).1,
          setRight s ((rightBuf s).refill_loop s.right_len_ s.right_num_per_page_
            s.right_buffer_page_cnt_ n cnt).2) := by
  intro n
  induction n with
  | zero => intro cnt s; rfl
  | succ n ih =>
    intro cnt s
    simp only [refill_right_loop, Buf.refill_loop]
    by_cases h1 : s.right_.is_end = true
    · simp [h1, rightBuf]; rfl
    · by_cases h2 : cnt ≥ s.right_buffer_page_cnt_
      · simp [h1, h2, rightBuf]; rfl
      · simp only [h1, h2, rightBuf, if_false, Bool.not_false, if_true, Bool.false_eq_true, Bool.not_eq_true']
        rw [ih, fill_right_page_eq]
        rfl

theorem refill_left_loop_eq :
    ∀ (n cnt : Nat) (s : BlockNestedLoopJoinExecutor),
      refill_left_loop n cnt s =
        (((leftBuf s).refill_loop s.left_len_ s.left_num_per_page_ s.left_buffer_page_cnt_ n cnt).1,
          setLeft s ((leftBuf s).refill_loop s.left_len_ s.left_num_per_page_
            s.left_buffer_page_cnt_ n cnt).2) := by
  intro n
  induction n with
  | zero => intro cnt s; rfl
  | succ n ih =>
    intro cnt s
    simp only [refill_left_loop, Buf.refill_loop]
    by_cases h1 : s.left_.is_end = true
    · simp [h1, leftBuf]; rfl
    · by_cases h2 : cnt ≥ s.left_buffer_page_cnt_
      · simp [h1, h2, leftBuf]; rfl
      · simp only [h1, h2, leftBuf, if_false, Bool.not_false, if_true, Bool.false_eq_true, Bool.not_eq_true']
        rw [ih, fill_left_page_eq]
        rfl

theorem init_right_loop_eq (JP PS : Nat) :
    ∀ (n : Nat) (s : BlockNestedLoopJoinExecutor),
      init_right_loop JP PS n s =
        { setRight s (Buf.init_loop s.right_len_ s.right_num_per_page_ JP PS n (rightBuf s, s.bpm_)).1
            with bpm_ := (Buf.init_loop s.right_len_ s.right_num_per_page_ JP PS n (rightBuf s, s.bpm_)).2 } := by
  intro n
  induction n with
  | zero => intro s; rfl
  | succ n ih =>
    intro s
    simp only [init_right_loop, Buf.init_loop]
    by_cases h1 : s.right_.is_end = true
    · simp [h1, rightBuf]; rfl
    · by_cases h2 : s.right_buffer_pages_.length ≥ JP / 2
      · simp [h1, h2, rightBuf]; rfl
      · simp only [h1, h2, rightBuf, if_false, Bool.not_false, if_true, Bool.false_eq_true, Bool.not_eq_true']
        rw [ih, fill_right_page_eq]
        simp only [List.length_append, List.length_singleton]
        rfl

theorem init_left_loop_eq (JP PS : Nat) :
    ∀ (n : Nat) (s : BlockNestedLoopJoinExecutor),
      init_left_loop JP PS n s =
        { setLeft s (Buf.init_loop s.left_len_ s.left_num_per_page_ JP PS n (leftBuf s, s.bpm_)).1
            with bpm_ := (Buf.init_loop s.left_len_ s.left_num_per_page_ JP PS n (leftBuf s, s.bpm_)).2 } := by
  intro n
  induction n with
  | zero => intro s; rfl
  | succ n ih =>
    intro s
    simp only [init_left_loop, Buf.init_loop]
    by_cases h1 : s.left_.is_end = true
    · simp [h1, leftBuf]; rfl
    · by_cases h2 : s.left_buffer_pages_.length ≥ JP / 2
      · simp [h1, h2, leftBuf]; rfl
      · simp only [h1, h2, leftBuf, if_false, Bool.not_false, if_true, Bool.false_eq_true, Bool.not_eq_true']
        rw [ih, fill_left_page_eq]
        simp only [List.length_append, List.length_singleton]
        rfl

open BlockNestedLoopJoinExecutor

theorem map_find_assign_self (m : List (Nat × Nat)) (k v : Nat) :
    map_find (map_assign m k v) k = v := by
  simp [map_find, map_assign, List.lookup]

theorem lookup_filter_ne (m : List (Nat × Nat)) (k k' : Nat) (h : k' ≠ k) :
    List.lookup k' (m.filter (fun e => decide (e.1 ≠ k))) = List.lookup k' m := by
  induction m with
  | nil => rfl
  | cons e m ih =>
    obtain ⟨a, b⟩ := e
    by_cases ha : a = k
    · subst ha
      have hne : (k' == a) = false := by simpa using h
      have hd : ¬ (decide ((a, b).1 ≠ a) = true) := by simp
      rw [List.filter_cons, if_neg hd, ih, List.lookup_cons, hne]
    · have hd : decide ((a, b).1 ≠ k) = true := by simpa using ha
      rw [List.filter_cons, if_pos hd, List.lookup_cons, List.lookup_cons, ih]

theorem map_find_assign_ne (m : List (Nat × Nat)) (k k' v : Nat) (h : k' ≠ k) :
    map_find (map_assign m k v) k' = map_find m k' := by
  unfold map_find map_assign
  have hne : (k' == k) = false := by simpa using h
  rw [List.lookup_cons, hne, lookup_filter_ne m k k' h]

theorem slot_read_write_self (data t : List Byte) (cnt len : Nat) (ht : t.length = len)
    (hd : cnt * len + len ≤ data.length) :
    ((memcpy data (cnt * len) t 0 len).drop (cnt * len)).take len = t := by
  unfold memcpy
  have h1 : (data.take (cnt * len)).length = cnt * len := by
    rw [List.length_take]; omega
  have h2 : (t.drop 0).take len = t := by
    rw [List.drop_zero, List.take_of_length_le (by omega)]
  rw [h2, List.append_assoc, List.drop_left' h1, List.take_left' ht]

theorem slot_read_write_other (data t : List Byte) (cnt len j : Nat) (hj : j < cnt)
    (hd : cnt * len + len ≤ data.length) :
    ((memcpy data (cnt * len) t 0 len).drop (j * len)).take len =
      (data.drop (j * len)).take len := by
  unfold memcpy
  have hle : j * len + len ≤ cnt * len := by
    have : (j + 1) * len ≤ cnt * len := Nat.mul_le_mul_right _ hj
    have e : (j + 1) * len = j * len + len := by ring
    omega
  have h1 : (data.take (cnt * len)).length = cnt * len := by
    rw [List.length_take]; omega
  rw [List.append_assoc, List.drop_append_of_le_length (by omega),
    List.take_append_of_le_length (by rw [List.length_drop]; omega)]
  rw [List.drop_take, List.take_take]
  congr 1
  omega

theorem pageTuples_write (data t : List Byte) (cnt len : Nat) (ht : t.length = len)
    (hd : cnt * len + len ≤ data.length) :
    pageTuples len (memcpy data (cnt * len) t 0 len) (cnt + 1) = pageTuples len data cnt ++ [t] := by
  rw [pageTuples_succ, slot_read_write_self data t cnt len ht hd]
  congr 1
  unfold pageTuples
  apply List.map_congr_left
  intro j hj
  exact slot_read_write_other data t cnt len j (by simpa using hj) hd

theorem memcpy_length (data t : List Byte) (off len : Nat) (ht : t.length = len)
    (hd : off + len ≤ data.length) : (memcpy data off t 0 len).length = data.length := by
  unfold memcpy
  simp only [List.length_append, List.length_take, List.length_drop, List.drop_zero]
  omega

open BlockNestedLoopJoinExecutor

theorem fill_page_loop_spec (len per : Nat) :
    ∀ (n cnt : Nat) (data : List Byte) (child : Executor) (r : Nat × List Byte × Executor),
      fill_page_loop len per n cnt data child = r →
      (∀ t ∈ child.tuples, t.length = len) → per * len ≤ data.length → cnt ≤ per →
      n = per - cnt →
      r.2.2.tuples = child.tuples ∧ r.2.1.length = data.length ∧ r.1 ≤ per ∧ cnt ≤ r.1 ∧
      r.2.2.pos = child.pos + (r.1 - cnt) ∧
      pageTuples len r.2.1 r.1 =
        pageTuples len data cnt ++ (child.tuples.drop child.pos).take (r.1 - cnt) ∧
      (child.is_end = false → cnt < per → cnt < r.1) := by
  intro n
  induction n with
  | zero =>
    intro cnt data child r hr _ _ hc hn
    simp only [fill_page_loop] at hr
    subst hr
    exact ⟨rfl, rfl, hc, le_refl _, by simp, by simp, fun _ h => by omega⟩
  | succ n ih =>
    intro cnt data child r hr ht hd hc hn
    simp only [fill_page_loop] at hr
    by_cases hend : child.is_end = true
    · simp only [hend, Bool.not_true, Bool.false_and, if_false, Bool.false_eq_true] at hr
      subst hr
      exact ⟨rfl, rfl, hc, le_refl _, by simp, by simp, fun h _ => by simp [hend] at h⟩
    · have hlt : cnt < per := by omega
      have hend' : child.is_end = false := by simpa using hend
      simp only [hend', Bool.not_false, Bool.true_and, decide_eq_true_eq, hlt, if_true] at hr
      have hpos : child.pos < child.tuples.length := by
        unfold Executor.is_end at hend'
        simpa using hend'
      have hnext : child.Next = child.tuples[child.pos] := by
        unfold Executor.Next
        simp [List.getD_eq_getElem?_getD, List.getElem?_eq_getElem hpos]
      have hlen : child.Next.length = len := by
        rw [hnext]; exact ht _ (List.getElem_mem _)
      have hroom : cnt * len + len ≤ data.length := by
        have : (cnt + 1) * len ≤ per * len := Nat.mul_le_mul_right _ hlt
        have e : (cnt + 1) * len = cnt * len + len := by ring
        omega
      obtain ⟨i1, i2, i3, i4, i5, i6, _⟩ := ih (cnt + 1)
        (memcpy data (cnt * len) child.Next 0 len) child.nextTuple r hr ht
        (by rw [memcpy_length _ _ _ _ hlen hroom]; exact hd) hlt (by omega)
      have hp1 : child.nextTuple.pos = child.pos + 1 := rfl
      have ht1 : child.nextTuple.tuples = child.tuples := rfl
      rw [hp1] at i5
      rw [hp1, ht1] at i6
      refine ⟨i1, by rw [i2, memcpy_length _ _ _ _ hlen hroom], i3, by omega, by omega, ?_,
        fun _ _ => by omega⟩
      rw [i6, pageTuples_write _ _ _ _ hlen hroom, List.append_assoc]
      congr 1
      obtain ⟨m, hm⟩ : ∃ m, r.1 - cnt = m + 1 := ⟨_, (Nat.succ_pred_eq_of_pos (by omega)).symm⟩
      rw [hm, show r.1 - (cnt + 1) = m by omega, List.drop_eq_getElem_cons hpos,
        List.take_succ_cons, hnext]
      rfl

open BlockNestedLoopJoinExecutor

theorem getD_of_lt (pages : List Page) (i : Nat) (h : i < pages.length) :
    pages.getD i default = pages[i] := by
  simp [List.getD_eq_getElem?_getD, List.getElem?_eq_getElem h]

theorem ids_set_same (pages : List Page) (idx : Nat) (data : List Byte) (h : idx < pages.length) :
    (pages.set idx { pages.getD idx default with data := data }).map Page.id = pages.map Page.id := by
  rw [List.map_set]
  apply List.ext_getElem (by simp)
  intro i h1 h2
  by_cases hi : i = idx
  · subst hi
    rw [List.getElem_set_self, getD_of_lt pages i h, List.getElem_map]
  · rw [List.getElem_set_ne (Ne.symm hi)]

theorem id_ne_of_nodup (pages : List Page) (hnd : (pages.map Page.id).Nodup) (i j : Nat)
    (hi : i < pages.length) (hj : j < pages.length) (hne : i ≠ j) :
    (pages.getD i default).id ≠ (pages.getD j default).id := by
  rw [getD_of_lt pages i hi, getD_of_lt pages j hj]
  intro heq
  have hi' : i < (pages.map Page.id).length := by simpa using hi
  have hj' : j < (pages.map Page.id).length := by simpa using hj
  have h1 : (pages.map Page.id)[i] = (pages.map Page.id)[j] := by
    simpa using heq
  exact hne ((hnd.getElem_inj_iff).mp h1)

theorem Buf.fill_spec (len per : Nat) (b : Buf) (idx : Nat) (hwf : Buf.WF len per b)
    (hidx : idx < b.pages.length) :
    Buf.WF len per (b.fill len per idx) ∧
    (b.fill len per idx).pages.length = b.pages.length ∧
    (b.fill len per idx).pages.map Page.id = b.pages.map Page.id ∧
    (b.fill len per idx).child.tuples = b.child.tuples ∧
    b.child.pos ≤ (b.fill len per idx).child.pos ∧
    Buf.tuples len (b.fill len per idx) idx ++
        b.child.tuples.drop (b.fill len per idx).child.pos =
      b.child.tuples.drop b.child.pos ∧
    (∀ i, i ≠ idx → i < b.pages.length →
      Buf.tuples len (b.fill len per idx) i = Buf.tuples len b i) ∧
    (b.child.is_end = false → 1 ≤ per → b.child.pos < (b.fill len per idx).child.pos) := by
  obtain ⟨hnd, hpg, hnum, htl⟩ := hwf
  have hmem : b.pages.getD idx default ∈ b.pages := by
    rw [getD_of_lt _ _ hidx]; exact List.getElem_mem _
  obtain ⟨r, hr⟩ : ∃ r, fill_page_loop len per per 0 (b.pages.getD idx default).data b.child = r :=
    ⟨_, rfl⟩
  obtain ⟨i1, i2, i3, _, i5, i6, i7⟩ := fill_page_loop_spec len per per 0 _ _ r hr htl
    (hpg _ hmem) (Nat.zero_le _) rfl
  have hfill : b.fill len per idx =
      ⟨b.pages.set idx { (b.pages.getD idx default) with data := r.2.1 },
        map_assign b.num_now (b.pages.getD idx default).id r.1, r.2.2⟩ := by
    unfold Buf.fill; rw [hr]
  rw [hfill]
  simp only [Nat.sub_zero, pageTuples, List.range_zero, List.map_nil, List.nil_append] at i5 i6
  have hget : (b.pages.set idx { (b.pages.getD idx default) with data := r.2.1 }).getD idx default =
      { (b.pages.getD idx default) with data := r.2.1 } := by
    rw [getD_of_lt _ _ (by simpa using hidx)]
    exact List.getElem_set_self _
  refine ⟨⟨?_, ?_, ?_, ?_⟩, by simp, ids_set_same _ _ _ hidx, i1, by simp only []; omega, ?_, ?_, ?_⟩
  · simp only []
    rw [ids_set_same _ _ _ hidx]; exact hnd
  · intro p hp
    simp only [] at hp ⊢
    rcases List.mem_or_eq_of_mem_set hp with hp | hp
    · exact hpg p hp
    · subst hp
      simp only []; rw [i2]; exact hpg _ hmem
  · intro k
    simp only []
    by_cases hid : k = (b.pages.getD idx default).id
    · rw [hid, map_find_assign_self]; exact i3
    · rw [map_find_assign_ne _ _ _ _ hid]; exact hnum k
  · simp only []; rw [i1]; exact htl
  · simp only [Buf.tuples, hget]
    rw [map_find_assign_self]
    show pageTuples len r.2.1 r.1 ++ _ = _
    unfold pageTuples
    rw [i6, i5, ← List.drop_drop, List.take_append_drop]
  · intro i hi hil
    simp only [Buf.tuples]
    have hgi : (b.pages.set idx { (b.pages.getD idx default) with data := r.2.1 }).getD i default =
        b.pages.getD i default := by
      simp only [List.getD_eq_getElem?_getD]
      rw [List.getElem?_set_ne (Ne.symm hi)]
    rw [hgi, map_find_assign_ne _ _ _ _ (id_ne_of_nodup _ hnd i idx hil hidx hi)]
  · intro he hp
    have := i7 he (by omega)
    simp only []; omega

theorem Buf.upTo_congr (len : Nat) (b b' : Buf) (k : Nat)
    (h : ∀ i, i < k → Buf.tuples len b' i = Buf.tuples len b i) :
    Buf.upTo len b' k = Buf.upTo len b k := by
  unfold Buf.upTo
  simp only [List.flatMap_def]
  congr 1
  apply List.map_congr_left
  intro i hi
  exact h i (by simpa using hi)

theorem Buf.upTo_succ (len : Nat) (b : Buf) (k : Nat) :
    Buf.upTo len b (k + 1) = Buf.upTo len b k ++ Buf.tuples len b k := by
  unfold Buf.upTo
  rw [List.range_succ, List.flatMap_append]
  simp

theorem Buf.refill_loop_spec (len per limit : Nat) :
    ∀ (n cnt : Nat) (b : Buf) (r : Nat × Buf),
      Buf.refill_loop len per limit n cnt b = r →
      Buf.WF len per b → limit ≤ b.pages.length → cnt ≤ limit → n = limit - cnt →
      Buf.WF len per r.2 ∧ r.2.pages.length = b.pages.length ∧
      r.2.child.tuples = b.child.tuples ∧ cnt ≤ r.1 ∧ r.1 ≤ limit ∧
      b.child.pos ≤ r.2.child.pos ∧
      Buf.upTo len r.2 r.1 ++ b.child.tuples.drop r.2.child.pos =
        Buf.upTo len b cnt ++ b.child.tuples.drop b.child.pos ∧
      (b.child.is_end = false → 1 ≤ per → cnt < limit →
        cnt < r.1 ∧ b.child.pos < r.2.child.pos) := by
  intro n
  induction n with
  | zero =>
    intro cnt b r hr hwf _ hc hn
    simp only [Buf.refill_loop] at hr
    subst hr
    exact ⟨hwf, rfl, rfl, le_refl _, hc, le_refl _, rfl, fun _ _ h => by omega⟩
  | succ n ih =>
    intro cnt b r hr hwf hlim hc hn
    simp only [Buf.refill_loop] at hr
    by_cases hend : b.child.is_end = true
    · simp only [hend, Bool.not_true, if_false, Bool.false_eq_true] at hr
      subst hr
      exact ⟨hwf, rfl, rfl, le_refl _, hc, le_refl _, rfl, fun h _ _ => by simp [hend] at h⟩
    · have hend' : b.child.is_end = false := by simpa using hend
      have hlt : ¬ cnt ≥ limit := by omega
      simp only [hend', Bool.not_false, if_true, hlt, if_false] at hr
      obtain ⟨f1, f2, _, f3, f4, f5, f6, f7⟩ := Buf.fill_spec len per b cnt hwf (by omega)
      obtain ⟨i1, i2, i3, i4, i5, i6, i7, _⟩ := ih (cnt + 1) (b.fill len per cnt) r hr f1
        (by rw [f2]; exact hlim) (by omega) (by omega)
      refine ⟨i1, i2.trans f2, i3.trans f3, by omega, i5, by omega, ?_, ?_⟩
      · rw [f3] at i7
        rw [i7, Buf.upTo_succ, List.append_assoc, f5]
        congr 1
        exact Buf.upTo_congr len b _ cnt (fun i hi => f6 i (by omega) (by omega))
      · intro _ hp _
        have := f7 hend' hp
        exact ⟨by omega, by omega⟩

open BlockNestedLoopJoinExecutor

theorem Buf.tuples_append_page (len : Nat) (b : Buf) (p : Page) (i : Nat)
    (hi : i < b.pages.length) :
    Buf.tuples len ⟨b.pages ++ [p], b.num_now, b.child⟩ i = Buf.tuples len b i := by
  simp only [Buf.tuples, List.getD_eq_getElem?_getD]
  rw [List.getElem?_append_left hi]

theorem Buf.init_loop_spec (len per JP PS : Nat) (hps : per * len ≤ PS) :
    ∀ (n : Nat) (b : Buf) (bpm : TmpPool) (r : Buf × TmpPool),
      Buf.init_loop len per JP PS n (b, bpm) = r →
      Buf.WF len per b → (∀ p ∈ b.pages, p.id < bpm.new_tmp_count) →
      n = JP / 2 - b.pages.length →
      Buf.WF len per r.1 ∧ (∀ p ∈ r.1.pages, p.id < r.2.new_tmp_count) ∧
      r.1.child.tuples = b.child.tuples ∧ b.pages.length ≤ r.1.pages.length ∧
      (b.pages.length ≤ JP / 2 → r.1.pages.length ≤ JP / 2) ∧
      b.child.pos ≤ r.1.child.pos ∧
      Buf.upTo len r.1 r.1.pages.length ++ b.child.tuples.drop r.1.child.pos =
        Buf.upTo len b b.pages.length ++ b.child.tuples.drop b.child.pos ∧
      (b.child.is_end = false → b.pages.length < JP / 2 →
        b.pages.length < r.1.pages.length) := by
  intro n
  induction n with
  | zero =>
    intro b bpm r hr hwf hid hn
    simp only [Buf.init_loop] at hr
    subst hr
    exact ⟨hwf, hid, rfl, le_refl _, fun h => h, le_refl _, rfl, fun _ h => by omega⟩
  | succ n ih =>
    intro b bpm r hr hwf hid hn
    simp only [Buf.init_loop] at hr
    by_cases hend : b.child.is_end = true
    · simp only [hend, Bool.not_true, if_false, Bool.false_eq_true] at hr
      subst hr
      exact ⟨hwf, hid, rfl, le_refl _, fun h => h, le_refl _, rfl, fun h _ => by simp [hend] at h⟩
    · have hend' : b.child.is_end = false := by simpa using hend
      have hlt : ¬ b.pages.length ≥ JP / 2 := by omega
      simp only [hend', Bool.not_false, if_true, hlt, if_false, Nat.add_sub_cancel] at hr
      obtain ⟨hnd, hpg, hnum, htl⟩ := hwf
      have hwf0 : Buf.WF len per
          ⟨b.pages ++ [(bpm.new_tmp_page PS).1], b.num_now, b.child⟩ := by
        refine ⟨?_, ?_, hnum, htl⟩
        · simp only [List.map_append, List.map_cons, List.map_nil]
          rw [List.nodup_append]
          refine ⟨hnd, List.nodup_singleton _, ?_⟩
          intro x hx hx2
          simp only [List.mem_singleton] at hx2
          obtain ⟨p, hp, rfl⟩ := List.mem_map.mp hx
          have := hid p hp
          simp only [TmpPool.new_tmp_page] at hx2
          omega
        · intro p hp
          simp only [List.mem_append, List.mem_singleton] at hp
          rcases hp with hp | hp
          · exact hpg p hp
          · subst hp
            simp only [TmpPool.new_tmp_page, List.length_replicate]
            exact hps
      obtain ⟨f1, f2, fid, f3, f4, f5, f6, _⟩ := Buf.fill_spec len per
        ⟨b.pages ++ [(bpm.new_tmp_page PS).1], b.num_now, b.child⟩ b.pages.length hwf0 (by simp)
      simp only [List.length_append, List.length_singleton] at f2
      obtain ⟨i1, i2, i3, i4, i5, i6, i7, _⟩ := ih _ _ r hr f1
        (by
          intro p hp
          have hm : p.id ∈ (b.pages ++ [(bpm.new_tmp_page PS).1]).map Page.id := by
            rw [← fid]; exact List.mem_map_of_mem _ hp
          obtain ⟨q, hq, hqe⟩ := List.mem_map.mp hm
          simp only [List.mem_append, List.mem_singleton] at hq
          simp only [TmpPool.new_tmp_page] at hq ⊢
          rcases hq with hq | hq
          · have := hid q hq; omega
          · subst hq; simp only [] at hqe; omega)
        (by rw [f2]; omega)
      simp only [] at f3 f4 f5
      refine ⟨i1, i2, i3.trans f3, by omega, fun _ => i5 (by omega), by omega, ?_, fun _ _ => by omega⟩
      rw [f3] at i7
      rw [i7, f2, Buf.upTo_succ, List.append_assoc, f5]
      congr 1
      rw [Buf.upTo_congr len ⟨b.pages ++ [(bpm.new_tmp_page PS).1], b.num_now, b.child⟩ _
        b.pages.length (fun i hi => f6 i (by omega) (by simp; omega))]
      exact Buf.upTo_congr len b _ b.pages.length
        (fun i hi => Buf.tuples_append_page len b _ i hi)

open BlockNestedLoopJoinExecutor

theorem CoreInv_core {s s' : BlockNestedLoopJoinExecutor} (h : scanCore s' = scanCore s)
    (hi : CoreInv s) : CoreInv s' := by
  have e : CoreInv (scanCore s') := by rw [h]; exact hi
  exact e

theorem leftCore_of_scanCore {s s' : BlockNestedLoopJoinExecutor}
    (h : scanCore s' = scanCore s) : leftCore s' = leftCore s := by
  have e : leftCore (scanCore s') = leftCore (scanCore s) := by rw [h]
  exact e

theorem rightFrom_zero_eq (s : BlockNestedLoopJoinExecutor) :
    rightFrom s 0 = Buf.upTo s.right_len_ (rightBuf s) s.right_buffer_page_cnt_ := by
  unfold rightFrom Buf.upTo
  rw [List.range_eq_range', Nat.sub_zero]
  rfl

theorem leftFrom_zero_eq (s : BlockNestedLoopJoinExecutor) :
    leftFrom s 0 = Buf.upTo s.left_len_ (leftBuf s) s.left_buffer_page_cnt_ := by
  unfold leftFrom Buf.upTo
  rw [List.range_eq_range', Nat.sub_zero]
  rfl

theorem scan_spec (ec : EvaluateCompare) (s : BlockNestedLoopJoinExecutor) (hinv : Inv s) :
    ∃ b s', left_pages_loop ec (s.left_buffer_page_cnt_ - s.left_buffer_page_iter_) s = (b, s') ∧
      scanCore s' = scanCore s ∧ Inv s' ∧
      (b = false → pending ec s = []) ∧
      (b = true → pending ec s = s'.join_record :: pending ec s') := by
  obtain ⟨hcore, hjr, hr⟩ := hinv
  obtain ⟨_, _, ⟨_, hpg, hnum, _⟩, _, hlc, _⟩ := id hcore
  obtain ⟨b, s', he, hc, f1, f2, f3, f4⟩ := left_pages_loop_spec ec (CheckConditions ec s) _ s rfl hjr
    (by
      intro i hi
      have hmem : s.left_buffer_pages_.getD i default ∈ s.left_buffer_pages_ := by
        rw [getD_of_lt _ _ (by omega)]; exact List.getElem_mem _
      calc map_find s.left_num_now_ (s.left_buffer_pages_.getD i default).id * s.left_len_
          ≤ s.left_num_per_page_ * s.left_len_ := Nat.mul_le_mul_right _ (hnum _)
        _ ≤ _ := hpg _ hmem)
    hr rfl
  refine ⟨b, s', he, hc, ⟨CoreInv_core hc hcore, ?_, ?_⟩, f3, ?_⟩
  · rw [left_len_core hc, right_len_core hc]; exact f1
  · rw [right_cnt_core hc]; exact f2
  · intro hb
    unfold pending
    rw [CheckConditions_core ec hc, rightFrom_core hc]
    exact f4 hb

open BlockNestedLoopJoinExecutor

theorem refill_right_eq (s : BlockNestedLoopJoinExecutor) :
    refill_right s =
      { setRight s ((rightBuf s).refill_loop s.right_len_ s.right_num_per_page_
            s.right_buffer_page_cnt_ s.right_buffer_page_cnt_ 0).2 with
        right_buffer_page_cnt_ := ((rightBuf s).refill_loop s.right_len_ s.right_num_per_page_
            s.right_buffer_page_cnt_ s.right_buffer_page_cnt_ 0).1,
        right_buffer_page_inner_iter_ := 0, right_buffer_page_iter_ := 0 } := by
  unfold refill_right
  rw [refill_right_loop_eq]

theorem refill_left_eq (s : BlockNestedLoopJoinExecutor) :
    refill_left s =
      { setLeft s ((leftBuf s).refill_loop s.left_len_ s.left_num_per_page_
            s.left_buffer_page_cnt_ s.left_buffer_page_cnt_ 0).2 with
        left_buffer_page_cnt_ := ((leftBuf s).refill_loop s.left_len_ s.left_num_per_page_
            s.left_buffer_page_cnt_ s.left_buffer_page_cnt_ 0).1,
        left_buffer_page_inner_iter_ := 0, left_buffer_page_iter_ := 0 } := by
  unfold refill_left
  rw [refill_left_loop_eq]

theorem is_end_false_iff (e : Executor) : e.is_end = false ↔ e.pos < e.tuples.length := by
  unfold Executor.is_end
  simp

theorem refill_right_spec (s : BlockNestedLoopJoinExecutor) (h : CoreInv s)
    (hend : s.right_.is_end = true → s.right_.tuples = []) :
    CoreInv (refill_right s) ∧ leftCore (refill_right s) = leftCore s ∧
    (refill_right s).right_over = s.right_over ∧
    (refill_right s).join_record = s.join_record ∧
    (refill_right s).right_buffer_page_iter_ = 0 ∧
    (refill_right s).right_buffer_page_inner_iter_ = 0 ∧
    (refill_right s).left_buffer_page_iter_ = s.left_buffer_page_iter_ ∧
    (refill_right s).left_buffer_page_inner_iter_ = s.left_buffer_page_inner_iter_ ∧
    (refill_right s).right_.tuples = s.right_.tuples ∧
    rightFrom (refill_right s) 0 ++ s.right_.tuples.drop (refill_right s).right_.pos =
      s.right_.tuples.drop s.right_.pos ∧
    (s.right_.is_end = false → s.right_.pos < (refill_right s).right_.pos) := by
  obtain ⟨h1, h2, h3, h4, h5, h6, h7, h8⟩ := h
  obtain ⟨r, hr⟩ : ∃ r, (rightBuf s).refill_loop s.right_len_ s.right_num_per_page_
      s.right_buffer_page_cnt_ s.right_buffer_page_cnt_ 0 = r := ⟨_, rfl⟩
  obtain ⟨g1, g2, g3, _, g5, g6, g7, g8⟩ := Buf.refill_loop_spec _ _ _ _ _ _ r hr h4 h6
    (Nat.zero_le _) rfl
  rw [refill_right_eq, hr]
  have hup0 : Buf.upTo s.right_len_ (rightBuf s) 0 = [] := rfl
  rw [hup0, List.nil_append] at g7
  refine ⟨⟨h1, h2, h3, g1, h5, ?_, h7, ?_⟩, rfl, rfl, rfl, rfl, rfl, rfl, rfl, g3, ?_, ?_⟩
  · show r.1 ≤ r.2.pages.length
    rw [g2]; exact le_trans g5 h6
  · show r.2.child.tuples = [] ∨ 1 ≤ r.1
    by_cases he : s.right_.is_end = true
    · left; rw [g3]; exact hend he
    · right
      have he' : s.right_.is_end = false := by simpa using he
      have hne : s.right_.tuples ≠ [] := by
        intro hnil
        have := (is_end_false_iff _).mp he'
        rw [hnil] at this
        simp at this
      have hc : 1 ≤ s.right_buffer_page_cnt_ := by
        rcases h8 with h8 | h8
        · exact absurd h8 hne
        · exact h8
      have := (g8 he' h2 (by omega)).1
      omega
  · rw [rightFrom_zero_eq]
    exact g7
  · intro he
    have hne : s.right_.tuples ≠ [] := by
      intro hnil
      have := (is_end_false_iff _).mp he
      rw [hnil] at this
      simp at this
    have hc : 1 ≤ s.right_buffer_page_cnt_ := by
      rcases h8 with h8 | h8
      · exact absurd h8 hne
      · exact h8
    exact (g8 he h2 (by omega)).2

open BlockNestedLoopJoinExecutor

theorem refill_left_spec (s : BlockNestedLoopJoinExecutor) (h : CoreInv s)
    (hend : s.left_.is_end = false) :
    CoreInv (refill_left s) ∧
    (refill_left s).left_.tuples = s.left_.tuples ∧
    leftFrom (refill_left s) 0 ++ s.left_.tuples.drop (refill_left s).left_.pos =
      s.left_.tuples.drop s.left_.pos ∧
    s.left_.pos < (refill_left s).left_.pos := by
  obtain ⟨h1, h2, h3, h4, h5, h6, h7, h8⟩ := h
  obtain ⟨r, hr⟩ : ∃ r, (leftBuf s).refill_loop s.left_len_ s.left_num_per_page_
      s.left_buffer_page_cnt_ s.left_buffer_page_cnt_ 0 = r := ⟨_, rfl⟩
  obtain ⟨g1, g2, g3, _, g5, g6, g7, g8⟩ := Buf.refill_loop_spec _ _ _ _ _ _ r hr h3 h5
    (Nat.zero_le _) rfl
  rw [refill_left_eq, hr]
  have hup0 : Buf.upTo s.left_len_ (leftBuf s) 0 = [] := rfl
  rw [hup0, List.nil_append] at g7
  have hne : s.left_.tuples ≠ [] := by
    intro hnil
    have := (is_end_false_iff _).mp hend
    rw [hnil] at this
    simp at this
  have hc : 1 ≤ s.left_buffer_page_cnt_ := by
    rcases h7 with h7 | h7
    · exact absurd h7 hne
    · exact h7
  have hprog := g8 hend h1 (by omega)
  refine ⟨⟨h1, h2, g1, h4, ?_, h6, ?_, h8⟩, g3, ?_, hprog.2⟩
  · show r.1 ≤ r.2.pages.length
    rw [g2]; exact le_trans g5 h5
  · right
    show 1 ≤ r.1
    omega
  · rw [leftFrom_zero_eq]
    exact g7

theorem refill_left_frame (s : BlockNestedLoopJoinExecutor) :
    (refill_left s).right_ = s.right_ ∧
    (refill_left s).fed_conds_ = s.fed_conds_ ∧ (refill_left s).join_cols_ = s.join_cols_ ∧
    (refill_left s).left_over = s.left_over ∧ (refill_left s).is_end_ = s.is_end_ ∧
    (refill_left s).join_record = s.join_record ∧
    (refill_left s).left_len_ = s.left_len_ ∧ (refill_left s).right_len_ = s.right_len_ ∧
    (refill_left s).left_buffer_page_iter_ = 0 ∧
    (refill_left s).left_buffer_page_inner_iter_ = 0 := by
  rw [refill_left_eq]
  exact ⟨rfl, rfl, rfl, rfl, rfl, rfl, rfl, rfl, rfl, rfl⟩

theorem refill_right_frame (s : BlockNestedLoopJoinExecutor) :
    (refill_right s).left_ = s.left_ ∧
    (refill_right s).fed_conds_ = s.fed_conds_ ∧ (refill_right s).join_cols_ = s.join_cols_ ∧
    (refill_right s).left_over = s.left_over ∧ (refill_right s).is_end_ = s.is_end_ ∧
    (refill_right s).left_len_ = s.left_len_ ∧ (refill_right s).right_len_ = s.right_len_ ∧
    leftFrom (refill_right s) 0 = leftFrom s 0 := by
  rw [refill_right_eq]
  exact ⟨rfl, rfl, rfl, rfl, rfl, rfl, rfl, rfl⟩

theorem CoreInv_rewind (s : BlockNestedLoopJoinExecutor) (h : CoreInv s) :
    CoreInv { s with right_ := s.right_.beginTuple } := h

theorem advance_left_spec (s : BlockNestedLoopJoinExecutor) (h : CoreInv s)
    (hend : s.left_.is_end = false) :
    CoreInv (advance_left s) ∧
    (advance_left s).left_.tuples = s.left_.tuples ∧
    (advance_left s).right_.tuples = s.right_.tuples ∧
    (advance_left s).fed_conds_ = s.fed_conds_ ∧ (advance_left s).join_cols_ = s.join_cols_ ∧
    (advance_left s).left_over = s.left_over ∧ (advance_left s).is_end_ = s.is_end_ ∧
    (advance_left s).right_over = false ∧
    (advance_left s).join_record = s.join_record ∧
    (advance_left s).left_len_ = s.left_len_ ∧ (advance_left s).right_len_ = s.right_len_ ∧
    (advance_left s).left_buffer_page_iter_ = 0 ∧
    (advance_left s).left_buffer_page_inner_iter_ = 0 ∧
    (advance_left s).right_buffer_page_iter_ = 0 ∧
    (advance_left s).right_buffer_page_inner_iter_ = 0 ∧
    s.left_.pos < (advance_left s).left_.pos ∧
    leftFrom (advance_left s) 0 ++ s.left_.tuples.drop (advance_left s).left_.pos =
      s.left_.tuples.drop s.left_.pos ∧
    rightFrom (advance_left s) 0 ++ s.right_.tuples.drop (advance_left s).right_.pos =
      s.right_.tuples := by
  obtain ⟨a1, a2, a3, a4⟩ := refill_left_spec s h hend
  obtain ⟨b1, b2, b3, b4, b5, b6, b7, b8, b9, b10⟩ := refill_left_frame s
  obtain ⟨s1, hs1⟩ : ∃ s1, s1 = refill_left s := ⟨_, rfl⟩
  rw [← hs1] at a1 a2 a3 a4 b1 b2 b3 b4 b5 b6 b7 b8 b9 b10
  obtain ⟨s2, hs2⟩ : ∃ s2, s2 = ({ s1 with right_ := s1.right_.beginTuple } : BlockNestedLoopJoinExecutor) :=
    ⟨_, rfl⟩
  have hinv2 : CoreInv s2 := by rw [hs2]; exact CoreInv_rewind s1 a1
  have hr2 : s2.right_ = s.right_.beginTuple := by rw [hs2]; simp only [b1]
  have hend2 : s2.right_.is_end = true → s2.right_.tuples = [] := by
    intro he
    rw [hr2] at he ⊢
    unfold Executor.is_end Executor.beginTuple at he
    simp only [decide_eq_true_eq, Nat.le_zero, List.length_eq_zero] at he
    exact he
  obtain ⟨c1, c2, c3, c4, c5, c6, c7, c8, c9, c10, _⟩ := refill_right_spec s2 hinv2 hend2
  obtain ⟨d1, d2, d3, d4, d5, d6, d7, d8⟩ := refill_right_frame s2
  have hadv : advance_left s = { refill_right s2 with right_over := false } := by
    unfold advance_left; rw [hs2, hs1]
  obtain ⟨s3, hs3⟩ : ∃ s3, s3 = refill_right s2 := ⟨_, rfl⟩
  rw [← hs3] at c1 c2 c3 c4 c5 c6 c7 c8 c9 c10 d1 d2 d3 d4 d5 d6 d7 d8 hadv
  rw [hadv]
  have e1 : s2.left_ = s1.left_ := by rw [hs2]
  have e2 : s2.fed_conds_ = s1.fed_conds_ := by rw [hs2]
  have e3 : s2.join_cols_ = s1.join_cols_ := by rw [hs2]
  have e4 : s2.left_over = s1.left_over := by rw [hs2]
  have e5 : s2.is_end_ = s1.is_end_ := by rw [hs2]
  have e6 : s2.join_record = s1.join_record := by rw [hs2]
  have e7 : s2.left_len_ = s1.left_len_ := by rw [hs2]
  have e8 : s2.right_len_ = s1.right_len_ := by rw [hs2]
  have e9 : s2.left_buffer_page_iter_ = s1.left_buffer_page_iter_ := by rw [hs2]
  have e10 : s2.left_buffer_page_inner_iter_ = s1.left_buffer_page_inner_iter_ := by rw [hs2]
  have e11 : leftFrom s2 0 = leftFrom s1 0 := by rw [hs2]; rfl
  have e12 : s2.right_.pos = 0 := by rw [hr2]; rfl
  have e13 : s2.right_.tuples = s.right_.tuples := by rw [hr2]; rfl
  refine ⟨c1, ?_, ?_, ?_, ?_, ?_, ?_, rfl, ?_, ?_, ?_, ?_, ?_, c5, c6, ?_, ?_, ?_⟩
  · show s3.left_.tuples = _; rw [d1, e1, a2]
  · show s3.right_.tuples = _; rw [c9, e13]
  · show s3.fed_conds_ = _; rw [d2, e2, b2]
  · show s3.join_cols_ = _; rw [d3, e3, b3]
  · show s3.left_over = _; rw [d4, e4, b4]
  · show s3.is_end_ = _; rw [d5, e5, b5]
  · show s3.join_record = _; rw [c4, e6, b6]
  · show s3.left_len_ = _; rw [d6, e7, b7]
  · show s3.right_len_ = _; rw [d7, e8, b8]
  · show s3.left_buffer_page_iter_ = _; rw [c7, e9, b9]
  · show s3.left_buffer_page_inner_iter_ = _; rw [c8, e10, b10]
  · show s.left_.pos < s3.left_.pos; rw [d1, e1]; exact a4
  · show leftFrom s3 0 ++ List.drop s3.left_.pos s.left_.tuples = _
    rw [d8, e11, d1, e1]; exact a3
  · show rightFrom s3 0 ++ List.drop s3.right_.pos s.right_.tuples = _
    rw [e13, e12, List.drop_zero] at c10
    exact c10

open BlockNestedLoopJoinExecutor

theorem joinOf_right_nil (c : List Byte → Bool) (ls : List (List Byte)) : joinOf c ls [] = [] := by
  induction ls with
  | nil => rfl
  | cons l ls ih => rw [joinOf_cons, ih, matchesOf_nil]; rfl

theorem joinOf_append_right_perm (c : List Byte → Bool) (ls a b : List (List Byte)) :
    (joinOf c ls a ++ joinOf c ls b).Perm (joinOf c ls (a ++ b)) := by
  unfold joinOf
  have h := List.flatMap_append_perm ls (fun l => matchesOf c l a) (fun l => matchesOf c l b)
  have e : (fun l => matchesOf c l (a ++ b)) = (fun l => matchesOf c l a ++ matchesOf c l b) := by
    funext l; exact matchesOf_append c l a b
  rw [e]
  exact h

theorem pending_at_start (ec : EvaluateCompare) (s : BlockNestedLoopJoinExecutor)
    (h1 : s.left_buffer_page_iter_ = 0) (h2 : s.left_buffer_page_inner_iter_ = 0)
    (h3 : s.right_buffer_page_iter_ = 0) (h4 : s.right_buffer_page_inner_iter_ = 0) :
    pending ec s = joinOf (CheckConditions ec s) (leftFrom s 0) (rightFrom s 0) := by
  unfold pending
  rw [leftRest_of_inner_zero s h2, rightRest_of_inner_zero s h4, h1, h3, pendingOf_all]

theorem while_right_found (ec : EvaluateCompare) (f : Nat) (s s1 : BlockNestedLoopJoinExecutor)
    (hro : s.right_over = false)
    (hs : left_pages_loop ec (s.left_buffer_page_cnt_ - s.left_buffer_page_iter_) s = (true, s1)) :
    while_right ec (f + 1) s = some (true, s1) := by
  simp only [while_right, hro, Bool.not_false, if_true, hs]

theorem while_right_refill (ec : EvaluateCompare) (f : Nat) (s s1 : BlockNestedLoopJoinExecutor)
    (hro : s.right_over = false)
    (hs : left_pages_loop ec (s.left_buffer_page_cnt_ - s.left_buffer_page_iter_) s = (false, s1))
    (he : s1.right_.is_end = false) :
    while_right ec (f + 1) s =
      while_right ec f { refill_right s1 with left_buffer_page_iter_ := 0,
                                               left_buffer_page_inner_iter_ := 0 } := by
  simp only [while_right, hro, Bool.not_false, if_true, hs, he, if_false, Bool.false_eq_true]

theorem while_right_end (ec : EvaluateCompare) (f : Nat) (s s1 : BlockNestedLoopJoinExecutor)
    (hro : s.right_over = false)
    (hs : left_pages_loop ec (s.left_buffer_page_cnt_ - s.left_buffer_page_iter_) s = (false, s1))
    (he : s1.right_.is_end = true) :
    while_right ec (f + 2) s =
      some (false, { s1 with right_over := true, left_buffer_page_iter_ := 0 }) := by
  simp only [while_right, hro, Bool.not_false, if_true, hs, he, Bool.not_true, if_false,
    Bool.false_eq_true]

open BlockNestedLoopJoinExecutor

theorem right_core {s s' : BlockNestedLoopJoinExecutor} (h : scanCore s' = scanCore s) :
    s'.right_ = s.right_ := by
  have e : (scanCore s').right_ = (scanCore s).right_ := by rw [h]
  exact e

theorem right_over_core {s s' : BlockNestedLoopJoinExecutor} (h : scanCore s' = scanCore s) :
    s'.right_over = s.right_over := by
  have e : (scanCore s').right_over = (scanCore s).right_over := by rw [h]
  exact e

theorem leftFrom_leftCore {s s' : BlockNestedLoopJoinExecutor} (h : leftCore s' = leftCore s)
    (k : Nat) : leftFrom s' k = leftFrom s k := by
  have e : leftFrom (leftCore s') k = leftFrom (leftCore s) k := by rw [h]
  exact e

theorem CheckConditions_leftCore (ec : EvaluateCompare) {s s' : BlockNestedLoopJoinExecutor}
    (h : leftCore s' = leftCore s) : CheckConditions ec s' = CheckConditions ec s := by
  funext d
  have e1 : (leftCore s').fed_conds_ = (leftCore s).fed_conds_ := by rw [h]
  have e2 : (leftCore s').join_cols_ = (leftCore s).join_cols_ := by rw [h]
  exact CheckConditions_congr ec e1 e2 d

theorem lens_leftCore {s s' : BlockNestedLoopJoinExecutor} (h : leftCore s' = leftCore s) :
    s'.left_len_ = s.left_len_ ∧ s'.right_len_ = s.right_len_ := by
  have e1 : (leftCore s').left_len_ = (leftCore s).left_len_ := by rw [h]
  have e2 : (leftCore s').right_len_ = (leftCore s).right_len_ := by rw [h]
  exact ⟨e1, e2⟩

theorem drop_of_is_end (e : Executor) (h : e.is_end = true) : e.tuples.drop e.pos = [] := by
  unfold Executor.is_end at h
  exact List.drop_eq_nil_of_le (by simpa using h)

theorem while_right_spec (ec : EvaluateCompare) :
    ∀ (m : Nat) (s : BlockNestedLoopJoinExecutor),
      s.right_.tuples.length - s.right_.pos < m → Inv s → s.right_over = false →
      ∃ f b s', (∀ f', f ≤ f' → while_right ec f' s = some (b, s')) ∧
        leftCore s' = leftCore s ∧ s'.right_.tuples = s.right_.tuples ∧ CoreInv s' ∧
        s'.join_record.length ≤ s'.left_len_ + s'.right_len_ ∧
        (b = true → Inv s' ∧ s'.right_over = false ∧
          (pending ec s ++ joinOf (CheckConditions ec s) (leftFrom s 0)
              (s.right_.tuples.drop s.right_.pos)).Perm
            (s'.join_record :: (pending ec s' ++ joinOf (CheckConditions ec s) (leftFrom s 0)
              (s.right_.tuples.drop s'.right_.pos)))) ∧
        (b = false → s'.right_.is_end = true ∧
          pending ec s ++ joinOf (CheckConditions ec s) (leftFrom s 0)
              (s.right_.tuples.drop s.right_.pos) = []) := by
  intro m
  induction m with
  | zero => intro s h; omega
  | succ m ih =>
    intro s hm hinv hro
    obtain ⟨b0, s1, hs, hc, hinv1, hp0, hp1⟩ := scan_spec ec s hinv
    cases b0 with
    | true =>
      refine ⟨1, true, s1, ?_, leftCore_of_scanCore hc, by rw [right_core hc], hinv1.1,
        hinv1.2.1, ?_, ?_⟩
      · intro f' hf
        obtain ⟨g, rfl⟩ : ∃ g, f' = g + 1 := ⟨f' - 1, by omega⟩
        exact while_right_found ec g s s1 hro hs
      · intro _
        refine ⟨hinv1, by rw [right_over_core hc]; exact hro, ?_⟩
        rw [hp1 rfl, right_core hc]
        exact List.Perm.refl _
      · intro h; cases h
    | false =>
      have hpend : pending ec s = [] := hp0 rfl
      by_cases hend : s1.right_.is_end = true
      · have hlc1 : leftCore s1 = leftCore s := leftCore_of_scanCore hc
        refine ⟨2, false, { s1 with right_over := true, left_buffer_page_iter_ := 0 }, ?_,
          hlc1, by rw [← right_core hc], hinv1.1, hinv1.2.1, ?_, ?_⟩
        · intro f' hf
          obtain ⟨g, rfl⟩ : ∃ g, f' = g + 2 := ⟨f' - 2, by omega⟩
          exact while_right_end ec g s s1 hro hs hend
        · intro h; cases h
        · intro _
          refine ⟨hend, ?_⟩
          rw [hpend, ← right_core hc, drop_of_is_end _ hend, joinOf_right_nil]
          rfl
      · have hend' : s1.right_.is_end = false := by simpa using hend
        obtain ⟨c1, c2, c3, c4, c5, c6, c7, c8, c9, c10, c11⟩ :=
          refill_right_spec s1 hinv1.1 (fun h => by rw [hend'] at h; cases h)
        obtain ⟨s2, hs2⟩ : ∃ s2, s2 = ({ refill_right s1 with left_buffer_page_iter_ := 0,
                                                                left_buffer_page_inner_iter_ := 0 } :
            BlockNestedLoopJoinExecutor) := ⟨_, rfl⟩
        have hlc2 : leftCore s2 = leftCore s := by
          rw [hs2]
          exact c2.trans (leftCore_of_scanCore hc)
        have hr2 : s2.right_ = (refill_right s1).right_ := by rw [hs2]
        have hcore2 : CoreInv s2 := by rw [hs2]; exact c1
        have hjr2 : s2.join_record = s1.join_record := by rw [hs2]; exact c4
        have k1 : s2.left_buffer_page_iter_ = 0 := by rw [hs2]
        have k2 : s2.left_buffer_page_inner_iter_ = 0 := by rw [hs2]
        have k3 : s2.right_buffer_page_iter_ = 0 := by rw [hs2]; exact c5
        have k4 : s2.right_buffer_page_inner_iter_ = 0 := by rw [hs2]; exact c6
        have k5 : s2.right_over = false := by rw [hs2]; exact c3.trans ((right_over_core hc).trans hro)
        have k6 : rightFrom s2 0 = rightFrom (refill_right s1) 0 := by rw [hs2]; rfl
        have hinv2 : Inv s2 := by
          refine ⟨hcore2, ?_, Or.inr k4⟩
          rw [(lens_leftCore hlc2).1, (lens_leftCore hlc2).2, hjr2,
            ← left_len_core hc, ← right_len_core hc]
          exact hinv1.2.1
        have hR1 : s1.right_ = s.right_ := right_core hc
        have hpos : s.right_.pos < s2.right_.pos := by
          rw [hr2, ← hR1]; exact c11 hend'
        have htup : s2.right_.tuples = s.right_.tuples := by rw [hr2, c9, hR1]
        have hlt : s.right_.pos < s.right_.tuples.length := by
          rw [← hR1]; exact (is_end_false_iff _).mp hend'
        obtain ⟨f2, b, s', hw, i1, i2, i3, i3l, i4, i5⟩ := ih s2 (by rw [htup]; omega) hinv2 k5
        have hsplit : rightFrom s2 0 ++ s.right_.tuples.drop s2.right_.pos =
            s.right_.tuples.drop s.right_.pos := by
          rw [k6, hr2, ← hR1]; exact c10
        have hpend2 : pending ec s2 =
            joinOf (CheckConditions ec s) (leftFrom s 0) (rightFrom s2 0) := by
          rw [pending_at_start ec s2 k1 k2 k3 k4, CheckConditions_leftCore ec hlc2,
            leftFrom_leftCore hlc2]
        have hperm : (pending ec s ++ joinOf (CheckConditions ec s) (leftFrom s 0)
              (s.right_.tuples.drop s.right_.pos)).Perm
            (pending ec s2 ++ joinOf (CheckConditions ec s2) (leftFrom s2 0)
              (s2.right_.tuples.drop s2.right_.pos)) := by
          rw [hpend, List.nil_append, hpend2, CheckConditions_leftCore ec hlc2,
            leftFrom_leftCore hlc2, htup, ← hsplit]
          exact (joinOf_append_right_perm _ _ _ _).symm
        refine ⟨f2 + 1, b, s', ?_, i1.trans hlc2, i2.trans htup, i3, i3l, ?_, ?_⟩
        · intro f' hf
          obtain ⟨g, rfl⟩ : ∃ g, f' = g + 1 := ⟨f' - 1, by omega⟩
          rw [while_right_refill ec g s s1 hro hs hend', ← hs2]
          exact hw g (by omega)
        · intro hb
          obtain ⟨j1, j2, j3⟩ := i4 hb
          have j4 := hperm.trans j3
          rw [CheckConditions_leftCore ec hlc2, leftFrom_leftCore hlc2, htup] at j4
          exact ⟨j1, j2, j4⟩
        · intro hb
          obtain ⟨j1, j2⟩ := i5 hb
          refine ⟨j1, ?_⟩
          rw [j2] at hperm
          exact List.Perm.eq_nil hperm

open BlockNestedLoopJoinExecutor

theorem fields_leftCore {s s' : BlockNestedLoopJoinExecutor} (h : leftCore s' = leftCore s) :
    s'.left_ = s.left_ ∧ s'.fed_conds_ = s.fed_conds_ ∧ s'.join_cols_ = s.join_cols_ ∧
    s'.is_end_ = s.is_end_ ∧ s'.left_over = s.left_over := by
  have e1 : (leftCore s').left_ = (leftCore s).left_ := by rw [h]
  have e2 : (leftCore s').fed_conds_ = (leftCore s).fed_conds_ := by rw [h]
  have e3 : (leftCore s').join_cols_ = (leftCore s).join_cols_ := by rw [h]
  have e4 : (leftCore s').is_end_ = (leftCore s).is_end_ := by rw [h]
  have e5 : (leftCore s').left_over = (leftCore s).left_over := by rw [h]
  exact ⟨e1, e2, e3, e4, e5⟩

theorem while_left_found (ec : EvaluateCompare) (f : Nat) (s s1 : BlockNestedLoopJoinExecutor)
    (hlo : s.left_over = false) (hw : while_right ec f s = some (true, s1)) :
    while_left ec (f + 1) s = some (true, s1) := by
  simp only [while_left, hlo, Bool.not_false, if_true, hw]

theorem while_left_end (ec : EvaluateCompare) (f : Nat) (s s1 : BlockNestedLoopJoinExecutor)
    (hlo : s.left_over = false) (hw : while_right ec f s = some (false, s1))
    (he : s1.left_.is_end = true) :
    while_left ec (f + 1) s = some (false, { s1 with left_over := true }) := by
  simp only [while_left, hlo, Bool.not_false, if_true, hw, he]

theorem while_left_advance (ec : EvaluateCompare) (f : Nat) (s s1 : BlockNestedLoopJoinExecutor)
    (hlo : s.left_over = false) (hw : while_right ec f s = some (false, s1))
    (he : s1.left_.is_end = false) :
    while_left ec (f + 1) s = while_left ec f (advance_left s1) := by
  simp only [while_left, hlo, Bool.not_false, if_true, hw, he, if_false, Bool.false_eq_true]
  rfl

theorem while_left_spec (ec : EvaluateCompare) :
    ∀ (m : Nat) (s : BlockNestedLoopJoinExecutor),
      s.left_.tuples.length - s.left_.pos < m → Inv s → s.left_over = false →
      s.right_over = false →
      ∃ f b s', (∀ f', f ≤ f' → while_left ec f' s = some (b, s')) ∧
        s'.is_end_ = s.is_end_ ∧ s'.left_.tuples = s.left_.tuples ∧
        s'.right_.tuples = s.right_.tuples ∧ s'.fed_conds_ = s.fed_conds_ ∧
        s'.join_cols_ = s.join_cols_ ∧
        (b = true → Inv s' ∧ s'.left_over = false ∧ s'.right_over = false ∧
          (remaining ec s).Perm (s'.join_record :: remaining ec s')) ∧
        (b = false → s'.left_over = true ∧ remaining ec s = []) := by
  intro m
  induction m with
  | zero => intro s h; omega
  | succ m ih =>
    intro s hm hinv hlo hro
    obtain ⟨f1, b1, s1, hw1, hlc, htr, hci1, hjr1, hb1, hb0⟩ :=
      while_right_spec ec (s.right_.tuples.length - s.right_.pos + 1) s (by omega) hinv hro
    obtain ⟨l1, l2, l3, l4, l5⟩ := fields_leftCore hlc
    have hcc : CheckConditions ec s1 = CheckConditions ec s := CheckConditions_leftCore ec hlc
    cases b1 with
    | true =>
      obtain ⟨j1, j2, j3⟩ := hb1 rfl
      refine ⟨f1 + 1, true, s1, ?_, l4, by rw [l1], htr, l2, l3, ?_, ?_⟩
      · intro f' hf
        obtain ⟨g, rfl⟩ : ∃ g, f' = g + 1 := ⟨f' - 1, by omega⟩
        exact while_left_found ec g s s1 hlo (hw1 g (by omega))
      · intro _
        refine ⟨j1, l5.trans hlo, j2, ?_⟩
        unfold remaining
        rw [hcc, leftFrom_leftCore hlc, htr, l1]
        rw [← List.cons_append, ← List.cons_append]
        exact List.Perm.append_right _ (by
          rw [List.cons_append]; exact j3)
      · intro h; cases h
    | false =>
      obtain ⟨j1, j2⟩ := hb0 rfl
      by_cases hend : s1.left_.is_end = true
      · refine ⟨f1 + 1, false, { s1 with left_over := true }, ?_, l4, by rw [← l1], htr, l2, l3,
          ?_, ?_⟩
        · intro f' hf
          obtain ⟨g, rfl⟩ : ∃ g, f' = g + 1 := ⟨f' - 1, by omega⟩
          exact while_left_end ec g s s1 hlo (hw1 g (by omega)) hend
        · intro h; cases h
        · intro _
          refine ⟨rfl, ?_⟩
          unfold remaining
          rw [j2, ← l1, drop_of_is_end _ hend]
          rfl
      · have hend' : s1.left_.is_end = false := by simpa using hend
        obtain ⟨a1, a2, a3, a4, a5, a6, a7, a8, a9, a10, a11, a12, a13, a14, a15, a16, a17, a18⟩ :=
          advance_left_spec s1 hci1 hend'
        obtain ⟨s2, hs2⟩ : ∃ s2, s2 = advance_left s1 := ⟨_, rfl⟩
        rw [← hs2] at a1 a2 a3 a4 a5 a6 a7 a8 a9 a10 a11 a12 a13 a14 a15 a16 a17 a18
        have hlens := lens_leftCore hlc
        have hinv2 : Inv s2 := by
          refine ⟨a1, ?_, Or.inr a15⟩
          rw [a9, a10, a11]
          exact hjr1
        have hlt : s.left_.pos < s.left_.tuples.length := by
          rw [← l1]; exact (is_end_false_iff _).mp hend'
        rw [l1] at a16 a17 a2
        obtain ⟨f2, b, s', hw, i1, i2, i3, i4, i5, i6, i7⟩ := ih s2 (by rw [a2]; omega) hinv2
          (a6.trans (l5.trans hlo)) a8
        have hcc2 : CheckConditions ec s2 = CheckConditions ec s := by
          funext d
          exact CheckConditions_congr ec (a4.trans l2) (a5.trans l3) d
        have hR2 : s2.right_.tuples = s.right_.tuples := a3.trans htr
        rw [htr] at a18
        have hperm : (remaining ec s).Perm (remaining ec s2) := by
          unfold remaining
          rw [j2, List.nil_append, hcc2, pending_at_start ec s2 a12 a13 a14 a15, hcc2, hR2, a2]
          have h1 := joinOf_append_right_perm (CheckConditions ec s) (leftFrom s2 0)
            (rightFrom s2 0) (s.right_.tuples.drop s2.right_.pos)
          rw [a18] at h1
          have h2 : joinOf (CheckConditions ec s) (s.left_.tuples.drop s.left_.pos) s.right_.tuples =
              joinOf (CheckConditions ec s) (leftFrom s2 0) s.right_.tuples ++
                joinOf (CheckConditions ec s) (s.left_.tuples.drop s2.left_.pos) s.right_.tuples := by
            rw [← joinOf_append, a17]
          rw [h2]
          exact (List.Perm.append_right _ h1).symm
        refine ⟨max f1 f2 + 1, b, s', ?_, i1.trans (a7.trans l4), i2.trans a2, i3.trans hR2,
          i4.trans (a4.trans l2), i5.trans (a5.trans l3), ?_, ?_⟩
        · intro f' hf
          obtain ⟨g, rfl⟩ : ∃ g, f' = g + 1 := ⟨f' - 1, by omega⟩
          rw [while_left_advance ec g s s1 hlo (hw1 g (by omega)) hend', ← hs2]
          exact hw g (by omega)
        · intro hb
          obtain ⟨k1, k2, k3, k4⟩ := i6 hb
          exact ⟨k1, k2, k3, hperm.trans k4⟩
        · intro hb
          obtain ⟨k1, k2⟩ := i7 hb
          refine ⟨k1, ?_⟩
          rw [k2] at hperm
          exact List.Perm.eq_nil hperm

open BlockNestedLoopJoinExecutor

theorem beginTuple_eq (ec : EvaluateCompare) (JP PS fuel : Nat) (s : BlockNestedLoopJoinExecutor) :
    beginTuple ec JP PS fuel s = nextTuple ec fuel (primed JP PS s) := rfl

theorem foldl_and_eq_all (xs : List Nat) (p : Nat → Bool) (b : Bool) :
    xs.foldl (fun result i => result && p i) b = (b && xs.all p) := by
  induction xs generalizing b with
  | nil => simp
  | cons x xs ih => simp [List.foldl_cons, ih, Bool.and_assoc]

theorem CheckConditions_eq_all (ec : EvaluateCompare) (s : BlockNestedLoopJoinExecutor) :
    CheckConditions ec s = all_conditions_hold ec s := by
  funext d
  unfold CheckConditions all_conditions_hold
  rw [foldl_and_eq_all]
  simp

theorem remaining_at_start (ec : EvaluateCompare) (s : BlockNestedLoopJoinExecutor)
    (L R : List (List Byte))
    (h1 : s.left_buffer_page_iter_ = 0) (h2 : s.left_buffer_page_inner_iter_ = 0)
    (h3 : s.right_buffer_page_iter_ = 0) (h4 : s.right_buffer_page_inner_iter_ = 0)
    (hR : s.right_.tuples = R)
    (hr : rightFrom s 0 ++ R.drop s.right_.pos = R)
    (hl : leftFrom s 0 ++ s.left_.tuples.drop s.left_.pos = L) :
    (remaining ec s).Perm (joinOf (CheckConditions ec s) L R) := by
  unfold remaining
  rw [pending_at_start ec s h1 h2 h3 h4, hR]
  have g1 := joinOf_append_right_perm (CheckConditions ec s) (leftFrom s 0)
    (rightFrom s 0) (R.drop s.right_.pos)
  rw [hr] at g1
  have g2 : joinOf (CheckConditions ec s) L R =
      joinOf (CheckConditions ec s) (leftFrom s 0) R ++
        joinOf (CheckConditions ec s) (s.left_.tuples.drop s.left_.pos) R := by
    rw [← joinOf_append, hl]
  rw [g2]
  exact List.Perm.append_right _ g1

theorem nextTuple_spec (ec : EvaluateCompare) (s : BlockNestedLoopJoinExecutor) (hinv : Inv s)
    (hlo : s.left_over = false) (hro : s.right_over = false) :
    ∃ f s', (∀ f', f ≤ f' → nextTuple ec f' s = some s') ∧
      s'.left_.tuples = s.left_.tuples ∧ s'.right_.tuples = s.right_.tuples ∧
      s'.fed_conds_ = s.fed_conds_ ∧ s'.join_cols_ = s.join_cols_ ∧
      ((s'.is_end_ = s.is_end_ ∧ Inv s' ∧ s'.left_over = false ∧ s'.right_over = false ∧
          (remaining ec s).Perm (s'.join_record :: remaining ec s')) ∨
        (s'.is_end_ = true ∧ s'.left_over = true ∧ remaining ec s = [])) := by
  obtain ⟨f, b, s', hw, i1, i2, i3, i4, i5, i6, i7⟩ :=
    while_left_spec ec (s.left_.tuples.length - s.left_.pos + 1) s (by omega) hinv hlo hro
  cases b with
  | true =>
    refine ⟨f, s', ?_, i2, i3, i4, i5, Or.inl ⟨i1, i6 rfl⟩⟩
    intro f' hf
    simp only [nextTuple, hw f' hf]
  | false =>
    refine ⟨f, finish s', ?_, i2, i3, i4, i5, Or.inr ⟨rfl, (i7 rfl).1, (i7 rfl).2⟩⟩
    intro f' hf
    simp only [nextTuple, hw f' hf]

theorem drain_spec (ec : EvaluateCompare) :
    ∀ (k : Nat) (s : BlockNestedLoopJoinExecutor),
      (remaining ec s).length < k → Inv s → s.left_over = false → s.right_over = false →
      s.is_end_ = false →
      ∃ f out, (∀ f', f ≤ f' → drain ec f' s = some (s.join_record :: out)) ∧
        out.Perm (remaining ec s) := by
  intro k
  induction k with
  | zero => intro s h; omega
  | succ k ih =>
    intro s hk hinv hlo hro hne
    obtain ⟨f, s', hn, _, _, _, _, hcase⟩ := nextTuple_spec ec s hinv hlo hro
    rcases hcase with ⟨c1, c2, c3, c4, c5⟩ | ⟨c1, _, c3⟩
    · have hlen : (remaining ec s').length < k := by
        have := c5.length_eq
        simp only [List.length_cons] at this
        omega
      obtain ⟨f2, out, hd, hp⟩ := ih s' hlen c2 c3 c4 (c1.trans hne)
      refine ⟨max f f2 + 1, s'.join_record :: out, ?_, (List.Perm.cons _ hp).trans c5.symm⟩
      intro f' hf
      obtain ⟨g, rfl⟩ : ∃ g, f' = g + 1 := ⟨f' - 1, by omega⟩
      simp only [drain, BlockNestedLoopJoinExecutor.is_end, hne, Bool.false_eq_true, if_false,
        BlockNestedLoopJoinExecutor.Next, hn g (by omega), hd g (by omega), Option.map_some']
    · refine ⟨f + 2, [], ?_, by rw [c3]⟩
      intro f' hf
      obtain ⟨g, rfl⟩ : ∃ g, f' = g + 2 := ⟨f' - 2, by omega⟩
      simp only [drain, BlockNestedLoopJoinExecutor.is_end, hne, Bool.false_eq_true, if_false,
        BlockNestedLoopJoinExecutor.Next, hn (g + 1) (by omega), c1, if_true, Option.map_some']

open BlockNestedLoopJoinExecutor

theorem init_right_page_eq (JP PS : Nat) (s : BlockNestedLoopJoinExecutor) (r : Buf × TmpPool)
    (hr : Buf.init_loop s.right_len_ s.right_num_per_page_ JP PS
        (JP / 2 - s.right_buffer_pages_.length)
        (⟨s.right_buffer_pages_, s.right_num_now_, s.right_.beginTuple⟩, s.bpm_) = r) :
    init_right_page JP PS s =
      { s with right_ := r.1.child, right_buffer_pages_ := r.1.pages,
               right_num_now_ := r.1.num_now, bpm_ := r.2,
               right_buffer_page_cnt_ := r.1.pages.length } := by
  subst hr
  unfold init_right_page
  simp only []
  rw [init_right_loop_eq]
  rfl

theorem init_left_page_eq (JP PS : Nat) (s : BlockNestedLoopJoinExecutor) (r : Buf × TmpPool)
    (hr : Buf.init_loop s.left_len_ s.left_num_per_page_ JP PS
        (JP / 2 - s.left_buffer_pages_.length)
        (⟨s.left_buffer_pages_, s.left_num_now_, s.left_.beginTuple⟩, s.bpm_) = r) :
    init_left_page JP PS s =
      { s with left_ := r.1.child, left_buffer_pages_ := r.1.pages,
               left_num_now_ := r.1.num_now, bpm_ := r.2,
               left_buffer_page_cnt_ := r.1.pages.length } := by
  subst hr
  unfold init_left_page
  simp only []
  rw [init_left_loop_eq]
  rfl

theorem Buf.init_from_empty (len per JP PS : Nat) (hps : per * len ≤ PS) (hjp : 2 ≤ JP)
    (child : Executor) (bpm : TmpPool) (r : Buf × TmpPool)
    (hlen : ∀ t ∈ child.tuples, t.length = len)
    (hr : Buf.init_loop len per JP PS (JP / 2 - 0) (⟨[], [], child.beginTuple⟩, bpm) = r) :
    Buf.WF len per r.1 ∧ r.1.child.tuples = child.tuples ∧
      (child.tuples = [] ∨ 1 ≤ r.1.pages.length) ∧
      Buf.upTo len r.1 r.1.pages.length ++ child.tuples.drop r.1.child.pos = child.tuples := by
  have hwf : Buf.WF len per ⟨[], [], child.beginTuple⟩ := by
    refine ⟨List.nodup_nil, ?_, ?_, hlen⟩
    · intro p hp; cases hp
    · intro k; simp [map_find]
  obtain ⟨k1, _, k3, _, _, _, k7, k8⟩ :=
    Buf.init_loop_spec len per JP PS hps _ _ bpm r hr hwf (by intro p hp; cases hp) rfl
  have hjp2 : 0 < JP / 2 := by omega
  refine ⟨k1, k3, ?_, ?_⟩
  · cases hc : child.tuples with
    | nil => exact Or.inl rfl
    | cons t ts =>
      right
      have he : (⟨[], [], child.beginTuple⟩ : Buf).child.is_end = false := by
        rw [is_end_false_iff]
        simp [Executor.beginTuple, hc]
      exact k8 he hjp2
  · have k7' := k7
    simp only [Buf.upTo, List.length_nil, List.range_zero, List.flatMap_nil, List.nil_append,
      Executor.beginTuple, List.drop_zero] at k7'
    exact k7'

open BlockNestedLoopJoinExecutor

theorem primed_spec (ec : EvaluateCompare) (JP PS : Nat) (s : BlockNestedLoopJoinExecutor)
    (hjp : 2 ≤ JP)
    (hrp : s.right_buffer_pages_ = []) (hrn : s.right_num_now_ = [])
    (hlp : s.left_buffer_pages_ = []) (hln : s.left_num_now_ = [])
    (hl1 : 1 ≤ s.left_num_per_page_) (hr1 : 1 ≤ s.right_num_per_page_)
    (hlps : s.left_num_per_page_ * s.left_len_ ≤ PS)
    (hrps : s.right_num_per_page_ * s.right_len_ ≤ PS)
    (hlt : ∀ t ∈ s.left_.tuples, t.length = s.left_len_)
    (hrt : ∀ t ∈ s.right_.tuples, t.length = s.right_len_)
    (hjr : s.join_record.length ≤ s.left_len_ + s.right_len_) :
    Inv (primed JP PS s) ∧ (primed JP PS s).left_over = s.left_over ∧
      (primed JP PS s).right_over = s.right_over ∧ (primed JP PS s).is_end_ = s.is_end_ ∧
      (remaining ec (primed JP PS s)).Perm
        (joinOf (CheckConditions ec s) s.left_.tuples s.right_.tuples) := by
  obtain ⟨r1, h1⟩ : ∃ r1, Buf.init_loop s.right_len_ s.right_num_per_page_ JP PS
        (JP / 2 - s.right_buffer_pages_.length)
        (⟨s.right_buffer_pages_, s.right_num_now_, s.right_.beginTuple⟩, s.bpm_) = r1 := ⟨_, rfl⟩
  have e1 := init_right_page_eq JP PS s r1 h1
  obtain ⟨s1, hs1⟩ : ∃ s1, s1 = init_right_page JP PS s := ⟨_, rfl⟩
  rw [← hs1] at e1
  obtain ⟨r2, h2⟩ : ∃ r2, Buf.init_loop s1.left_len_ s1.left_num_per_page_ JP PS
        (JP / 2 - s1.left_buffer_pages_.length)
        (⟨s1.left_buffer_pages_, s1.left_num_now_, s1.left_.beginTuple⟩, s1.bpm_) = r2 := ⟨_, rfl⟩
  have e2 := init_left_page_eq JP PS s1 r2 h2
  obtain ⟨p, hp⟩ : ∃ p, p = primed JP PS s := ⟨_, rfl⟩
  rw [← hp]
  have hp2 : p = { init_left_page JP PS s1 with
      left_buffer_page_iter_ := 0, left_buffer_page_inner_iter_ := 0,
      right_buffer_page_iter_ := 0, right_buffer_page_inner_iter_ := 0 } := by
    rw [hp, hs1]; rfl
  rw [e2] at hp2
  rw [hrp, hrn, List.length_nil] at h1
  have a1 : s1.left_len_ = s.left_len_ := by rw [e1]
  have a2 : s1.left_num_per_page_ = s.left_num_per_page_ := by rw [e1]
  have a3 : s1.left_buffer_pages_ = [] := by rw [e1]; exact hlp
  have a4 : s1.left_num_now_ = [] := by rw [e1]; exact hln
  have a5 : s1.left_ = s.left_ := by rw [e1]
  rw [a1, a2, a3, a4, a5, List.length_nil] at h2
  obtain ⟨R1, R2, R3, R4⟩ :=
    Buf.init_from_empty s.right_len_ s.right_num_per_page_ JP PS hrps hjp s.right_ s.bpm_ r1 hrt h1
  obtain ⟨L1, L2, L3, L4⟩ :=
    Buf.init_from_empty s.left_len_ s.left_num_per_page_ JP PS hlps hjp s.left_ s1.bpm_ r2 hlt h2
  have b1 : p.left_len_ = s.left_len_ := by rw [hp2]; exact a1
  have b2 : p.right_len_ = s.right_len_ := by rw [hp2, e1]
  have b3 : p.left_num_per_page_ = s.left_num_per_page_ := by rw [hp2]; exact a2
  have b4 : p.right_num_per_page_ = s.right_num_per_page_ := by rw [hp2, e1]
  have b5 : leftBuf p = r2.1 := by rw [hp2]; rfl
  have b6 : rightBuf p = r1.1 := by rw [hp2, e1]; rfl
  have b7 : p.left_buffer_page_cnt_ = r2.1.pages.length := by rw [hp2]
  have b8 : p.right_buffer_page_cnt_ = r1.1.pages.length := by rw [hp2, e1]
  have b9 : p.left_buffer_pages_ = r2.1.pages := by rw [hp2]
  have b10 : p.right_buffer_pages_ = r1.1.pages := by rw [hp2, e1]
  have b11 : p.left_ = r2.1.child := by rw [hp2]
  have b12 : p.right_ = r1.1.child := by rw [hp2, e1]
  have b13 : p.join_record = s.join_record := by rw [hp2, e1]
  have c1 : p.left_buffer_page_iter_ = 0 := by rw [hp2]
  have c2 : p.left_buffer_page_inner_iter_ = 0 := by rw [hp2]
  have c3 : p.right_buffer_page_iter_ = 0 := by rw [hp2]
  have c4 : p.right_buffer_page_inner_iter_ = 0 := by rw [hp2]
  have d1 : p.fed_conds_ = s.fed_conds_ := by rw [hp2, e1]
  have d2 : p.join_cols_ = s.join_cols_ := by rw [hp2, e1]
  have hcc : CheckConditions ec p = CheckConditions ec s := funext (CheckConditions_congr ec d1 d2)
  refine ⟨⟨⟨?_, ?_, ?_, ?_, ?_, ?_, ?_, ?_⟩, ?_, Or.inr c4⟩, ?_, ?_, ?_, ?_⟩
  · rw [b3]; exact hl1
  · rw [b4]; exact hr1
  · rw [b1, b3, b5]; exact L1
  · rw [b2, b4, b6]; exact R1
  · rw [b7, b9]
  · rw [b8, b10]
  · rw [b7, b11, L2]; exact L3
  · rw [b8, b12, R2]; exact R3
  · rw [b13, b1, b2]; exact hjr
  · rw [hp2, e1]
  · rw [hp2, e1]
  · rw [hp2, e1]
  · have := remaining_at_start ec p s.left_.tuples s.right_.tuples c1 c2 c3 c4
      (by rw [b12, R2])
      (by rw [rightFrom_zero_eq, b2, b6, b8, b12]; exact R4)
      (by rw [leftFrom_zero_eq, b1, b5, b7, b11, L2]; exact L4)
    rw [hcc] at this
    exact this

open BlockNestedLoopJoinExecutor

theorem new_ok (PS : Nat) (left right : Executor) (conds : List Condition) (bpm : TmpPool)
    (s0 : BlockNestedLoopJoinExecutor)
    (h : BlockNestedLoopJoinExecutor.new PS left right conds bpm = .ok s0) :
    s0.left_ = left ∧ s0.right_ = right ∧ s0.left_len_ = left.len ∧ s0.right_len_ = right.len ∧
      s0.left_num_per_page_ = PS / left.len ∧ s0.right_num_per_page_ = PS / right.len ∧
      s0.right_buffer_pages_ = [] ∧ s0.right_num_now_ = [] ∧ s0.left_buffer_pages_ = [] ∧
      s0.left_num_now_ = [] ∧ s0.left_over = false ∧ s0.right_over = false ∧
      s0.is_end_ = false ∧ s0.join_record.length = left.len + right.len ∧
      s0.fed_conds_ = conds := by
  unfold BlockNestedLoopJoinExecutor.new at h
  simp only [Executor.tupleLen] at h
  by_cases hl : left.len = 0
  · simp only [hl, if_true] at h; cases h
  · by_cases hr : right.len = 0
    · simp only [hl, hr, if_true, if_false] at h; cases h
    · simp only [hl, hr, if_false] at h
      cases hb : build_join_cols (left.cols ++ right.cols.map
          (fun col => { col with offset := to_int32 (col.offset + left.len) })) conds [] with
      | error e => rw [hb] at h; cases h
      | ok jc =>
        rw [hb] at h
        simp only [Except.ok.injEq] at h
        subst h
        simp

/-- C1 (join completeness, no duplication).  For an executor built by the constructor from
a left and a right child whose tuples have the declared lengths, both between 1 and
`PAGE_SIZE`, with any condition list and any `JOIN_POOL_SIZE >= 2`: the run `beginTuple()`,
then `Next()`/`nextTuple()` until `is_end()`, ends (with every large enough fuel), and the
records it yields are, as a multiset, the concatenations `l ++ r` of a left tuple and a right
tuple on which every condition holds, each pair once. -/
theorem join_yields_each_matching_pair_once (ec : EvaluateCompare) (JOIN_POOL_SIZE PAGE_SIZE : Nat)
    (left right : Executor) (conds : List Condition) (bpm : TmpPool)
    (s0 : BlockNestedLoopJoinExecutor)
    (hpool : 2 ≤ JOIN_POOL_SIZE)
    (hl1 : 1 ≤ left.len) (hl2 : left.len ≤ PAGE_SIZE)
    (hr1 : 1 ≤ right.len) (hr2 : right.len ≤ PAGE_SIZE)
    (hlt : ∀ t ∈ left.tuples, t.length = left.len)
    (hrt : ∀ t ∈ right.tuples, t.length = right.len)
    (hnew : BlockNestedLoopJoinExecutor.new PAGE_SIZE left right conds bpm = .ok s0) :
    ∃ N, ∀ fuel, N ≤ fuel →
      ∃ out, run ec JOIN_POOL_SIZE PAGE_SIZE fuel s0 = some out ∧
        out.Perm (joinOf (all_conditions_hold ec s0) left.tuples right.tuples) := by
  obtain ⟨n1, n2, n3, n4, n5, n6, n7, n8, n9, n10, n11, n12, n13, n14, _⟩ :=
    new_ok PAGE_SIZE left right conds bpm s0 hnew
  obtain ⟨pinv, plo, pro, pend, pperm⟩ := primed_spec ec JOIN_POOL_SIZE PAGE_SIZE s0 hpool
    n7 n8 n9 n10
    (by rw [n5]; exact Nat.div_pos hl2 hl1) (by rw [n6]; exact Nat.div_pos hr2 hr1)
    (by rw [n5, n3]; exact Nat.div_mul_le_self _ _)
    (by rw [n6, n4]; exact Nat.div_mul_le_self _ _)
    (by rw [n1, n3]; exact hlt) (by rw [n2, n4]; exact hrt)
    (by rw [n14, n3, n4])
  rw [n1, n2, CheckConditions_eq_all] at pperm
  obtain ⟨f, s1, hn, _, _, _, _, hcase⟩ := nextTuple_spec ec (primed JOIN_POOL_SIZE PAGE_SIZE s0)
    pinv (plo.trans n11) (pro.trans n12)
  rcases hcase with ⟨c1, c2, c3, c4, c5⟩ | ⟨c1, _, c3⟩
  · obtain ⟨f2, out, hd, hp⟩ := drain_spec ec _ s1 (Nat.lt_succ_self _) c2 c3 c4
      (c1.trans (pend.trans n13))
    refine ⟨max f f2, fun fuel hf => ⟨s1.join_record :: out, ?_, ?_⟩⟩
    · simp only [run, beginTuple_eq, hn fuel (by omega), hd fuel (by omega)]
    · exact ((List.Perm.cons _ hp).trans c5.symm).trans pperm
  · refine ⟨f + 1, fun fuel hf => ⟨[], ?_, ?_⟩⟩
    · obtain ⟨g, rfl⟩ : ∃ g, fuel = g + 1 := ⟨fuel - 1, by omega⟩
      simp only [run, beginTuple_eq, hn (g + 1) (by omega), drain,
        BlockNestedLoopJoinExecutor.is_end, c1, if_true]
    · rw [c3] at pperm
      exact pperm

/-- C1, witness: the relations `L = {(1,'a'), (2,'b')}` and `R = {(1,'x'), (2,'y'), (3,'z')}`
joined on equality of the first column, with `JOIN_POOL_SIZE = 2` and two tuples per page;
the run yields `(1,'a',1,'x')` and `(2,'b',2,'y')`. -/
theorem join_yields_each_matching_pair_once_witness :
    BlockNestedLoopJoinExecutor.new 4 example_left example_right example_conds ⟨0, []⟩ =
        .ok example_join ∧
      run bytes_equal 2 4 40 example_join = some [[1, 97, 1, 120], [2, 98, 2, 121]] ∧
      ∃ N, ∀ fuel, N ≤ fuel →
        ∃ out, run bytes_equal 2 4 fuel example_join = some out ∧
          out.Perm (joinOf (all_conditions_hold bytes_equal example_join)
            example_left.tuples example_right.tuples) :=
  ⟨rfl, by decide,
    join_yields_each_matching_pair_once bytes_equal 2 4 example_left example_right example_conds
      ⟨0, []⟩ example_join (by decide) (by decide) (by decide) (by decide) (by decide)
      (by decide) (by decide) rfl⟩

theorem fetch_page_handle_eq_with (fh : RmFileHandle) (page_no : Int) :
    fetch_page_handle fh page_no =
      fetch_page_handle_with fh.buffer_pool_manager_.fetch_page fh page_no := rfl

theorem get_record_eq_with (fh : RmFileHandle) (rid : Rid) :
    get_record fh rid = get_record_with fh.buffer_pool_manager_.fetch_page fh rid := rfl

/-- C11 (code defect).  The check of `fetch_page_handle` (line 162) is `page_no >= num_pages`
only.  On `one_record_file` (one page): for page 1 `get_record` fails with
`PageNotExistError` whatever the pool would answer, the pool is not asked.  For page -1
(RM_NO_PAGE) the check passes and the outcome is the pool's answer: the pool that reports
the page missing gives `PageNotExistError`, a pool that answers with a page makes
`get_record` return the bytes of a slot of that page. -/
theorem get_record_negative_page_reaches_pool :
    (∀ answer, get_record_with answer one_record_file ⟨1, 0⟩ = .error (.PageNotExistError 1)) ∧
    one_record_file.file_hdr_.num_pages = 1 ∧
    get_record one_record_file ⟨RM_NO_PAGE, 0⟩ =
      get_record_with one_record_file.buffer_pool_manager_.fetch_page one_record_file
        ⟨RM_NO_PAGE, 0⟩ ∧
    get_record one_record_file ⟨RM_NO_PAGE, 0⟩ = .error (.PageNotExistError RM_NO_PAGE) ∧
    get_record_with (fun _ => none) one_record_file ⟨RM_NO_PAGE, 0⟩ =
      .error (.PageNotExistError RM_NO_PAGE) ∧
    get_record_with obliging_pool one_record_file ⟨RM_NO_PAGE, 0⟩ =
      .ok (⟨[1, 2], 2⟩, one_record_file) :=
  ⟨fun _ => rfl, rfl, rfl, rfl, rfl, rfl⟩

/-- C12, counterexample.  On `one_record_file` the bit of slot (0,1) is clear, no record was
ever inserted there; `get_record((0,1))` returns the two zero bytes of the slot and no
error. -/
theorem get_record_of_clear_slot_returns_bytes :
    (one_record_file.page? 0).map (fun p => Bitmap.is_set p.bitmap 1) = some false ∧
    ∃ fh1, get_record one_record_file ⟨0, 1⟩ = .ok (⟨[0, 0], 2⟩, fh1) :=
  ⟨rfl, _, rfl⟩

/-- C14 (code defect).  After three inserts (capacity 2) page 0 is full and page 1, with one
record, is the head of the free list.  Insert-at on slot (0,0) of page 0, which is not the
head, sets `first_free_page_no` to the `next_free_page_no` of page 0, RM_NO_PAGE. -/
theorem insert_at_on_full_page_moves_free_list_head :
    ∃ fh3 fh4 p0, insert_records (empty 2 2) [[1, 2], [3, 4], [5, 6]] = .ok fh3 ∧
      fh3.page? 0 = some p0 ∧
      p0.page_hdr.num_records = fh3.file_hdr_.num_records_per_page ∧
      fh3.file_hdr_.first_free_page_no = 1 ∧ (⟨0, 0⟩ : Rid).page_no ≠ fh3.file_hdr_.first_free_page_no ∧
      insert_record_at fh3 ⟨0, 0⟩ [7, 8] = .ok fh4 ∧
      fh4.file_hdr_.first_free_page_no = RM_NO_PAGE ∧
      fh4.file_hdr_.first_free_page_no ≠ fh3.file_hdr_.first_free_page_no :=
  ⟨_, _, _, rfl, rfl, by decide, by decide, by decide, rfl, by decide, by decide⟩

/-- C16 (code defect).  Line 24 of the constructor builds a `Rid` and drops it; `rid_` keeps
what it held.  On `one_record_file`, whose only record is (0,0): with `rid_` holding
(RM_FIRST_RECORD_PAGE, -1) the constructor leaves the cursor on (0,0); with `rid_` holding
(0,0) or (1,-1) it leaves the cursor on the end sentinel. -/
theorem scan_constructor_depends_on_prior_rid :
    (one_record_file.page? 0).map (fun p => Bitmap.is_set p.bitmap 0) = some true ∧
    (∃ fh1, RmScan.new one_record_file ⟨RM_FIRST_RECORD_PAGE, -1⟩ = .ok (⟨⟨0, 0⟩⟩, fh1)) ∧
    (∃ fh1 scan, RmScan.new one_record_file ⟨0, 0⟩ = .ok (scan, fh1) ∧
      scan.rid = ⟨RM_NO_PAGE, -1⟩ ∧ scan.is_end = true) ∧
    (∃ fh1 scan, RmScan.new one_record_file ⟨1, -1⟩ = .ok (scan, fh1) ∧
      scan.rid = ⟨RM_NO_PAGE, -1⟩ ∧ scan.is_end = true) :=
  ⟨rfl, ⟨_, rfl⟩, ⟨_, _, rfl, rfl, rfl⟩, ⟨_, _, rfl, rfl, rfl⟩⟩

/-- C17 (code defect).  On `one_record_file` the scan goes to (0,0), then `next()` reaches
the end sentinel (RM_NO_PAGE, -1) and `is_end()` is true.  One more `next()` starts its page
loop at page -1, which is below `num_pages`, asks `fetch_page_handle` for page -1 and ends
in `PageNotExistError`. -/
theorem scan_next_after_end_fetches_page :
    ∃ scan1 fh1 scan2 fh2, RmScan.new one_record_file ⟨RM_FIRST_RECORD_PAGE, -1⟩ = .ok (scan1, fh1) ∧
      scan1.rid = ⟨0, 0⟩ ∧ scan1.next fh1 = .ok (scan2, fh2) ∧
      scan2.rid = ⟨RM_NO_PAGE, -1⟩ ∧ scan2.is_end = true ∧
      scan2.next fh2 = .error (.PageNotExistError (-1)) ∧
      fetch_page_handle fh2 scan2.rid.page_no =
        fetch_page_handle_with fh2.buffer_pool_manager_.fetch_page fh2 (-1) :=
  ⟨_, _, _, _, rfl, rfl, rfl, rfl, rfl, rfl, rfl⟩

/-- C12, amended.  For a rid on an existing page whose occupancy bit is clear and whose slot
lies in the slot array, `get_record(rid)` raises no error: it returns the `record_size`
bytes that are in the slot. -/
theorem get_record_reads_clear_slot (fh : RmFileHandle) (rid : Rid) (f : Frame) (d : List Byte)
    (h0 : 0 ≤ rid.page_no) (h1 : rid.page_no < fh.file_hdr_.num_pages)
    (hf : fh.buffer_pool_manager_.frames[rid.page_no.toNat]? = some f)
    (hbit : Bitmap.is_set f.page.bitmap rid.slot_no = false)
    (hs : 0 ≤ rid.slot_no) (hd : f.page.slots[rid.slot_no.toNat]? = some d)
    (hlen : d.length = fh.file_hdr_.record_size) :
    ∃ fh1, get_record fh rid = .ok (⟨d, fh.file_hdr_.record_size⟩, fh1) := by
  have _ := hbit
  have hm : memcpy (List.replicate fh.file_hdr_.record_size 0) 0 d 0 fh.file_hdr_.record_size = d := by
    simp [memcpy, ← hlen]
  rw [get_record_of_frame fh h0 h1 hf hs hd, hm]
  exact ⟨_, rfl⟩

theorem get_record_reads_clear_slot_witness :
    ∃ fh1, get_record one_record_file ⟨0, 1⟩ =
      .ok (⟨[0, 0], one_record_file.file_hdr_.record_size⟩, fh1) :=
  get_record_reads_clear_slot one_record_file ⟨0, 1⟩
    ⟨⟨⟨-1, 1⟩, [true, false], [[1, 2], [0, 0]]⟩, 0, true⟩ [0, 0]
    (by decide) (by decide) rfl rfl (by decide) rfl rfl

theorem next_bit_gt (bit : Bool) (bm : List Bool) (max_n curr : Int)
    (h : Bitmap.next_bit bit bm max_n curr ≠ max_n) :
    curr < Bitmap.next_bit bit bm max_n curr := by
  unfold Bitmap.next_bit at h ⊢
  by_cases hc : curr + 1 ≤ max_n
  · have := (next_bit_loop_spec bit bm max_n (max_n - (curr + 1)).toNat (curr + 1)
      (by rw [Int.toNat_of_nonneg (by omega)]; omega)).1
    omega
  · have hz : (max_n - (curr + 1)).toNat = 0 := by
      rw [Int.toNat_eq_zero]; omega
    rw [hz] at h
    simp [Bitmap.next_bit_loop] at h

theorem next_loop_spec (slot_no : Int) :
    ∀ (n : Nat) (page_no : Int) (fh : RmFileHandle) (rid : Rid) (fh1 : RmFileHandle),
      RmScan.next_loop slot_no n page_no fh = .ok (rid, fh1) →
      rid = ⟨RM_NO_PAGE, -1⟩ ∨ (page_no ≤ rid.page_no ∧ slot_no < rid.slot_no) := by
  intro n
  induction n with
  | zero =>
    intro page_no fh rid fh1 h
    simp only [RmScan.next_loop, Except.ok.injEq, Prod.mk.injEq] at h
    exact Or.inl h.1.symm
  | succ n ih =>
    intro page_no fh rid fh1 h
    simp only [RmScan.next_loop] at h
    cases hfp : fetch_page_handle fh page_no with
    | error e => rw [hfp] at h; cases h
    | ok r =>
      obtain ⟨ph, fh0⟩ := r
      rw [hfp] at h
      simp only [] at h
      by_cases hret : Bitmap.next_bit true ph.bitmap fh0.file_hdr_.num_records_per_page slot_no =
          fh0.file_hdr_.num_records_per_page
      · simp only [hret, ne_eq, not_true_eq_false, if_false] at h
        rcases ih _ _ _ _ h with h1 | ⟨h1, h2⟩
        · exact Or.inl h1
        · exact Or.inr ⟨by omega, h2⟩
      · simp only [ne_eq, hret, not_false_eq_true, if_true, Except.ok.injEq, Prod.mk.injEq] at h
        obtain ⟨rfl, _⟩ := h
        exact Or.inr ⟨le_refl _, next_bit_gt _ _ _ _ hret⟩

/-- C15.  When `next()` moves the cursor from a record identifier `a` to a record
identifier `b` that is not the end sentinel, `a < b` in the lexicographic order on
`(page_no, slot_no)`. -/
theorem scan_next_strictly_increases (fh fh1 : RmFileHandle) (a b : Rid)
    (hnext : RmScan.next ⟨a⟩ fh = .ok (⟨b⟩, fh1))
    (ha : RmScan.is_end ⟨a⟩ = false) (hb : RmScan.is_end ⟨b⟩ = false) : Rid.lt a b := by
  have _ := ha
  unfold RmScan.next at hnext
  cases hl : RmScan.next_loop a.slot_no (fh.file_hdr_.num_pages - a.page_no).toNat a.page_no fh with
  | error e => rw [hl] at hnext; cases hnext
  | ok r =>
    obtain ⟨rid, fh0⟩ := r
    rw [hl] at hnext
    simp only [Except.ok.injEq, Prod.mk.injEq, RmScan.mk.injEq] at hnext
    obtain ⟨rfl, _⟩ := hnext
    rcases next_loop_spec _ _ _ _ _ _ hl with h1 | ⟨h1, h2⟩
    · rw [h1] at hb
      simp [RmScan.is_end] at hb
    · unfold Rid.lt
      omega

theorem scan_next_strictly_increases_witness :
    ∃ fh1, RmScan.next ⟨⟨0, 0⟩⟩ two_record_file = .ok (⟨⟨0, 1⟩⟩, fh1) ∧
      Rid.lt ⟨0, 0⟩ ⟨0, 1⟩ :=
  ⟨_, rfl, scan_next_strictly_increases two_record_file _ ⟨0, 0⟩ ⟨0, 1⟩ rfl (by decide) (by decide)⟩

theorem update_record_of_frame (fh : RmFileHandle) (rid : Rid) (buf : List Byte) (f : Frame)
    (d : List Byte) (h0 : 0 ≤ rid.page_no) (h1 : rid.page_no < fh.file_hdr_.num_pages)
    (hf : fh.buffer_pool_manager_.frames[rid.page_no.toNat]? = some f)
    (hbit : Bitmap.is_set f.page.bitmap rid.slot_no = true)
    (hs : 0 ≤ rid.slot_no) (hd : f.page.slots[rid.slot_no.toNat]? = some d) :
    update_record fh rid buf = .ok
      { fh with buffer_pool_manager_ :=
          ⟨fh.buffer_pool_manager_.frames.set rid.page_no.toNat
            ⟨⟨f.page.page_hdr, f.page.bitmap,
               f.page.slots.set rid.slot_no.toNat (memcpy d 0 buf 0 fh.file_hdr_.record_size)⟩,
             f.pin_count + 1, f.is_dirty⟩⟩ } := by
  have hlt := (List.getElem?_eq_some_iff.mp hf).1
  unfold update_record
  rw [fetch_page_handle_of_frame h0 h1 hf]
  obtain ⟨hsl, rfl⟩ := List.getElem?_eq_some_iff.mp hd
  have hgd : f.page.slots.getD rid.slot_no.toNat
      (List.replicate fh.file_hdr_.record_size 0) = f.page.slots[rid.slot_no.toNat] := by
    rw [List.getD_eq_getElem?_getD, hd]; rfl
  simp [RmPageHandle.ofPage, hbit, RmPageHandle.write_slot, RmPageHandle.write_cell, hgd, hsl,
    not_lt.mpr hs, store, not_lt.mpr h0, hlt, RmPageHandle.toPage]

theorem update_record_of_clear_bit (fh : RmFileHandle) (rid : Rid) (buf : List Byte) (f : Frame)
    (h0 : 0 ≤ rid.page_no) (h1 : rid.page_no < fh.file_hdr_.num_pages)
    (hf : fh.buffer_pool_manager_.frames[rid.page_no.toNat]? = some f)
    (hbit : Bitmap.is_set f.page.bitmap rid.slot_no = false) :
    update_record fh rid buf = .error .AssertionFailure := by
  unfold update_record
  rw [fetch_page_handle_of_frame h0 h1 hf]
  simp [RmPageHandle.ofPage, hbit]

theorem is_set_true_bounds (bm : List Bool) (pos : Int) (h : Bitmap.is_set bm pos = true) :
    0 ≤ pos ∧ pos.toNat < bm.length := by
  unfold Bitmap.is_set at h
  by_cases hp : pos < 0
  · simp [hp] at h
  · simp only [hp, if_false] at h
    refine ⟨by omega, ?_⟩
    by_contra hlt
    rw [List.getD_eq_default _ _ (by omega)] at h
    cases h

/-- C13.  On a page with the declared layout and for `buf` of `record_size` bytes:
when the bit of `rid` is set, `update_record(rid, buf)` returns, a following
`get_record(rid)` returns `buf`, the file header is unchanged, no page is added, and every
page keeps its page header (`num_records`, `next_free_page_no`), its bitmap and the bytes of
every slot other than the slot of `rid`; when the bit is clear the call fails its assertion,
which stands before the write. -/
theorem update_record_overwrites_in_place (fh : RmFileHandle) (rid : Rid) (buf : List Byte)
    (f : Frame) (hlay : PageLayout fh)
    (h0 : 0 ≤ rid.page_no) (h1 : rid.page_no < fh.file_hdr_.num_pages)
    (hf : fh.buffer_pool_manager_.frames[rid.page_no.toNat]? = some f)
    (hbuf : buf.length = fh.file_hdr_.record_size) :
    (Bitmap.is_set f.page.bitmap rid.slot_no = true →
      ∃ fh1 fh2, update_record fh rid buf = .ok fh1 ∧
        get_record fh1 rid = .ok (⟨buf, fh.file_hdr_.record_size⟩, fh2) ∧
        fh1.file_hdr_ = fh.file_hdr_ ∧
        fh1.buffer_pool_manager_.frames.length = fh.buffer_pool_manager_.frames.length ∧
        ∀ (p : Nat) (g : Frame), fh.buffer_pool_manager_.frames[p]? = some g →
          ∃ g1, fh1.buffer_pool_manager_.frames[p]? = some g1 ∧
            g1.page.page_hdr = g.page.page_hdr ∧ g1.page.bitmap = g.page.bitmap ∧
            g1.page.slots.length = g.page.slots.length ∧
            ∀ j : Nat, ((p : Int) ≠ rid.page_no ∨ (j : Int) ≠ rid.slot_no) →
              g1.page.slots[j]? = g.page.slots[j]?) ∧
    (Bitmap.is_set f.page.bitmap rid.slot_no = false →
      update_record fh rid buf = .error .AssertionFailure) := by
  refine ⟨fun hbit => ?_, fun hbit => update_record_of_clear_bit fh rid buf f h0 h1 hf hbit⟩
  obtain ⟨hs, hsb⟩ := is_set_true_bounds _ _ hbit
  have hlt := (List.getElem?_eq_some_iff.mp hf).1
  have hmem : f ∈ fh.buffer_pool_manager_.frames := List.getElem?_mem hf
  obtain ⟨l1, l2⟩ := hlay f hmem
  have hsl : rid.slot_no.toNat < f.page.slots.length := by omega
  have hd : f.page.slots[rid.slot_no.toNat]? = some (f.page.slots[rid.slot_no.toNat]) :=
    List.getElem?_eq_getElem hsl
  have hu := update_record_of_frame fh rid buf f _ h0 h1 hf hbit hs hd
  obtain ⟨f1, hf1⟩ : ∃ f1, f1 = (⟨⟨f.page.page_hdr, f.page.bitmap,
      f.page.slots.set rid.slot_no.toNat
        (memcpy (f.page.slots[rid.slot_no.toNat]) 0 buf 0 fh.file_hdr_.record_size)⟩,
      f.pin_count + 1, f.is_dirty⟩ : Frame) := ⟨_, rfl⟩
  rw [← hf1] at hu
  obtain ⟨fh1, hfh1⟩ : ∃ fh1, fh1 = ({ fh with buffer_pool_manager_ :=
      ⟨fh.buffer_pool_manager_.frames.set rid.page_no.toNat f1⟩ } : RmFileHandle) := ⟨_, rfl⟩
  rw [← hfh1] at hu
  have hfr : fh1.buffer_pool_manager_.frames =
      fh.buffer_pool_manager_.frames.set rid.page_no.toNat f1 := by rw [hfh1]
  have hhdr : fh1.file_hdr_ = fh.file_hdr_ := by rw [hfh1]
  have hf1' : fh1.buffer_pool_manager_.frames[rid.page_no.toNat]? = some f1 := by
    rw [hfr]; exact List.getElem?_set_self hlt
  have hd1 : f1.page.slots[rid.slot_no.toNat]? =
      some (memcpy (f.page.slots[rid.slot_no.toNat]) 0 buf 0 fh.file_hdr_.record_size) := by
    rw [hf1]; exact List.getElem?_set_self hsl
  have hg := get_record_of_frame fh1 h0 (by rw [hhdr]; exact h1) hf1' hs hd1
  rw [hhdr, memcpy_read_back _ buf _ hbuf] at hg
  refine ⟨fh1, _, hu, hg, hhdr, by rw [hfr, List.length_set], ?_⟩
  intro p g hg0
  by_cases hp : p = rid.page_no.toNat
  · subst hp
    rw [hf] at hg0
    cases hg0
    refine ⟨f1, hf1', by rw [hf1], by rw [hf1], by rw [hf1]; simp, ?_⟩
    intro j hj
    have hne : rid.slot_no.toNat ≠ j := by omega
    rw [hf1]
    exact List.getElem?_set_ne hne
  · refine ⟨g, ?_, rfl, rfl, rfl, fun _ _ => rfl⟩
    rw [hfr, List.getElem?_set_ne (Ne.symm hp)]
    exact hg0

theorem update_record_overwrites_in_place_witness :
    (∃ fh1 fh2, update_record one_record_file ⟨0, 0⟩ [9, 9] = .ok fh1 ∧
        get_record fh1 ⟨0, 0⟩ = .ok (⟨[9, 9], one_record_file.file_hdr_.record_size⟩, fh2) ∧
        fh1.file_hdr_ = one_record_file.file_hdr_ ∧
        fh1.buffer_pool_manager_.frames.length =
          one_record_file.buffer_pool_manager_.frames.length ∧
        ∀ (p : Nat) (g : Frame), one_record_file.buffer_pool_manager_.frames[p]? = some g →
          ∃ g1, fh1.buffer_pool_manager_.frames[p]? = some g1 ∧
            g1.page.page_hdr = g.page.page_hdr ∧ g1.page.bitmap = g.page.bitmap ∧
            g1.page.slots.length = g.page.slots.length ∧
            ∀ j : Nat, ((p : Int) ≠ (⟨0, 0⟩ : Rid).page_no ∨ (j : Int) ≠ (⟨0, 0⟩ : Rid).slot_no) →
              g1.page.slots[j]? = g.page.slots[j]?) ∧
    update_record one_record_file ⟨0, 1⟩ [9, 9] = .error .AssertionFailure :=
  ⟨(update_record_overwrites_in_place one_record_file ⟨0, 0⟩ [9, 9]
      ⟨⟨⟨-1, 1⟩, [true, false], [[1, 2], [0, 0]]⟩, 0, true⟩ one_record_file_layout
      (by decide) (by decide) rfl rfl).1 rfl,
   (update_record_overwrites_in_place one_record_file ⟨0, 1⟩ [9, 9]
      ⟨⟨⟨-1, 1⟩, [true, false], [[1, 2], [0, 0]]⟩, 0, true⟩ one_record_file_layout
      (by decide) (by decide) rfl rfl).2 rfl⟩

open BlockNestedLoopJoinExecutor

open BlockNestedLoopJoinExecutor

theorem right_inner_loop_is_end (ec : EvaluateCompare) (p : Page) :
    ∀ (n : Nat) (s : BlockNestedLoopJoinExecutor),
      (right_inner_loop ec p n s).2.is_end_ = s.is_end_ := by
  intro n
  induction n with
  | zero => intro s; rfl
  | succ n ih =>
    intro s
    simp only [right_inner_loop]
    split_ifs
    · rfl
    · rw [ih]
    · rfl

theorem right_pages_loop_is_end (ec : EvaluateCompare) :
    ∀ (n : Nat) (s : BlockNestedLoopJoinExecutor),
      (right_pages_loop ec n s).2.is_end_ = s.is_end_ := by
  intro n
  induction n with
  | zero => intro s; rfl
  | succ n ih =>
    intro s
    simp only [right_pages_loop]
    split_ifs
    · have h := right_inner_loop_is_end ec
        (s.right_buffer_pages_.getD s.right_buffer_page_iter_ default)
        (map_find s.right_num_now_ (s.right_buffer_pages_.getD s.right_buffer_page_iter_ default).id -
          s.right_buffer_page_inner_iter_)
        { s with right_num_now_inner_ :=
            map_find s.right_num_now_ (s.right_buffer_pages_.getD s.right_buffer_page_iter_ default).id }
      revert h
      cases right_inner_loop ec
        (s.right_buffer_pages_.getD s.right_buffer_page_iter_ default)
        (map_find s.right_num_now_ (s.right_buffer_pages_.getD s.right_buffer_page_iter_ default).id -
          s.right_buffer_page_inner_iter_)
        { s with right_num_now_inner_ :=
            map_find s.right_num_now_ (s.right_buffer_pages_.getD s.right_buffer_page_iter_ default).id } with
      | mk b s1 =>
        intro h
        cases b
        · simp only []
          rw [ih]
          exact h
        · exact h
    · rfl

open BlockNestedLoopJoinExecutor

theorem left_inner_loop_is_end (ec : EvaluateCompare) (p : Page) :
    ∀ (n : Nat) (s : BlockNestedLoopJoinExecutor),
      (left_inner_loop ec p n s).2.is_end_ = s.is_end_ := by
  intro n
  induction n with
  | zero => intro s; rfl
  | succ n ih =>
    intro s
    simp only [left_inner_loop]
    split_ifs
    · obtain ⟨jr, hjr⟩ : ∃ jr, jr = memcpy s.join_record 0 p.data
          (s.left_buffer_page_inner_iter_ * s.left_len_) s.left_len_ := ⟨_, rfl⟩
      rw [← hjr]
      obtain ⟨s0, hs0⟩ : ∃ s0, s0 = ({ s with join_record := jr } :
          BlockNestedLoopJoinExecutor) := ⟨_, rfl⟩
      have h0 : s0.is_end_ = s.is_end_ := by rw [hs0]
      have h := right_pages_loop_is_end ec (s.right_buffer_page_cnt_ - s.right_buffer_page_iter_) s0
      rw [← hs0]
      revert h
      cases right_pages_loop ec (s.right_buffer_page_cnt_ - s.right_buffer_page_iter_) s0 with
      | mk b s1 =>
        intro h
        cases b
        · simp only []
          rw [ih]
          exact h.trans h0
        · exact h.trans h0
    · rfl

theorem left_pages_loop_is_end (ec : EvaluateCompare) :
    ∀ (n : Nat) (s : BlockNestedLoopJoinExecutor),
      (left_pages_loop ec n s).2.is_end_ = s.is_end_ := by
  intro n
  induction n with
  | zero => intro s; rfl
  | succ n ih =>
    intro s
    simp only [left_pages_loop]
    split_ifs
    · obtain ⟨k, hk⟩ : ∃ k, k = map_find s.left_num_now_
          (s.left_buffer_pages_.getD s.left_buffer_page_iter_ default).id := ⟨_, rfl⟩
      rw [← hk]
      obtain ⟨s0, hs0⟩ : ∃ s0, s0 = ({ s with left_num_now_inner_ := k } :
          BlockNestedLoopJoinExecutor) := ⟨_, rfl⟩
      have h0 : s0.is_end_ = s.is_end_ := by rw [hs0]
      have h := left_inner_loop_is_end ec
        (s.left_buffer_pages_.getD s.left_buffer_page_iter_ default)
        (k - s.left_buffer_page_inner_iter_) s0
      rw [← hs0]
      revert h
      cases left_inner_loop ec
        (s.left_buffer_pages_.getD s.left_buffer_page_iter_ default)
        (k - s.left_buffer_page_inner_iter_) s0 with
      | mk b s1 =>
        intro h
        cases b
        · simp only []
          rw [ih]
          exact h.trans h0
        · exact h.trans h0
    · rfl

theorem while_right_is_end (ec : EvaluateCompare) :
    ∀ (f : Nat) (s : BlockNestedLoopJoinExecutor) (b : Bool) (s1 : BlockNestedLoopJoinExecutor),
      while_right ec f s = some (b, s1) → s1.is_end_ = s.is_end_ := by
  intro f
  induction f with
  | zero => intro s b s1 h; cases h
  | succ f ih =>
    intro s b s1 h
    simp only [while_right] at h
    by_cases hro : s.right_over = true
    · simp only [hro, Bool.not_true, Bool.false_eq_true, if_false, Option.some.injEq,
        Prod.mk.injEq] at h
      rw [← h.2]
    · simp only [hro, Bool.not_false, Bool.not_eq_true, if_true] at h
      have hl := left_pages_loop_is_end ec (s.left_buffer_page_cnt_ - s.left_buffer_page_iter_) s
      revert h hl
      cases left_pages_loop ec (s.left_buffer_page_cnt_ - s.left_buffer_page_iter_) s with
      | mk b2 s2 =>
        intro h hl
        cases b2
        · simp only [] at h
          by_cases he : s2.right_.is_end = true
          · simp only [he, if_true] at h
            have := ih _ _ _ h
            exact this.trans hl
          · simp only [he, if_false, Bool.false_eq_true] at h
            have := ih _ _ _ h
            exact this.trans ((refill_right_frame s2).2.2.2.2.1.trans hl)
        · simp only [Option.some.injEq, Prod.mk.injEq] at h
          rw [← h.2]
          exact hl

theorem while_left_is_end (ec : EvaluateCompare) :
    ∀ (f : Nat) (s : BlockNestedLoopJoinExecutor) (b : Bool) (s1 : BlockNestedLoopJoinExecutor),
      while_left ec f s = some (b, s1) →
      s1.is_end_ = s.is_end_ ∧ (b = false → s1.left_over = true) ∧
      (s.left_over = true → b = false ∧ s1 = s) := by
  intro f
  induction f with
  | zero => intro s b s1 h; cases h
  | succ f ih =>
    intro s b s1 h
    simp only [while_left] at h
    by_cases hlo : s.left_over = true
    · simp only [hlo, Bool.not_true, Bool.false_eq_true, if_false, Option.some.injEq,
        Prod.mk.injEq] at h
      obtain ⟨rfl, rfl⟩ := h
      exact ⟨rfl, fun _ => hlo, fun _ => ⟨rfl, rfl⟩⟩
    · simp only [hlo, Bool.not_false, Bool.not_eq_true, if_true] at h
      cases hw : while_right ec f s with
      | none => rw [hw] at h; cases h
      | some r =>
        obtain ⟨b2, s2⟩ := r
        have hr := while_right_is_end ec f s b2 s2 hw
        rw [hw] at h
        cases b2
        · simp only [] at h
          by_cases he : s2.left_.is_end = true
          · simp only [he, if_true, Option.some.injEq, Prod.mk.injEq] at h
            obtain ⟨rfl, rfl⟩ := h
            exact ⟨hr, fun _ => rfl, fun h => absurd h hlo⟩
          · simp only [he, if_false, Bool.false_eq_true] at h
            obtain ⟨i1, i2, _⟩ := ih _ _ _ h
            refine ⟨?_, i2, fun h => absurd h hlo⟩
            rw [i1]
            have e1 := (refill_left_frame s2).2.2.2.2.1
            have e2 := (refill_right_frame
              { refill_left s2 with right_ := (refill_left s2).right_.beginTuple }).2.2.2.2.1
            exact (e2.trans e1).trans hr
        · simp only [Option.some.injEq, Prod.mk.injEq] at h
          obtain ⟨rfl, rfl⟩ := h
          exact ⟨hr, fun h => Bool.noConfusion h, fun h => absurd h hlo⟩

open BlockNestedLoopJoinExecutor

theorem primed_flags (JP PS : Nat) (s : BlockNestedLoopJoinExecutor) :
    (primed JP PS s).is_end_ = s.is_end_ ∧ (primed JP PS s).left_over = s.left_over := by
  have e1 := init_right_page_eq JP PS s _ rfl
  have e2 := init_left_page_eq JP PS (init_right_page JP PS s) _ rfl
  have a1 : (init_right_page JP PS s).is_end_ = s.is_end_ := by rw [e1]
  have a2 : (init_right_page JP PS s).left_over = s.left_over := by rw [e1]
  have b1 : (init_left_page JP PS (init_right_page JP PS s)).is_end_ =
      (init_right_page JP PS s).is_end_ := by rw [e2]
  have b2 : (init_left_page JP PS (init_right_page JP PS s)).left_over =
      (init_right_page JP PS s).left_over := by rw [e2]
  exact ⟨b1.trans a1, b2.trans a2⟩

theorem nextTuple_end_inv (ec : EvaluateCompare) (f : Nat) (s s1 : BlockNestedLoopJoinExecutor)
    (hinv : s.is_end_ = true → s.left_over = true) (h : nextTuple ec f s = some s1) :
    s1.is_end_ = true → s1.left_over = true := by
  unfold nextTuple at h
  cases hw : while_left ec f s with
  | none => rw [hw] at h; cases h
  | some r =>
    obtain ⟨b, s2⟩ := r
    obtain ⟨i1, i2, i3⟩ := while_left_is_end ec f s b s2 hw
    rw [hw] at h
    cases b
    · simp only [Option.some.injEq] at h
      subst h
      intro _
      exact i2 rfl
    · simp only [Option.some.injEq] at h
      subst h
      intro he
      have := (i3 (hinv (i1 ▸ he))).1
      cases this

theorem reachable_end_inv (ec : EvaluateCompare) (JP PS : Nat) (s : BlockNestedLoopJoinExecutor)
    (h : Reachable ec JP PS s) : s.is_end_ = true → s.left_over = true := by
  induction h with
  | constructed left right conds bpm s hnew =>
    intro he
    have := (new_ok PS left right conds bpm s hnew).2.2.2.2.2.2.2.2.2.2.2.2.1
    rw [this] at he
    cases he
  | begun fuel s s1 _ hb ih =>
    rw [beginTuple_eq] at hb
    refine nextTuple_end_inv ec fuel _ s1 ?_ hb
    rw [(primed_flags JP PS s).1, (primed_flags JP PS s).2]
    exact ih
  | advanced fuel s s1 _ hn ih => exact nextTuple_end_inv ec fuel s s1 ih hn

theorem nextTuples_of_ended (ec : EvaluateCompare) (fuel : Nat) (hfuel : 1 ≤ fuel) :
    ∀ (n : Nat) (s : BlockNestedLoopJoinExecutor), s.is_end_ = true → s.left_over = true →
      ∃ s1, nextTuples ec fuel n s = some s1 ∧ s1.is_end_ = true ∧ s1.left_ = s.left_ ∧
        s1.right_ = s.right_ ∧ s1.join_record = s.join_record := by
  obtain ⟨g, rfl⟩ : ∃ g, fuel = g + 1 := ⟨fuel - 1, by omega⟩
  intro n
  induction n with
  | zero => intro s he _; exact ⟨s, rfl, he, rfl, rfl, rfl⟩
  | succ n ih =>
    intro s he hlo
    have hn : nextTuple ec (g + 1) s = some (finish s) := by
      simp only [nextTuple, while_left, hlo, Bool.not_true, Bool.false_eq_true, if_false]
    obtain ⟨s1, h1, h2, h3, h4, h5⟩ := ih (finish s) rfl hlo
    refine ⟨s1, ?_, h2, h3, h4, h5⟩
    simp only [nextTuples, hn]
    exact h1

/-- C20.  In every state the executor can reach in which `is_end()` is true, any number of
further `nextTuple()` calls return and leave `is_end()` true, `Next()` gives no tuple, and
the two children and the scratch record are as they were. -/
theorem join_stays_ended (ec : EvaluateCompare) (JOIN_POOL_SIZE PAGE_SIZE : Nat)
    (s : BlockNestedLoopJoinExecutor) (hreach : Reachable ec JOIN_POOL_SIZE PAGE_SIZE s)
    (hend : s.is_end = true) (n fuel : Nat) (hfuel : 1 ≤ fuel) :
    ∃ s1, nextTuples ec fuel n s = some s1 ∧ s1.is_end = true ∧ s1.Next = none ∧
      s1.left_ = s.left_ ∧ s1.right_ = s.right_ ∧ s1.join_record = s.join_record := by
  obtain ⟨s1, h1, h2, h3, h4, h5⟩ := nextTuples_of_ended ec fuel hfuel n s hend
    (reachable_end_inv ec JOIN_POOL_SIZE PAGE_SIZE s hreach hend)
  refine ⟨s1, h1, h2, ?_, h3, h4, h5⟩
  simp only [BlockNestedLoopJoinExecutor.Next, h2, if_true]

theorem join_stays_ended_witness :
    ∃ s, beginTuple bytes_equal 2 4 10 example_join_empty = some s ∧ s.is_end = true ∧
      ∃ s1, nextTuples bytes_equal 1 3 s = some s1 ∧ s1.is_end = true ∧ s1.Next = none ∧
        s1.left_ = s.left_ ∧ s1.right_ = s.right_ ∧ s1.join_record = s.join_record :=
  ⟨_, rfl, rfl,
    join_stays_ended bytes_equal 2 4 _
      (Reachable.begun 10 example_join_empty _
        (Reachable.constructed example_left example_empty_right example_conds ⟨0, []⟩ _ rfl) rfl)
      rfl 3 1 (by decide)⟩

open BlockNestedLoopJoinExecutor

theorem build_join_cols_spec (cols : List ColMeta) :
    ∀ (conds : List Condition) (acc : List (ColMeta × ColMeta)),
      (∀ c ∈ conds, c.is_rhs_val = false ∧ (cond_types cols c).isSome = true) →
      ((∀ c ∈ conds, ∀ a b, cond_types cols c = some (a, b) → a = b) →
        ∃ jc, build_join_cols cols conds acc = .ok jc) ∧
      ((∃ c ∈ conds, ∃ a b, cond_types cols c = some (a, b) ∧ a ≠ b) →
        ∃ a b, build_join_cols cols conds acc = .error (.IncompatibleTypeError a b)) := by
  intro conds
  induction conds with
  | nil =>
    intro acc _
    refine ⟨fun _ => ⟨acc, rfl⟩, ?_⟩
    rintro ⟨c, hc, _⟩
    cases hc
  | cons cond rest ih =>
    intro acc hcols
    obtain ⟨hv, hsome⟩ := hcols cond (List.mem_cons_self _ _)
    have hrest : ∀ c ∈ rest, c.is_rhs_val = false ∧ (cond_types cols c).isSome = true :=
      fun c hc => hcols c (List.mem_cons_of_mem _ hc)
    unfold cond_types at hsome
    cases hl : get_col cols cond.lhs_col with
    | error e => rw [hl] at hsome; cases hsome
    | ok lc =>
      cases hr : get_col cols cond.rhs_col with
      | error e => rw [hl, hr] at hsome; cases hsome
      | ok rc =>
        have hct : cond_types cols cond = some (lc.type, rc.type) := by
          unfold cond_types; rw [hl, hr]
        by_cases hty : lc.type = rc.type
        · have hb : ∀ acc, build_join_cols cols (cond :: rest) acc =
              build_join_cols cols rest (acc ++ [(lc, rc)]) := by
            intro acc
            simp [build_join_cols, hv, hl, hr, hty]
          rw [hb]
          obtain ⟨i1, i2⟩ := ih (acc ++ [(lc, rc)]) hrest
          refine ⟨fun h => i1 (fun c hc => h c (List.mem_cons_of_mem _ hc)), ?_⟩
          rintro ⟨c, hc, a, b, hab, hne⟩
          rcases List.mem_cons.mp hc with rfl | hc'
          · rw [hct] at hab
            simp only [Option.some.injEq, Prod.mk.injEq] at hab
            exact absurd (hab.1 ▸ hab.2 ▸ hty) hne
          · exact i2 ⟨c, hc', a, b, hab, hne⟩
        · have hb : build_join_cols cols (cond :: rest) acc =
              .error (.IncompatibleTypeError lc.type rc.type) := by
            simp [build_join_cols, hv, hl, hr, hty]
          rw [hb]
          refine ⟨fun h => absurd (h cond (List.mem_cons_self _ _) _ _ hct) hty,
            fun _ => ⟨_, _, rfl⟩⟩

open BlockNestedLoopJoinExecutor

theorem right_inner_loop_poolView (ec : EvaluateCompare) (p : Page) :
    ∀ (n : Nat) (s : BlockNestedLoopJoinExecutor),
      poolView (right_inner_loop ec p n s).2 = poolView s := by
  intro n
  induction n with
  | zero => intro s; rfl
  | succ n ih =>
    intro s
    simp only [right_inner_loop]
    split_ifs
    · rfl
    · rw [ih]; rfl
    · rfl

theorem right_pages_loop_poolView (ec : EvaluateCompare) :
    ∀ (n : Nat) (s : BlockNestedLoopJoinExecutor),
      poolView (right_pages_loop ec n s).2 = poolView s := by
  intro n
  induction n with
  | zero => intro s; rfl
  | succ n ih =>
    intro s
    simp only [right_pages_loop]
    split_ifs
    · obtain ⟨k, hk⟩ : ∃ k, k = map_find s.right_num_now_
          (s.right_buffer_pages_.getD s.right_buffer_page_iter_ default).id := ⟨_, rfl⟩
      rw [← hk]
      obtain ⟨s0, hs0⟩ : ∃ s0, s0 = ({ s with right_num_now_inner_ := k } :
          BlockNestedLoopJoinExecutor) := ⟨_, rfl⟩
      have h0 : poolView s0 = poolView s := by rw [hs0]; rfl
      have h := right_inner_loop_poolView ec
        (s.right_buffer_pages_.getD s.right_buffer_page_iter_ default)
        (k - s.right_buffer_page_inner_iter_) s0
      rw [← hs0]
      revert h
      cases right_inner_loop ec
        (s.right_buffer_pages_.getD s.right_buffer_page_iter_ default)
        (k - s.right_buffer_page_inner_iter_) s0 with
      | mk b s1 =>
        intro h
        cases b
        · simp only []
          rw [ih]
          exact h.trans h0
        · exact h.trans h0
    · rfl

theorem left_inner_loop_poolView (ec : EvaluateCompare) (p : Page) :
    ∀ (n : Nat) (s : BlockNestedLoopJoinExecutor),
      poolView (left_inner_loop ec p n s).2 = poolView s := by
  intro n
  induction n with
  | zero => intro s; rfl
  | succ n ih =>
    intro s
    simp only [left_inner_loop]
    split_ifs
    · obtain ⟨jr, hjr⟩ : ∃ jr, jr = memcpy s.join_record 0 p.data
          (s.left_buffer_page_inner_iter_ * s.left_len_) s.left_len_ := ⟨_, rfl⟩
      rw [← hjr]
      obtain ⟨s0, hs0⟩ : ∃ s0, s0 = ({ s with join_record := jr } :
          BlockNestedLoopJoinExecutor) := ⟨_, rfl⟩
      have h0 : poolView s0 = poolView s := by rw [hs0]; rfl
      have h := right_pages_loop_poolView ec (s.right_buffer_page_cnt_ - s.right_buffer_page_iter_) s0
      rw [← hs0]
      revert h
      cases right_pages_loop ec (s.right_buffer_page_cnt_ - s.right_buffer_page_iter_) s0 with
      | mk b s1 =>
        intro h
        cases b
        · simp only []
          rw [ih]
          exact h.trans h0
        · exact h.trans h0
    · rfl

theorem left_pages_loop_poolView (ec : EvaluateCompare) :
    ∀ (n : Nat) (s : BlockNestedLoopJoinExecutor),
      poolView (left_pages_loop ec n s).2 = poolView s := by
  intro n
  induction n with
  | zero => intro s; rfl
  | succ n ih =>
    intro s
    simp only [left_pages_loop]
    split_ifs
    · obtain ⟨k, hk⟩ : ∃ k, k = map_find s.left_num_now_
          (s.left_buffer_pages_.getD s.left_buffer_page_iter_ default).id := ⟨_, rfl⟩
      rw [← hk]
      obtain ⟨s0, hs0⟩ : ∃ s0, s0 = ({ s with left_num_now_inner_ := k } :
          BlockNestedLoopJoinExecutor) := ⟨_, rfl⟩
      have h0 : poolView s0 = poolView s := by rw [hs0]; rfl
      have h := left_inner_loop_poolView ec
        (s.left_buffer_pages_.getD s.left_buffer_page_iter_ default)
        (k - s.left_buffer_page_inner_iter_) s0
      rw [← hs0]
      revert h
      cases left_inner_loop ec
        (s.left_buffer_pages_.getD s.left_buffer_page_iter_ default)
        (k - s.left_buffer_page_inner_iter_) s0 with
      | mk b s1 =>
        intro h
        cases b
        · simp only []
          rw [ih]
          exact h.trans h0
        · exact h.trans h0
    · rfl

theorem Buf.fill_ids (len per : Nat) (b : Buf) (idx : Nat) :
    (b.fill len per idx).pages.map Page.id = b.pages.map Page.id := by
  unfold Buf.fill
  simp only []
  by_cases h : idx < b.pages.length
  · exact ids_set_same b.pages idx _ h
  · rw [List.set_eq_of_length_le (by omega)]

theorem Buf.refill_loop_ids (len per limit : Nat) :
    ∀ (n cnt : Nat) (b : Buf),
      (Buf.refill_loop len per limit n cnt b).2.pages.map Page.id = b.pages.map Page.id := by
  intro n
  induction n with
  | zero => intro cnt b; rfl
  | succ n ih =>
    intro cnt b
    simp only [Buf.refill_loop]
    split_ifs
    · rfl
    · rw [ih, Buf.fill_ids]
    · rfl

theorem refill_right_poolView (s : BlockNestedLoopJoinExecutor) :
    poolView (refill_right s) = poolView s := by
  rw [refill_right_eq]
  simp only [poolView, setRight, Buf.refill_loop_ids]
  rfl

theorem refill_left_poolView (s : BlockNestedLoopJoinExecutor) :
    poolView (refill_left s) = poolView s := by
  rw [refill_left_eq]
  simp only [poolView, setLeft, Buf.refill_loop_ids]
  rfl

open BlockNestedLoopJoinExecutor

theorem while_right_poolView (ec : EvaluateCompare) :
    ∀ (f : Nat) (s : BlockNestedLoopJoinExecutor) (b : Bool) (s1 : BlockNestedLoopJoinExecutor),
      while_right ec f s = some (b, s1) → poolView s1 = poolView s := by
  intro f
  induction f with
  | zero => intro s b s1 h; cases h
  | succ f ih =>
    intro s b s1 h
    simp only [while_right] at h
    by_cases hro : s.right_over = true
    · simp only [hro, Bool.not_true, Bool.false_eq_true, if_false, Option.some.injEq,
        Prod.mk.injEq] at h
      rw [← h.2]
    · simp only [hro, Bool.not_false, Bool.not_eq_true, if_true] at h
      have hl := left_pages_loop_poolView ec (s.left_buffer_page_cnt_ - s.left_buffer_page_iter_) s
      revert h hl
      cases left_pages_loop ec (s.left_buffer_page_cnt_ - s.left_buffer_page_iter_) s with
      | mk b2 s2 =>
        intro h hl
        cases b2
        · simp only [] at h
          by_cases he : s2.right_.is_end = true
          · simp only [he, if_true] at h
            have := ih _ _ _ h
            exact this.trans hl
          · simp only [he, if_false, Bool.false_eq_true] at h
            have := ih _ _ _ h
            exact this.trans ((refill_right_poolView s2).trans hl)
        · simp only [Option.some.injEq, Prod.mk.injEq] at h
          rw [← h.2]
          exact hl

theorem while_left_poolView (ec : EvaluateCompare) :
    ∀ (f : Nat) (s : BlockNestedLoopJoinExecutor) (b : Bool) (s1 : BlockNestedLoopJoinExecutor),
      while_left ec f s = some (b, s1) → poolView s1 = poolView s := by
  intro f
  induction f with
  | zero => intro s b s1 h; cases h
  | succ f ih =>
    intro s b s1 h
    simp only [while_left] at h
    by_cases hlo : s.left_over = true
    · simp only [hlo, Bool.not_true, Bool.false_eq_true, if_false, Option.some.injEq,
        Prod.mk.injEq] at h
      rw [← h.2]
    · simp only [hlo, Bool.not_false, Bool.not_eq_true, if_true] at h
      cases hw : while_right ec f s with
      | none => rw [hw] at h; cases h
      | some r =>
        obtain ⟨b2, s2⟩ := r
        have hr := while_right_poolView ec f s b2 s2 hw
        rw [hw] at h
        cases b2
        · simp only [] at h
          by_cases he : s2.left_.is_end = true
          · simp only [he, if_true, Option.some.injEq, Prod.mk.injEq] at h
            rw [← h.2]
            exact hr
          · simp only [he, if_false, Bool.false_eq_true] at h
            have i1 := ih _ _ _ h
            rw [i1]
            have e1 := refill_left_poolView s2
            have e2 := refill_right_poolView
              { refill_left s2 with right_ := (refill_left s2).right_.beginTuple }
            exact (e2.trans e1).trans hr
        · simp only [Option.some.injEq, Prod.mk.injEq] at h
          rw [← h.2]
          exact hr

theorem unpin_all_count (pages : List Page) :
    ∀ bpm : TmpPool,
      (pages.foldl (fun (bpm : TmpPool) (page : Page) => bpm.unpin_tmp_page page.id)
        bpm).new_tmp_count = bpm.new_tmp_count := by
  induction pages with
  | nil => intro bpm; rfl
  | cons p ps ih => intro bpm; rw [List.foldl_cons, ih]; rfl

theorem finish_poolView (s : BlockNestedLoopJoinExecutor) : poolView (finish s) = poolView s := by
  simp only [poolView, finish, unpin_all_count]

theorem nextTuple_poolView (ec : EvaluateCompare) (f : Nat) (s s1 : BlockNestedLoopJoinExecutor)
    (h : nextTuple ec f s = some s1) : poolView s1 = poolView s := by
  unfold nextTuple at h
  cases hw : while_left ec f s with
  | none => rw [hw] at h; cases h
  | some r =>
    obtain ⟨b, s2⟩ := r
    have hp := while_left_poolView ec f s b s2 hw
    rw [hw] at h
    cases b
    · simp only [Option.some.injEq] at h
      subst h
      exact (finish_poolView s2).trans hp
    · simp only [Option.some.injEq] at h
      subst h
      exact hp

theorem Buf.init_loop_pages (len per JP PS : Nat) :
    ∀ (n : Nat) (b : Buf) (bpm : TmpPool),
      b.pages.length ≤ JP / 2 →
      (Buf.init_loop len per JP PS n (b, bpm)).1.pages.length ≤ JP / 2 ∧
      b.pages.length ≤ (Buf.init_loop len per JP PS n (b, bpm)).1.pages.length ∧
      (Buf.init_loop len per JP PS n (b, bpm)).2.new_tmp_count + b.pages.length =
        bpm.new_tmp_count + (Buf.init_loop len per JP PS n (b, bpm)).1.pages.length := by
  intro n
  induction n with
  | zero => intro b bpm h; exact ⟨h, le_refl _, rfl⟩
  | succ n ih =>
    intro b bpm h
    simp only [Buf.init_loop]
    split_ifs with h1 h2
    · exact ⟨h, le_refl _, rfl⟩
    · obtain ⟨b1, hb1⟩ : ∃ b1, b1 = Buf.fill len per
          ⟨b.pages ++ [(bpm.new_tmp_page PS).1], b.num_now, b.child⟩ (b.pages.length + 1 - 1) :=
        ⟨_, rfl⟩
      rw [← hb1]
      have hlen : b1.pages.length = b.pages.length + 1 := by
        have := congrArg List.length (Buf.fill_ids len per
          ⟨b.pages ++ [(bpm.new_tmp_page PS).1], b.num_now, b.child⟩ (b.pages.length + 1 - 1))
        rw [← hb1] at this
        simpa using this
      obtain ⟨i1, i2, i3⟩ := ih b1 (bpm.new_tmp_page PS).2 (by omega)
      refine ⟨i1, by omega, ?_⟩
      have hc : (bpm.new_tmp_page PS).2.new_tmp_count = bpm.new_tmp_count + 1 := rfl
      omega
    · exact ⟨h, le_refl _, rfl⟩

open BlockNestedLoopJoinExecutor

theorem primed_pool (JP PS : Nat) (s : BlockNestedLoopJoinExecutor)
    (hl : s.left_buffer_pages_.length ≤ JP / 2) (hr : s.right_buffer_pages_.length ≤ JP / 2) :
    (primed JP PS s).left_buffer_pages_.length ≤ JP / 2 ∧
    (primed JP PS s).right_buffer_pages_.length ≤ JP / 2 ∧
    s.left_buffer_pages_.length ≤ (primed JP PS s).left_buffer_pages_.length ∧
    s.right_buffer_pages_.length ≤ (primed JP PS s).right_buffer_pages_.length ∧
    (primed JP PS s).bpm_.new_tmp_count + s.left_buffer_pages_.length +
        s.right_buffer_pages_.length =
      s.bpm_.new_tmp_count + (primed JP PS s).left_buffer_pages_.length +
        (primed JP PS s).right_buffer_pages_.length := by
  obtain ⟨r1, h1⟩ : ∃ r1, Buf.init_loop s.right_len_ s.right_num_per_page_ JP PS
        (JP / 2 - s.right_buffer_pages_.length)
        (⟨s.right_buffer_pages_, s.right_num_now_, s.right_.beginTuple⟩, s.bpm_) = r1 := ⟨_, rfl⟩
  have e1 := init_right_page_eq JP PS s r1 h1
  obtain ⟨s1, hs1⟩ : ∃ s1, s1 = init_right_page JP PS s := ⟨_, rfl⟩
  rw [← hs1] at e1
  obtain ⟨r2, h2⟩ : ∃ r2, Buf.init_loop s1.left_len_ s1.left_num_per_page_ JP PS
        (JP / 2 - s1.left_buffer_pages_.length)
        (⟨s1.left_buffer_pages_, s1.left_num_now_, s1.left_.beginTuple⟩, s1.bpm_) = r2 := ⟨_, rfl⟩
  have e2 := init_left_page_eq JP PS s1 r2 h2
  obtain ⟨p, hp⟩ : ∃ p, p = primed JP PS s := ⟨_, rfl⟩
  rw [← hp]
  have hp2 : p = { init_left_page JP PS s1 with
      left_buffer_page_iter_ := 0, left_buffer_page_inner_iter_ := 0,
      right_buffer_page_iter_ := 0, right_buffer_page_inner_iter_ := 0 } := by
    rw [hp, hs1]; rfl
  rw [e2] at hp2
  have a1 : s1.left_buffer_pages_ = s.left_buffer_pages_ := by rw [e1]
  have a2 : s1.bpm_ = r1.2 := by rw [e1]
  have b1 : p.left_buffer_pages_ = r2.1.pages := by rw [hp2]
  have b2 : p.right_buffer_pages_ = r1.1.pages := by rw [hp2, e1]
  have b3 : p.bpm_ = r2.2 := by rw [hp2]
  obtain ⟨R1, R2, R3⟩ := Buf.init_loop_pages s.right_len_ s.right_num_per_page_ JP PS
    (JP / 2 - s.right_buffer_pages_.length)
    ⟨s.right_buffer_pages_, s.right_num_now_, s.right_.beginTuple⟩ s.bpm_ hr
  rw [h1] at R1 R2 R3
  obtain ⟨L1, L2, L3⟩ := Buf.init_loop_pages s1.left_len_ s1.left_num_per_page_ JP PS
    (JP / 2 - s1.left_buffer_pages_.length)
    ⟨s1.left_buffer_pages_, s1.left_num_now_, s1.left_.beginTuple⟩ s1.bpm_
    (by rw [a1]; exact hl)
  rw [h2] at L1 L2 L3
  simp only [a1, a2] at L2 L3
  simp only [] at R2 R3
  rw [b1, b2, b3]
  refine ⟨L1, R1, L2, R2, ?_⟩
  omega

theorem poolView_lengths {s s1 : BlockNestedLoopJoinExecutor} (h : poolView s1 = poolView s) :
    s1.bpm_.new_tmp_count = s.bpm_.new_tmp_count ∧
    s1.left_buffer_pages_.length = s.left_buffer_pages_.length ∧
    s1.right_buffer_pages_.length = s.right_buffer_pages_.length := by
  simp only [poolView, Prod.mk.injEq] at h
  obtain ⟨h1, h2, h3⟩ := h
  refine ⟨h1, ?_, ?_⟩
  · simpa using congrArg List.length h2
  · simpa using congrArg List.length h3

theorem reachable_pool_bound (ec : EvaluateCompare) (JP PS : Nat) (s : BlockNestedLoopJoinExecutor)
    (h : Reachable ec JP PS s) :
    s.left_buffer_pages_.length ≤ JP / 2 ∧ s.right_buffer_pages_.length ≤ JP / 2 := by
  induction h with
  | constructed left right conds bpm s hnew =>
    obtain ⟨_, _, _, _, _, _, n7, _, n9, _⟩ := new_ok PS left right conds bpm s hnew
    rw [n7, n9]
    exact ⟨Nat.zero_le _, Nat.zero_le _⟩
  | begun fuel s s1 _ hb ih =>
    rw [beginTuple_eq] at hb
    obtain ⟨_, e2, e3⟩ := poolView_lengths (nextTuple_poolView ec fuel _ s1 hb)
    obtain ⟨p1, p2, _⟩ := primed_pool JP PS s ih.1 ih.2
    rw [e2, e3]
    exact ⟨p1, p2⟩
  | advanced fuel s s1 _ hn ih =>
    obtain ⟨_, e2, e3⟩ := poolView_lengths (nextTuple_poolView ec fuel s s1 hn)
    rw [e2, e3]
    exact ih

/-- C22.  In every state the executor can reach, each of the two page vectors holds at most
`JOIN_POOL_SIZE / 2` temporary pages.  A `nextTuple()` call asks the pool for no page and
leaves the pages of both vectors the same pages (refills write into them).  A
`beginTuple()` call asks the pool for exactly the pages it appends to the two vectors. -/
theorem join_holds_bounded_pages (ec : EvaluateCompare) (JOIN_POOL_SIZE PAGE_SIZE : Nat)
    (s : BlockNestedLoopJoinExecutor) (hreach : Reachable ec JOIN_POOL_SIZE PAGE_SIZE s) :
    s.left_buffer_pages_.length ≤ JOIN_POOL_SIZE / 2 ∧
    s.right_buffer_pages_.length ≤ JOIN_POOL_SIZE / 2 ∧
    (∀ fuel s1, nextTuple ec fuel s = some s1 → poolView s1 = poolView s) ∧
    (∀ fuel s1, beginTuple ec JOIN_POOL_SIZE PAGE_SIZE fuel s = some s1 →
      s.left_buffer_pages_.length ≤ s1.left_buffer_pages_.length ∧
      s.right_buffer_pages_.length ≤ s1.right_buffer_pages_.length ∧
      s1.bpm_.new_tmp_count + s.left_buffer_pages_.length + s.right_buffer_pages_.length =
        s.bpm_.new_tmp_count + s1.left_buffer_pages_.length +
          s1.right_buffer_pages_.length) := by
  obtain ⟨h1, h2⟩ := reachable_pool_bound ec JOIN_POOL_SIZE PAGE_SIZE s hreach
  refine ⟨h1, h2, fun fuel s1 h => nextTuple_poolView ec fuel s s1 h, ?_⟩
  intro fuel s1 hb
  rw [beginTuple_eq] at hb
  obtain ⟨e1, e2, e3⟩ := poolView_lengths (nextTuple_poolView ec fuel _ s1 hb)
  obtain ⟨_, _, p3, p4, p5⟩ := primed_pool JOIN_POOL_SIZE PAGE_SIZE s h1 h2
  rw [e1, e2, e3]
  exact ⟨p3, p4, p5⟩

theorem join_holds_bounded_pages_witness :
    ∃ s, beginTuple bytes_equal 4 1 20 three_join = some s ∧
      s.left_buffer_pages_.length = 2 ∧ s.right_buffer_pages_.length = 2 ∧
      s.left_buffer_pages_.length ≤ 4 / 2 ∧ s.right_buffer_pages_.length ≤ 4 / 2 ∧
      (∀ fuel s1, nextTuple bytes_equal fuel s = some s1 → poolView s1 = poolView s) :=
  ⟨_, rfl, rfl, rfl,
    (join_holds_bounded_pages bytes_equal 4 1 _
      (Reachable.begun 20 three_join _
        (Reachable.constructed three_left three_right [] ⟨0, []⟩ _ rfl) rfl)).1,
    (join_holds_bounded_pages bytes_equal 4 1 _
      (Reachable.begun 20 three_join _
        (Reachable.constructed three_left three_right [] ⟨0, []⟩ _ rfl) rfl)).2.1,
    (join_holds_bounded_pages bytes_equal 4 1 _
      (Reachable.begun 20 three_join _
        (Reachable.constructed three_left three_right [] ⟨0, []⟩ _ rfl) rfl)).2.2.1⟩

open BlockNestedLoopJoinExecutor

open BlockNestedLoopJoinExecutor
open RmFileHandle

/-- C23 (code defect).  The example join (`JOIN_POOL_SIZE = 2`) holds the left page 1 and
the right page 0.  When the run reaches the end the two pages have been unpinned once each
and `is_end()` is true.  One more `nextTuple()` runs the two unpin loops of lines 210-215
again: each page is unpinned a second time. -/
theorem pages_unpinned_again_after_end :
    ∃ s1 s2, run_to_end bytes_equal 2 4 20 example_join = some s1 ∧ s1.is_end = true ∧
      s1.left_buffer_pages_.map Page.id = [1] ∧ s1.right_buffer_pages_.map Page.id = [0] ∧
      s1.bpm_.new_tmp_count = 2 ∧ s1.bpm_.unpin_log = [1, 0] ∧
      nextTuple bytes_equal 20 s1 = some s2 ∧ s2.is_end = true ∧
      s2.bpm_.unpin_log = [1, 0, 1, 0] :=
  ⟨_, _, rfl, rfl, rfl, rfl, rfl, rfl, rfl, rfl, rfl⟩

/-- C25 (code defect).  The first run of the example join yields two records.
`beginTuple()` on the executor that has reached the end leaves `is_end()` true and `Next()`
without tuple, and the second run yields no record: `beginTuple()` resets neither
`left_over` nor `is_end_`, so `nextTuple()` skips its loop. -/
theorem reopened_join_yields_nothing :
    run bytes_equal 2 4 20 example_join = some [[1, 97, 1, 120], [2, 98, 2, 121]] ∧
    ∃ s1 s2, run_to_end bytes_equal 2 4 20 example_join = some s1 ∧ s1.is_end = true ∧
      s1.left_over = true ∧
      beginTuple bytes_equal 2 4 20 s1 = some s2 ∧ s2.is_end = true ∧ s2.Next = none ∧
      run bytes_equal 2 4 20 s1 = some [] :=
  ⟨by decide, _, _, rfl, rfl, rfl, rfl, rfl, rfl, by decide⟩

/-- C26 (code defect).  Three left and three right tuples, one tuple per page,
`JOIN_POOL_SIZE = 4`: two pages per side, the right relation needs three.  Priming fills two
right pages.  The last right chunk of the first pass fills one page, so
`right_buffer_page_cnt_` is 1 when the left block is exhausted; the right refill of the left
advance is bounded by that count (line 194) and fills one page only: at the first record of
the second left block the right buffer holds one valid page out of its two, and one right
tuple has been read. -/
theorem right_refill_after_left_advance_is_short :
    ∃ s1 s6 s7, BlockNestedLoopJoinExecutor.new 1 three_left three_right [] ⟨0, []⟩ = .ok three_join ∧
      beginTuple bytes_equal 4 1 20 three_join = some s1 ∧ s1.join_record = [1, 7] ∧
      s1.right_buffer_pages_.length = 2 ∧ s1.right_buffer_page_cnt_ = 2 ∧
      nextTuples bytes_equal 20 5 s1 = some s6 ∧ s6.join_record = [2, 9] ∧
      s6.right_buffer_page_cnt_ = 1 ∧
      nextTuple bytes_equal 20 s6 = some s7 ∧ s7.join_record = [3, 7] ∧
      s7.right_buffer_pages_.length = 2 ∧ s7.right_buffer_page_cnt_ = 1 ∧
      s7.right_.pos = 1 ∧ s7.right_.tuples.length = 3 :=
  ⟨_, _, _, rfl, rfl, rfl, rfl, rfl, rfl, rfl, rfl, rfl, rfl, rfl, rfl, rfl, rfl⟩

/-- C24 (code defect).  On a file whose page 0 is clean and not pinned: `get_record`,
`update_record` and `delete_record` (on the clear slot (0,1), the call that returns) each
leave the page pinned once, and `update_record` and `delete_record` leave it clean although
they changed its bytes; `insert_record` and insert-at leave it not pinned and dirty. -/
theorem get_update_delete_leave_page_pinned :
    pin_state flushed_file 0 = some (0, false) ∧
    (∃ r fh1, get_record flushed_file ⟨0, 0⟩ = .ok (r, fh1) ∧ pin_state fh1 0 = some (1, false)) ∧
    (∃ fh1, update_record flushed_file ⟨0, 0⟩ [9, 9] = .ok fh1 ∧
      (fh1.page? 0).map (fun p => p.slots) = some [[9, 9], [0, 0]] ∧
      pin_state fh1 0 = some (1, false)) ∧
    (∃ fh1, delete_record flushed_file ⟨0, 1⟩ = .ok fh1 ∧
      (fh1.page? 0).map (fun p => p.page_hdr.num_records) = some 0 ∧
      pin_state fh1 0 = some (1, false)) ∧
    (∃ rid fh1, insert_record flushed_file [3, 4] = .ok (rid, fh1) ∧
      pin_state fh1 0 = some (0, true)) ∧
    (∃ fh1, insert_record_at flushed_file ⟨0, 0⟩ [3, 4] = .ok fh1 ∧
      pin_state fh1 0 = some (0, true)) :=
  ⟨rfl, ⟨_, _, rfl, rfl⟩, ⟨_, rfl, rfl, rfl⟩, ⟨_, rfl, rfl, rfl⟩, ⟨_, _, rfl, rfl⟩, ⟨_, rfl, rfl⟩⟩

/-- C27 (code defect).  Insert, `delete_record` of the clear slot (0,1) (the call returns),
insert: page 0 has both bits set, holds `num_records = 1` and is the head of the free list.
The next `insert_record` takes page 0, the bitmap search gives `num_records_per_page`, its
"no clear bit" result, and that value is used as the slot: the call returns the record
identifier (0,2), a slot behind the slot array. -/
theorem insert_uses_no_clear_bit_result :
    ∃ fh1 fh2 fh3 h fh4, insert_record (empty 2 2) [1, 2] = .ok (⟨0, 0⟩, fh1) ∧
      delete_record fh1 ⟨0, 1⟩ = .ok fh2 ∧ insert_record fh2 [3, 4] = .ok (⟨0, 1⟩, fh3) ∧
      fh3.file_hdr_.first_free_page_no = 0 ∧ fh3.file_hdr_.num_records_per_page = 2 ∧
      create_page_handle fh3 = .ok (h, fh4) ∧ h.page_no = 0 ∧ h.bitmap = [true, true] ∧
      h.page_hdr.num_records = 1 ∧
      Bitmap.first_bit false h.bitmap fh4.file_hdr_.num_records_per_page = 2 ∧
      ∃ fh5, insert_record fh3 [5, 6] = .ok (⟨0, 2⟩, fh5) :=
  ⟨_, _, _, _, _, rfl, rfl, rfl, rfl, rfl, rfl, rfl, rfl, rfl, rfl, _, rfl⟩

theorem write_cell_get_self (slots : List (List Byte)) (k : Nat) (v : List Byte) (n : Nat) :
    (RmPageHandle.write_cell slots k v n)[k]? = some v := by
  unfold RmPageHandle.write_cell
  by_cases h : k < slots.length
  · simp only [h, if_true]
    exact List.getElem?_set_self h
  · simp only [h, if_false]
    have hk : slots.length ≤ k := not_lt.mp h
    rw [List.getElem?_append_right (by simp; omega)]
    simp [Nat.add_sub_cancel' hk]

theorem insert_record_ok {fh : RmFileHandle} {buf : List Byte} {rid : Rid} {fh1 : RmFileHandle}
    (hi : insert_record fh buf = .ok (rid, fh1)) :
    ∃ h fh0 f, create_page_handle fh = .ok (h, fh0) ∧
      rid = ⟨h.page_no, Bitmap.first_bit false h.bitmap fh.file_hdr_.num_records_per_page⟩ ∧
      0 ≤ rid.slot_no ∧
      fh0.buffer_pool_manager_.frames[h.page_no.toNat]? = some f ∧
      fh1.file_hdr_ = { fh0.file_hdr_ with first_free_page_no :=
          if h.page_hdr.num_records + 1 = fh.file_hdr_.num_records_per_page
          then h.page_hdr.next_free_page_no else h.page_no } ∧
      fh1.buffer_pool_manager_.frames = fh0.buffer_pool_manager_.frames.set h.page_no.toNat
        ⟨⟨{ h.page_hdr with num_records := h.page_hdr.num_records + 1 },
           Bitmap.set h.bitmap rid.slot_no,
           RmPageHandle.write_cell h.slots rid.slot_no.toNat
             (memcpy (h.slots.getD rid.slot_no.toNat
               (List.replicate fh.file_hdr_.record_size 0)) 0 buf 0 fh.file_hdr_.record_size)
             fh.file_hdr_.record_size⟩,
         f.pin_count - 1, true⟩ := by
  unfold insert_record at hi
  cases hc : create_page_handle fh with
  | error e => simp [hc] at hi
  | ok r =>
    obtain ⟨h, fh0⟩ := r
    obtain ⟨h0, hrs, hn, hff, ⟨f, hf, hfp⟩, _⟩ := create_page_handle_ok hc
    simp only [hc] at hi
    set slot := Bitmap.first_bit false h.bitmap fh0.file_hdr_.num_records_per_page with hslot
    unfold RmPageHandle.write_slot at hi
    by_cases hneg : slot < 0
    · simp [hneg] at hi
    · simp only [hneg, if_false, Except.ok.injEq, Prod.mk.injEq] at hi
      obtain ⟨rfl, rfl⟩ := hi
      refine ⟨h, fh0, f, rfl, by rw [hslot, hn], by simpa using hneg, hf, ?_, ?_⟩
      · by_cases hfull : h.page_hdr.num_records + 1 = fh0.file_hdr_.num_records_per_page
        · simp [hfull, ← hn, store, h0, hf, not_lt.mpr h0]
        · simp [hfull, ← hn, store, h0, hf, not_lt.mpr h0]
          rw [← hff]
      · by_cases hfull : h.page_hdr.num_records + 1 = fh0.file_hdr_.num_records_per_page
        · simp [hfull, ← hn, ← hrs, store, h0, hf, not_lt.mpr h0, BufferPoolManager.unpin_page,
            RmPageHandle.toPage, (List.getElem?_eq_some_iff.mp hf).1]
        · simp [hfull, ← hn, ← hrs, store, h0, hf, not_lt.mpr h0, BufferPoolManager.unpin_page,
            RmPageHandle.toPage, (List.getElem?_eq_some_iff.mp hf).1]

/-- C8, as the code behaves when the head of the free list has no clear bit.  On a file of
two-byte records, two per page, `insert_record([1, 2])`, `delete_record((0, 1))` and
`insert_record([3, 4])` all return; page 0 then has both of its slots occupied, one record
counted, and is still the head of the free list.  The next `insert_record([5, 6])` chooses
page 0 and returns slot 2, which is `num_records_per_page` and no slot of the page: both
occupancy bits were set before the call, no occupancy bit of the page changes, and the
record lies behind the two slots of the page. -/
theorem insert_record_into_page_without_clear_bit :
    ∃ fh1 fh2 fh3 fh4 p3 p4,
      insert_record (empty 2 2) [1, 2] = .ok (⟨0, 0⟩, fh1) ∧
      delete_record fh1 ⟨0, 1⟩ = .ok fh2 ∧
      insert_record fh2 [3, 4] = .ok (⟨0, 1⟩, fh3) ∧
      fh3.file_hdr_.first_free_page_no = 0 ∧
      fh3.file_hdr_.num_records_per_page = 2 ∧
      fh3.page? 0 = some p3 ∧
      p3.bitmap = [true, true] ∧ p3.slots = [[1, 2], [3, 4]] ∧ p3.page_hdr.num_records = 1 ∧
      insert_record fh3 [5, 6] = .ok (⟨0, 2⟩, fh4) ∧
      fh4.page? 0 = some p4 ∧
      p4.bitmap = [true, true] ∧ p4.slots = [[1, 2], [3, 4], [5, 6]] ∧
      p4.page_hdr.num_records = 2 :=
  ⟨_, _, _, _, _, _, rfl, rfl, rfl, rfl, rfl, rfl, rfl, rfl, rfl, rfl, rfl, rfl, rfl, rfl⟩

/-- C9.  A successful `insert_record` writes into the page `h` that `create_page_handle`
chose on the file as it was before the call: the head of the free list with the content it
had, or, on an empty free list, a new page with the header `(RM_NO_PAGE, 0)`.  Afterwards
that page holds the first `record_size` bytes of `buf` in the returned slot, counts one
record more and has the link it had.  When the count has reached `num_records_per_page`
the file's `first_free_page_no` is the link of the page, which thereby left the free list;
otherwise `first_free_page_no` is the number of the page. -/
theorem insert_record_unlinks_full_page (fh : RmFileHandle) (buf : List Byte) (rid : Rid)
    (fh1 : RmFileHandle) (hi : insert_record fh buf = .ok (rid, fh1)) :
    ∃ h fh0 p1 d, create_page_handle fh = .ok (h, fh0) ∧
      rid.page_no = h.page_no ∧
      (fh.file_hdr_.first_free_page_no ≠ RM_NO_PAGE →
        h.page_no = fh.file_hdr_.first_free_page_no ∧ fh.page? h.page_no = some h.toPage) ∧
      (fh.file_hdr_.first_free_page_no = RM_NO_PAGE →
        h.page_no = fh.buffer_pool_manager_.frames.length ∧ h.page_hdr = ⟨RM_NO_PAGE, 0⟩) ∧
      fh1.page? rid.page_no = some p1 ∧
      p1.slots[rid.slot_no.toNat]? = some (memcpy d 0 buf 0 fh.file_hdr_.record_size) ∧
      p1.page_hdr.num_records = h.page_hdr.num_records + 1 ∧
      p1.page_hdr.next_free_page_no = h.page_hdr.next_free_page_no ∧
      fh1.file_hdr_.num_records_per_page = fh.file_hdr_.num_records_per_page ∧
      (p1.page_hdr.num_records = fh.file_hdr_.num_records_per_page →
        fh1.file_hdr_.first_free_page_no = h.page_hdr.next_free_page_no) ∧
      (p1.page_hdr.num_records ≠ fh.file_hdr_.num_records_per_page →
        fh1.file_hdr_.first_free_page_no = rid.page_no) := by
  obtain ⟨h, fh0, f, hc, hrid, hs, hf, hhdr, hfr⟩ := insert_record_ok hi
  obtain ⟨h0, hrs, hn, hff, _, hcase⟩ := create_page_handle_ok hc
  have hlt : h.page_no.toNat < fh0.buffer_pool_manager_.frames.length :=
    (List.getElem?_eq_some_iff.mp hf).1
  have hpn : rid.page_no = h.page_no := by rw [hrid]
  have hf1 := List.getElem?_set_self (a := (⟨⟨{ h.page_hdr with num_records := h.page_hdr.num_records + 1 },
           Bitmap.set h.bitmap rid.slot_no,
           RmPageHandle.write_cell h.slots rid.slot_no.toNat
             (memcpy (h.slots.getD rid.slot_no.toNat
               (List.replicate fh.file_hdr_.record_size 0)) 0 buf 0 fh.file_hdr_.record_size)
             fh.file_hdr_.record_size⟩,
         f.pin_count - 1, true⟩ : Frame)) hlt
  rw [← hfr, ← hpn] at hf1
  refine ⟨h, fh0, _, _, hc, hpn, ?_, ?_, page?_of_frame fh1 (by rw [hpn]; exact h0) hf1,
    write_cell_get_self _ _ _ _, rfl, rfl, by rw [hhdr]; exact hn, ?_, ?_⟩
  · intro hne
    rcases hcase with ⟨_, hp, _, _, hpg, _⟩ | ⟨he, _⟩
    · exact ⟨hp, hpg⟩
    · exact absurd he hne
  · intro he
    rcases hcase with ⟨hne, _⟩ | ⟨_, hp, _, hh, _⟩
    · exact absurd he hne
    · exact ⟨hp, hh⟩
  · intro hfull
    rw [hhdr]
    simp only [] at hfull
    simp [hfull]
  · intro hnot
    rw [hhdr, hpn]
    simp only [] at hnot
    simp [hnot]

theorem insert_record_unlinks_full_page_witness :
    (insert_record one_record_file [3, 4] = .ok (⟨0, 1⟩, two_record_file) ∧
      ∃ h fh0 p1 d, create_page_handle one_record_file = .ok (h, fh0) ∧
        (⟨0, 1⟩ : Rid).page_no = h.page_no ∧
        (one_record_file.file_hdr_.first_free_page_no ≠ RM_NO_PAGE →
          h.page_no = one_record_file.file_hdr_.first_free_page_no ∧
          one_record_file.page? h.page_no = some h.toPage) ∧
        (one_record_file.file_hdr_.first_free_page_no = RM_NO_PAGE →
          h.page_no = one_record_file.buffer_pool_manager_.frames.length ∧
          h.page_hdr = ⟨RM_NO_PAGE, 0⟩) ∧
        two_record_file.page? (⟨0, 1⟩ : Rid).page_no = some p1 ∧
        p1.slots[(⟨0, 1⟩ : Rid).slot_no.toNat]? =
          some (memcpy d 0 [3, 4] 0 one_record_file.file_hdr_.record_size) ∧
        p1.page_hdr.num_records = h.page_hdr.num_records + 1 ∧
        p1.page_hdr.next_free_page_no = h.page_hdr.next_free_page_no ∧
        two_record_file.file_hdr_.num_records_per_page =
          one_record_file.file_hdr_.num_records_per_page ∧
        (p1.page_hdr.num_records = one_record_file.file_hdr_.num_records_per_page →
          two_record_file.file_hdr_.first_free_page_no = h.page_hdr.next_free_page_no) ∧
        (p1.page_hdr.num_records ≠ one_record_file.file_hdr_.num_records_per_page →
          two_record_file.file_hdr_.first_free_page_no = (⟨0, 1⟩ : Rid).page_no)) ∧
    (insert_record (empty 2 2) [1, 2] = .ok (⟨0, 0⟩, one_record_file) ∧
      ∃ h fh0 p1 d, create_page_handle (empty 2 2) = .ok (h, fh0) ∧
        (⟨0, 0⟩ : Rid).page_no = h.page_no ∧
        ((empty 2 2).file_hdr_.first_free_page_no ≠ RM_NO_PAGE →
          h.page_no = (empty 2 2).file_hdr_.first_free_page_no ∧
          (empty 2 2).page? h.page_no = some h.toPage) ∧
        ((empty 2 2).file_hdr_.first_free_page_no = RM_NO_PAGE →
          h.page_no = (empty 2 2).buffer_pool_manager_.frames.length ∧
          h.page_hdr = ⟨RM_NO_PAGE, 0⟩) ∧
        one_record_file.page? (⟨0, 0⟩ : Rid).page_no = some p1 ∧
        p1.slots[(⟨0, 0⟩ : Rid).slot_no.toNat]? =
          some (memcpy d 0 [1, 2] 0 (empty 2 2).file_hdr_.record_size) ∧
        p1.page_hdr.num_records = h.page_hdr.num_records + 1 ∧
        p1.page_hdr.next_free_page_no = h.page_hdr.next_free_page_no ∧
        one_record_file.file_hdr_.num_records_per_page =
          (empty 2 2).file_hdr_.num_records_per_page ∧
        (p1.page_hdr.num_records = (empty 2 2).file_hdr_.num_records_per_page →
          one_record_file.file_hdr_.first_free_page_no = h.page_hdr.next_free_page_no) ∧
        (p1.page_hdr.num_records ≠ (empty 2 2).file_hdr_.num_records_per_page →
          one_record_file.file_hdr_.first_free_page_no = (⟨0, 0⟩ : Rid).page_no)) ∧
    (empty 2 2).file_hdr_.first_free_page_no = -1 ∧
    (empty 2 2).page? 0 = none ∧
    one_record_file.page? 0 = some ⟨⟨-1, 1⟩, [true, false], [[1, 2], [0, 0]]⟩ ∧
    one_record_file.file_hdr_.first_free_page_no = 0 ∧
    two_record_file.page? 0 = some ⟨⟨-1, 2⟩, [true, true], [[1, 2], [3, 4]]⟩ ∧
    two_record_file.file_hdr_.first_free_page_no = -1 :=
  ⟨⟨rfl, insert_record_unlinks_full_page one_record_file [3, 4] ⟨0, 1⟩ two_record_file rfl⟩,
    ⟨rfl, insert_record_unlinks_full_page (empty 2 2) [1, 2] ⟨0, 0⟩ one_record_file rfl⟩,
    rfl, rfl, rfl, rfl, rfl, rfl⟩

/-- C10, as the code behaves on the sequence the claim describes.  On a page of capacity
two, and on one of capacity three, `insert_record` is called capacity − 1 times and
returns; the `delete_record` of an inserted record that the sequence asks for next does
not return: it fails the assertion on the occupancy bit, whichever of the inserted records
is named.  No page is made full and none leaves the free list. -/
theorem delete_of_inserted_record_aborts :
    (∃ fh1, insert_record (empty 2 2) [1, 2] = .ok (⟨0, 0⟩, fh1) ∧
      delete_record fh1 ⟨0, 0⟩ = .error .AssertionFailure ∧
      fh1.file_hdr_.first_free_page_no = 0) ∧
    (∃ fh1 fh2, insert_record (empty 2 3) [1, 2] = .ok (⟨0, 0⟩, fh1) ∧
      insert_record fh1 [3, 4] = .ok (⟨0, 1⟩, fh2) ∧
      delete_record fh2 ⟨0, 0⟩ = .error .AssertionFailure ∧
      delete_record fh2 ⟨0, 1⟩ = .error .AssertionFailure ∧
      fh2.file_hdr_.first_free_page_no = 0) :=
  ⟨⟨_, rfl, rfl, rfl⟩, ⟨_, _, rfl, rfl, rfl, rfl, rfl⟩⟩

open BlockNestedLoopJoinExecutor

open BlockNestedLoopJoinExecutor

theorem new_eq_build (PS : Nat) (left right : Executor) (conds : List Condition)
    (bpm : TmpPool) (hl : left.tupleLen ≠ 0) (hr : right.tupleLen ≠ 0) :
    (∀ e, build_join_cols (joined_cols left right) conds [] = .error e →
      BlockNestedLoopJoinExecutor.new PS left right conds bpm = .error e) ∧
    (∀ jc, build_join_cols (joined_cols left right) conds [] = .ok jc →
      ∃ s0, BlockNestedLoopJoinExecutor.new PS left right conds bpm = .ok s0 ∧
        s0.left_ = left ∧ s0.right_ = right) := by
  constructor
  · intro e h
    simp only [joined_cols] at h
    simp only [BlockNestedLoopJoinExecutor.new, hl, hr, if_false, h]
  · intro jc h
    simp only [joined_cols] at h
    simp only [BlockNestedLoopJoinExecutor.new, hl, hr, if_false, h]
    exact ⟨_, rfl, rfl, rfl⟩

/-- C19 does not hold for a child of tuple length 0.  The divisions of lines 69 and 72 come
before the loop over the conditions: with a left child of tuple length 0 the constructor
traps on the division, both for a condition whose two columns have the same type (no
executor is built) and for one whose columns have different types (the failure is not
`IncompatibleTypeError`); so it does with a right child of tuple length 0 and no
condition. -/
theorem constructor_traps_on_zero_tuple_length :
    cond_types (joined_cols zero_length_child example_right)
        ⟨⟨"r", "id"⟩, 0, false, ⟨"r", "id"⟩⟩ = some (0, 0) ∧
    BlockNestedLoopJoinExecutor.new 4 zero_length_child example_right
        [⟨⟨"r", "id"⟩, 0, false, ⟨"r", "id"⟩⟩] ⟨0, []⟩ = .error .DivisionByZero ∧
    cond_types (joined_cols zero_length_child example_right)
        ⟨⟨"r", "id"⟩, 0, false, ⟨"r", "name"⟩⟩ = some (0, 1) ∧
    BlockNestedLoopJoinExecutor.new 4 zero_length_child example_right
        [⟨⟨"r", "id"⟩, 0, false, ⟨"r", "name"⟩⟩] ⟨0, []⟩ = .error .DivisionByZero ∧
    BlockNestedLoopJoinExecutor.new 4 example_left zero_length_child [] ⟨0, []⟩ =
        .error .DivisionByZero :=
  ⟨rfl, rfl, rfl, rfl, rfl⟩

/-- C19, for children whose tuple lengths are not 0 and conditions that compare two columns
(`is_rhs_val` false) which are both found in the joined schema: the constructor fails with
`IncompatibleTypeError` if and only if the two columns of some condition have different
declared types; it fails with no other error; when the types of every condition match it
succeeds and hands over the two children as they were given; and a failure is the same
whatever tuples and cursor position the children hold, no child is read. -/
theorem constructor_checks_condition_types (PAGE_SIZE : Nat) (left right : Executor)
    (conds : List Condition) (bpm : TmpPool)
    (hl : left.tupleLen ≠ 0) (hr : right.tupleLen ≠ 0)
    (hcols : ∀ c ∈ conds, c.is_rhs_val = false ∧
      (cond_types (joined_cols left right) c).isSome = true) :
    ((∃ a b, BlockNestedLoopJoinExecutor.new PAGE_SIZE left right conds bpm =
          .error (.IncompatibleTypeError a b)) ↔
        ∃ c ∈ conds, ∃ a b, cond_types (joined_cols left right) c = some (a, b) ∧ a ≠ b) ∧
    (∀ e, BlockNestedLoopJoinExecutor.new PAGE_SIZE left right conds bpm = .error e →
        ∃ a b, e = .IncompatibleTypeError a b) ∧
    ((∀ c ∈ conds, ∀ a b, cond_types (joined_cols left right) c = some (a, b) → a = b) →
        ∃ s0, BlockNestedLoopJoinExecutor.new PAGE_SIZE left right conds bpm = .ok s0 ∧
          s0.left_ = left ∧ s0.right_ = right) ∧
    (∀ e tuples1 pos1 tuples2 pos2,
        BlockNestedLoopJoinExecutor.new PAGE_SIZE left right conds bpm = .error e →
        BlockNestedLoopJoinExecutor.new PAGE_SIZE { left with tuples := tuples1, pos := pos1 }
          { right with tuples := tuples2, pos := pos2 } conds bpm = .error e) := by
  obtain ⟨b1, b2⟩ := build_join_cols_spec (joined_cols left right) conds [] hcols
  obtain ⟨n1, n2⟩ := new_eq_build PAGE_SIZE left right conds bpm hl hr
  have hmis : (∃ c ∈ conds, ∃ a b, cond_types (joined_cols left right) c = some (a, b) ∧ a ≠ b) ∨
      (∀ c ∈ conds, ∀ a b, cond_types (joined_cols left right) c = some (a, b) → a = b) := by
    by_cases h : ∃ c ∈ conds, ∃ a b, cond_types (joined_cols left right) c = some (a, b) ∧ a ≠ b
    · exact Or.inl h
    · right
      intro c hc a b hab
      by_contra hne
      exact h ⟨c, hc, a, b, hab, hne⟩
  have hok : (∀ c ∈ conds, ∀ a b, cond_types (joined_cols left right) c = some (a, b) → a = b) →
      ∃ s0, BlockNestedLoopJoinExecutor.new PAGE_SIZE left right conds bpm = .ok s0 ∧
        s0.left_ = left ∧ s0.right_ = right := by
    intro h
    obtain ⟨jc, hjc⟩ := b1 h
    exact n2 jc hjc
  have herr : (∃ c ∈ conds, ∃ a b, cond_types (joined_cols left right) c = some (a, b) ∧ a ≠ b) →
      ∃ a b, BlockNestedLoopJoinExecutor.new PAGE_SIZE left right conds bpm =
        .error (.IncompatibleTypeError a b) := by
    intro h
    obtain ⟨a, b, hab⟩ := b2 h
    exact ⟨a, b, n1 _ hab⟩
  refine ⟨⟨?_, herr⟩, ?_, hok, ?_⟩
  · rintro ⟨a, b, hab⟩
    rcases hmis with h | h
    · exact h
    · obtain ⟨s0, hs0, _⟩ := hok h
      rw [hs0] at hab
      cases hab
  · intro e he
    rcases hmis with h | h
    · obtain ⟨a, b, hab⟩ := herr h
      rw [hab] at he
      simp only [Except.error.injEq] at he
      exact ⟨a, b, he.symm⟩
    · obtain ⟨s0, hs0, _⟩ := hok h
      rw [hs0] at he
      cases he
  · intro e t1 p1 t2 p2 he
    cases hb : build_join_cols (joined_cols left right) conds [] with
    | error e2 =>
      have h1 := n1 e2 hb
      rw [h1] at he
      simp only [Except.error.injEq] at he
      subst he
      exact (new_eq_build PAGE_SIZE { left with tuples := t1, pos := p1 }
        { right with tuples := t2, pos := p2 } conds bpm hl hr).1 e2 hb
    | ok jc =>
      obtain ⟨s0, hs0, _⟩ := n2 jc hb
      rw [hs0] at he
      cases he

theorem constructor_checks_condition_types_witness :
    example_left.tupleLen ≠ 0 ∧ example_right.tupleLen ≠ 0 ∧
    BlockNestedLoopJoinExecutor.new 4 example_left example_right example_conds ⟨0, []⟩ =
        .ok example_join ∧
    BlockNestedLoopJoinExecutor.new 4 example_left example_right
        [⟨⟨"l", "id"⟩, 0, false, ⟨"r", "name"⟩⟩] ⟨0, []⟩ = .error (.IncompatibleTypeError 0 1) ∧
    (∃ s0, BlockNestedLoopJoinExecutor.new 4 example_left example_right example_conds ⟨0, []⟩ =
        .ok s0 ∧ s0.left_ = example_left ∧ s0.right_ = example_right) ∧
    ∃ a b, BlockNestedLoopJoinExecutor.new 4 example_left example_right
        [⟨⟨"l", "id"⟩, 0, false, ⟨"r", "name"⟩⟩] ⟨0, []⟩ = .error (.IncompatibleTypeError a b) :=
  ⟨by decide, by decide, rfl, rfl,
   (constructor_checks_condition_types 4 example_left example_right example_conds ⟨0, []⟩
      (by decide) (by decide) (by decide)).2.2.1
      (by
        intro c hc a b h
        have hc1 : c = ⟨⟨"l", "id"⟩, 0, false, ⟨"r", "id"⟩⟩ := List.mem_singleton.mp hc
        subst hc1
        have h2 : cond_types (joined_cols example_left example_right)
            ⟨⟨"l", "id"⟩, 0, false, ⟨"r", "id"⟩⟩ = some (0, 0) := rfl
        rw [h2] at h
        cases h
        rfl),
   (constructor_checks_condition_types 4 example_left example_right
      [⟨⟨"l", "id"⟩, 0, false, ⟨"r", "name"⟩⟩] ⟨0, []⟩ (by decide) (by decide) (by decide)).1.2
      ⟨_, List.mem_cons_self _ _, 0, 1, rfl, by decide⟩⟩

open BlockNestedLoopJoinExecutor


end Rmdb
